import Mathlib

/-!
# CFB: a reader for the Compound File Binary container

A shallow embedding of `include/CFB.hh` (class `CFB::CompoundFile`) and the
properties of it that the specification states.

Conventions of the embedding.

* The borrowed image is a list of bytes; a pointer into the image is the byte
  offset from the start of the image, a null pointer is `none`.
* `size_t` and `uint64_t` are 64 bits wide, `uint32_t` is 32 bits wide.  Values
  are natural numbers; every place where the C++ narrows or can wrap carries an
  explicit `% 2 ^ 32` or `% 2 ^ 64`.
* A C++ exception is an `Except.error` carrying the throw site.  Three further
  outcomes are no exceptions at all: `Err.undefinedRead` (the C++ loads bytes
  that lie outside the image), `Err.nullDereference` (the C++ follows a null
  pointer) and `Err.divisionByZero`; `Err.outOfFuel` says that a loop of the
  embedding was cut off before the C++ loop would have ended.
* Every `while` loop is a recursion on a fuel argument that is used up by one
  per iteration of the loop body, so the fuel that suffices bounds the number
  of iterations.
-/

namespace CFB

/-! ## Constants -/

abbrev Byte := Fin 256

/-- The `CFB_SIGNATURE` bytes. -/
def CFB_SIGNATURE : List Byte := [0xD0, 0xCF, 0x11, 0xE0, 0xA1, 0xB1, 0x1A, 0xE1]

def CFB_SECTOR_MAX_REGULAR_SECTOR : Nat := 0xFFFFFFFA
def CFB_SECTOR_NOT_APPLICABLE : Nat := 0xFFFFFFFB
def CFB_SECTOR_DIFAT_SECTOR : Nat := 0xFFFFFFFC
def CFB_SECTOR_FAT_SECTOR : Nat := 0xFFFFFFFD
def CFB_SECTOR_END_OF_CHAIN : Nat := 0xFFFFFFFE
def CFB_SECTOR_FREE_SECT : Nat := 0xFFFFFFFF
def CFB_DIRECTORY_ENTRY_NO_STREAM : Nat := 0xFFFFFFFF

/-- The value of `sizeof(CompoundFileHeader)`: 8 + 16 + 5 * 2 + 6 + 9 * 4 + 109 * 4. -/
def sizeofCompoundFileHeader : Nat := 512

/-- The value of `sizeof(DirectoryEntry)`: 64 + 2 + 1 + 1 + 3 * 4 + 16 + 4 + 8 + 8 + 4 + 8. -/
def sizeofDirectoryEntry : Nat := 128

/-! ## Outcomes -/

/-- The ways an operation can end other than by returning.  The first group are
the `throw` statements of the source, named after the place that throws; the
second the two exceptions that the library call `buffer.resize` throws. -/
inductive Err
  /-- `read`: `std::invalid_argument("Buffer is NULL or Buffer Length is zero.")` -/
  | bufferNullOrShort
  /-- `read`: `std::runtime_error("The Creation Time field in the root directory entry must be zero.")` -/
  | rootCreationTime
  /-- `getAddressWithSectorNumber`: `std::invalid_argument`, `offset >= sectorSize` -/
  | offsetGeSectorSize
  /-- `getAddressWithSectorNumber`: `std::invalid_argument`, `sectorNumber >= CFB_SECTOR_MAX_REGULAR_SECTOR` -/
  | sectorGeMaxRegular
  /-- `getAddressWithSectorNumber`: `std::runtime_error("Trying to access out of file")` -/
  | outOfFile
  /-- `getAddressWithMiniSectorNumber`: `std::invalid_argument`, `offset >= miniSectorSize` -/
  | offsetGeMiniSectorSize
  /-- `getAddressWithMiniSectorNumber`: `std::invalid_argument`, `sectorNumber >= CFB_SECTOR_MAX_REGULAR_SECTOR` -/
  | miniSectorGeMaxRegular
  /-- `validateHeader`: `std::runtime_error("Invalid CFB Signature.")` -/
  | invalidSignature
  /-- `validateHeader`: `std::runtime_error("Minor Version is not 0x003E")` -/
  | invalidMinorVersion
  /-- `validateHeader`: `std::runtime_error("Major Version should be 3 or 4")` -/
  | invalidMajorVersion
  /-- `validateHeader`: `std::runtime_error("Invalid Sector Shift")` -/
  | invalidSectorShift
  /-- `validateHeader`: `std::runtime_error("Invalid Byte Order")` -/
  | invalidByteOrder
  /-- `validateHeader`: `std::runtime_error("Invalid mini sector shift")` -/
  | invalidMiniSectorShift
  /-- `readStreamOfEntry`: `std::length_error` from `buffer.resize`, the size is above `max_size()` -/
  | lengthError
  /-- `readStreamOfEntry`: `std::bad_alloc` from `buffer.resize`, the allocator gives no storage -/
  | badAlloc
  /-- No exception: the C++ loads bytes that lie outside the borrowed image. -/
  | undefinedRead
  /-- No exception: the C++ follows a null pointer. -/
  | nullDereference
  /-- No exception: the C++ divides by zero. -/
  | divisionByZero
  /-- The embedding ran out of fuel: the C++ loop has not ended yet. -/
  | outOfFuel
  deriving DecidableEq, Repr

/-- The error kinds that section 7 of the specification names. -/
inductive ErrorKind
  | InvalidArgument
  | HeaderInvalid
  | OutOfBounds
  | CorruptChain
  | CorruptDirectory
  deriving DecidableEq, Repr

/-- Modelled from the spec: the source declares no error kinds (it throws
`std::invalid_argument` and `std::runtime_error` with a message), so each throw
site is given the kind whose description in section 7 it matches.  No throw site
matches `CorruptChain` or `CorruptDirectory`; the two exceptions of
`buffer.resize` match none of the descriptions; the outcomes that are no
exceptions have no kind. -/
def Err.kind : Err → Option ErrorKind
  | .bufferNullOrShort => some .InvalidArgument
  | .offsetGeSectorSize => some .InvalidArgument
  | .sectorGeMaxRegular => some .InvalidArgument
  | .offsetGeMiniSectorSize => some .InvalidArgument
  | .miniSectorGeMaxRegular => some .InvalidArgument
  | .invalidSignature => some .HeaderInvalid
  | .invalidMinorVersion => some .HeaderInvalid
  | .invalidMajorVersion => some .HeaderInvalid
  | .invalidSectorShift => some .HeaderInvalid
  | .invalidByteOrder => some .HeaderInvalid
  | .invalidMiniSectorShift => some .HeaderInvalid
  | .rootCreationTime => some .HeaderInvalid
  | .outOfFile => some .OutOfBounds
  | .lengthError => none
  | .badAlloc => none
  | .undefinedRead => none
  | .nullDereference => none
  | .divisionByZero => none
  | .outOfFuel => none

/-- Whether the outcome is a C++ exception. -/
def Err.isException : Err → Bool
  | .undefinedRead => false
  | .nullDereference => false
  | .divisionByZero => false
  | .outOfFuel => false
  | _ => true

/-! ## Bytes and little-endian fields -/

/-- The unsigned integer whose little-endian bytes are given. -/
def leNat : List Byte → Nat
  | [] => 0
  | b :: bs => b.val + 256 * leNat bs

/-- The bytes `[off, off + n)` of a byte list (fewer when the list ends before). -/
def slice (bytes : List Byte) (off n : Nat) : List Byte := (bytes.drop off).take n

/-- The little-endian field of `n` bytes at offset `off`. -/
def fieldAt (bytes : List Byte) (off n : Nat) : Nat := leNat (slice bytes off n)

/-! ## The two packed structures -/

/-- The `struct CompoundFileHeader` (the unused and reserved bytes left out). -/
structure CompoundFileHeader where
  signature : List Byte
  minorVersion : Nat
  majorVersion : Nat
  byteOrder : Nat
  sectorShift : Nat
  miniSectorShift : Nat
  numDirectorySector : Nat
  numFATSector : Nat
  firstDirectorySectorLocation : Nat
  transactionSignatureNumber : Nat
  miniStreamCutoffSize : Nat
  firstMiniFATSectorLocation : Nat
  numMiniFATSector : Nat
  firstDIFATSectorLocation : Nat
  numDIFATSector : Nat
  headerDIFAT : List Nat
  deriving DecidableEq, Repr

/-- The header that `reinterpret_cast<const CompoundFileHeader*>(buffer)` shows:
the packed fields of the first 512 bytes, each at its offset. -/
def headerView (image : List Byte) : CompoundFileHeader where
  signature := slice image 0 8
  minorVersion := fieldAt image 24 2
  majorVersion := fieldAt image 26 2
  byteOrder := fieldAt image 28 2
  sectorShift := fieldAt image 30 2
  miniSectorShift := fieldAt image 32 2
  numDirectorySector := fieldAt image 40 4
  numFATSector := fieldAt image 44 4
  firstDirectorySectorLocation := fieldAt image 48 4
  transactionSignatureNumber := fieldAt image 52 4
  miniStreamCutoffSize := fieldAt image 56 4
  firstMiniFATSectorLocation := fieldAt image 60 4
  numMiniFATSector := fieldAt image 64 4
  firstDIFATSectorLocation := fieldAt image 68 4
  numDIFATSector := fieldAt image 72 4
  headerDIFAT := (List.range 109).map fun i => fieldAt image (76 + 4 * i) 4

/-- The fields of a `struct DirectoryEntry` that the reader looks at, for an
entry handed in by the caller.  Offsets inside the 128 bytes: `objectType` 66,
`leftSiblingID` 68, `rightSiblingID` 72, `childID` 76, `creationTime` 100,
`startSectorLocation` 116, `streamSize` 120. -/
structure DirectoryEntry where
  objectType : Nat
  leftSiblingID : Nat
  rightSiblingID : Nat
  childID : Nat
  creationTime : Nat
  startSectorLocation : Nat
  streamSize : Nat
  deriving DecidableEq, Repr

/-! ## The reader -/

/-- The data members of `class CompoundFile`. -/
structure CompoundFile where
  buffer : Option (List Byte)
  bufferLength : Nat
  compoundFileHeader : Option CompoundFileHeader
  sectorSize : Nat
  miniSectorSize : Nat
  miniStreamStartSector : Nat
  deriving DecidableEq, Repr

/-- The constructor `CompoundFile()`. -/
def CompoundFile.new : CompoundFile :=
  { buffer := none, bufferLength := 0, compoundFileHeader := none,
    sectorSize := 0, miniSectorSize := 0, miniStreamStartSector := 0 }

/-- The method `clear()`. -/
def CompoundFile.clear (cf : CompoundFile) : CompoundFile :=
  { cf with buffer := none, bufferLength := 0, compoundFileHeader := none,
            sectorSize := 0, miniSectorSize := 0, miniStreamStartSector := 0 }

/-- A load of `n` bytes through a pointer into the image. -/
def CompoundFile.load (cf : CompoundFile) (address n : Nat) : Except Err (List Byte) :=
  match cf.buffer with
  | none => .error .nullDereference
  | some image =>
    if address + n ≤ image.length then .ok (slice image address n) else .error .undefinedRead

/-- The function `getUint32Field`: `*reinterpret_cast<const uint32_t*>(address)`. -/
def CompoundFile.getUint32Field (cf : CompoundFile) (address : Nat) : Except Err Nat :=
  (cf.load address 4).map leNat

/-- A load of a `uint64_t` member through a pointer into the image. -/
def CompoundFile.getUint64Field (cf : CompoundFile) (address : Nat) : Except Err Nat :=
  (cf.load address 8).map leNat

/-- The `compoundFileHeader->` of the source. -/
def CompoundFile.header (cf : CompoundFile) : Except Err CompoundFileHeader :=
  match cf.compoundFileHeader with
  | none => .error .nullDereference
  | some h => .ok h

/-- The method `getCompoundFileHeader()`. -/
def CompoundFile.getCompoundFileHeader (cf : CompoundFile) : Option CompoundFileHeader :=
  cf.compoundFileHeader

/-- The method `validateHeader()`.  In the fourth test `^` is applied to two
`bool`s, so it is "differ", and it binds tighter than `||`. -/
def CompoundFile.validateHeader (cf : CompoundFile) : Except Err Unit := do
  let h ← cf.header
  if h.signature ≠ CFB_SIGNATURE then
    throw .invalidSignature
  if h.minorVersion ≠ 0x003E then
    throw .invalidMinorVersion
  if h.majorVersion ≠ 0x0003 ∧ h.majorVersion ≠ 0x0004 then
    throw .invalidMajorVersion
  if (xor (decide (h.majorVersion = 0x003)) (decide (h.sectorShift = 0x0009))) ||
      (xor (decide (h.majorVersion = 0x004)) (decide (h.sectorShift = 0x000C))) then
    throw .invalidSectorShift
  if h.byteOrder ≠ 0xFFFE then
    throw .invalidByteOrder
  if h.miniSectorShift ≠ 0x0006 then
    throw .invalidMiniSectorShift

/-- The method `getAddressWithSectorNumber(sectorNumber, offset)`; the result is
the offset of the returned pointer from `buffer`.  `sectorNumber + 1` is a
`uint32_t` sum, the product and the outer sum are 64 bits wide. -/
def CompoundFile.getAddressWithSectorNumber (cf : CompoundFile) (sectorNumber offset : Nat) :
    Except Err Nat :=
  if offset ≥ cf.sectorSize then
    .error .offsetGeSectorSize
  else if sectorNumber ≥ CFB_SECTOR_MAX_REGULAR_SECTOR then
    .error .sectorGeMaxRegular
  else
    let bufferOffset := (cf.sectorSize * ((sectorNumber + 1) % 2 ^ 32) + offset) % 2 ^ 64
    if cf.bufferLength ≤ bufferOffset then
      .error .outOfFile
    else
      .ok bufferOffset

/-- The `while` loop of `getFATSectorNumber`, from the state
`(sectorNumber, difatSectorNumber)` to the state at the end of the loop. -/
def CompoundFile.getFATSectorNumberLoop (cf : CompoundFile) (entriesPerSector : Nat) :
    Nat → Nat → Nat → Except Err (Nat × Nat)
  | 0, sectorNumber, difatSectorNumber =>
    if sectorNumber ≥ entriesPerSector then .error .outOfFuel
    else .ok (sectorNumber, difatSectorNumber)
  | fuel + 1, sectorNumber, difatSectorNumber =>
    if sectorNumber ≥ entriesPerSector then do
      let address ← cf.getAddressWithSectorNumber difatSectorNumber
        (((cf.sectorSize + (2 ^ 64 - 4)) % 2 ^ 64) % 2 ^ 32)
      let next ← cf.getUint32Field address
      cf.getFATSectorNumberLoop entriesPerSector fuel (sectorNumber - entriesPerSector) next
    else .ok (sectorNumber, difatSectorNumber)

/-- The method `getFATSectorNumber(sectorNumber)`.  `sectorSize / 4 - 1` and
`sectorSize - 4` are `size_t` differences. -/
def CompoundFile.getFATSectorNumber (cf : CompoundFile) (sectorNumber : Nat) : Except Err Nat := do
  let h ← cf.header
  if sectorNumber < 109 then
    return h.headerDIFAT.getD sectorNumber 0
  let entriesPerSector := (cf.sectorSize / 4 + (2 ^ 64 - 1)) % 2 ^ 64
  let sectorNumber := sectorNumber - 109
  let (sectorNumber, difatSectorNumber) ←
    cf.getFATSectorNumberLoop entriesPerSector sectorNumber sectorNumber h.firstDIFATSectorLocation
  let address ← cf.getAddressWithSectorNumber difatSectorNumber ((sectorNumber * 4) % 2 ^ 32)
  cf.getUint32Field address

/-- The method `getNextFATSectorNumber(sectorNumber)`. -/
def CompoundFile.getNextFATSectorNumber (cf : CompoundFile) (sectorNumber : Nat) : Except Err Nat := do
  let entriesPerSector := (cf.sectorSize / 4) % 2 ^ 32
  if entriesPerSector = 0 then
    throw .divisionByZero
  let currentFATSector := (sectorNumber / entriesPerSector) % 2 ^ 32
  let currentFATSectorNumber ← cf.getFATSectorNumber currentFATSector
  let address ← cf.getAddressWithSectorNumber currentFATSectorNumber
    (((sectorNumber % entriesPerSector) * 4) % 2 ^ 32)
  cf.getUint32Field address

/-- The `while` loop of `getDirectoryEntry`, from the state
`(directoryEntryId, sectorNumber)` to the state at the end of the loop. -/
def CompoundFile.getDirectoryEntryLoop (cf : CompoundFile) (entriesPerSector : Nat) :
    Nat → Nat → Nat → Except Err (Nat × Nat)
  | 0, directoryEntryId, sectorNumber =>
    if entriesPerSector ≤ directoryEntryId ∧ sectorNumber ≠ CFB_SECTOR_END_OF_CHAIN then
      .error .outOfFuel
    else .ok (directoryEntryId, sectorNumber)
  | fuel + 1, directoryEntryId, sectorNumber =>
    if entriesPerSector ≤ directoryEntryId ∧ sectorNumber ≠ CFB_SECTOR_END_OF_CHAIN then do
      let next ← cf.getNextFATSectorNumber sectorNumber
      cf.getDirectoryEntryLoop entriesPerSector fuel (directoryEntryId - entriesPerSector) next
    else .ok (directoryEntryId, sectorNumber)

/-- The method `getDirectoryEntry(directoryEntryId)`; the result is the null
pointer (`none`) or the offset of the entry from `buffer`. -/
def CompoundFile.getDirectoryEntry (cf : CompoundFile) (directoryEntryId : Nat) :
    Except Err (Option Nat) := do
  if directoryEntryId = CFB_DIRECTORY_ENTRY_NO_STREAM then
    return none
  let h ← cf.header
  let sectorNumber := h.firstDirectorySectorLocation
  let entriesPerSector := (cf.sectorSize / sizeofDirectoryEntry) % 2 ^ 32
  let (directoryEntryId, sectorNumber) ←
    cf.getDirectoryEntryLoop entriesPerSector directoryEntryId directoryEntryId sectorNumber
  let directoryEntryAddress ← cf.getAddressWithSectorNumber sectorNumber
    ((directoryEntryId * sizeofDirectoryEntry) % 2 ^ 32)
  return some directoryEntryAddress

/-- The method `getRootDirectoryEntry()`. -/
def CompoundFile.getRootDirectoryEntry (cf : CompoundFile) : Except Err (Option Nat) :=
  cf.getDirectoryEntry 0

/-- The part of `read` after `validateHeader()` has returned: the value is what
`miniStreamStartSector` is set to.  `entry->creationTime` is a load of 8 bytes
at offset 100 of the entry, `entry->startSectorLocation` one of 4 bytes at
offset 116. -/
def CompoundFile.readRoot (cf : CompoundFile) : Except Err Nat := do
  let rootDirectoryEntry ← cf.getRootDirectoryEntry
  match rootDirectoryEntry with
  | none => throw .nullDereference
  | some entry =>
    let creationTime ← cf.getUint64Field (entry + 100)
    if creationTime ≠ 0 then
      throw .rootCreationTime
    cf.getUint32Field (entry + 116)

/-- The method `read(buffer, bufferLength)`: the outcome and the data members
afterwards.  The image is `none` for a null `buffer`, otherwise the
`bufferLength` bytes behind the pointer.  The header has been validated when
the two shifts are evaluated, so `1 << shift` is `2 ^ shift`. -/
def CompoundFile.read (cf : CompoundFile) (buffer : Option (List Byte)) :
    Except Err Unit × CompoundFile :=
  let cf := cf.clear
  match buffer with
  | none => (.error .bufferNullOrShort, cf)
  | some image =>
    if image.length < sizeofCompoundFileHeader then
      (.error .bufferNullOrShort, cf)
    else
      let cf := { cf with buffer := some image }
      let cf := { cf with bufferLength := image.length }
      let cf := { cf with compoundFileHeader := some (headerView image) }
      match cf.validateHeader with
      | .error e => (.error e, cf)
      | .ok _ =>
        let cf := { cf with sectorSize := 2 ^ (headerView image).sectorShift }
        let cf := { cf with miniSectorSize := 2 ^ (headerView image).miniSectorShift }
        match cf.readRoot with
        | .error e => (.error e, cf)
        | .ok start => (.ok (), { cf with miniStreamStartSector := start })

/-- The `while` loop of `getAddressWithMiniSectorNumber`, from the state
`(desiredSector, offset)` to the state at the end of the loop. -/
def CompoundFile.getAddressWithMiniSectorNumberLoop (cf : CompoundFile) :
    Nat → Nat → Nat → Except Err (Nat × Nat)
  | 0, desiredSector, offset =>
    if offset ≥ cf.sectorSize then .error .outOfFuel else .ok (desiredSector, offset)
  | fuel + 1, desiredSector, offset =>
    if offset ≥ cf.sectorSize then do
      let next ← cf.getNextFATSectorNumber desiredSector
      cf.getAddressWithMiniSectorNumberLoop fuel next ((offset - cf.sectorSize) % 2 ^ 32)
    else .ok (desiredSector, offset)

/-- The method `getAddressWithMiniSectorNumber(sectorNumber, offset)`.  The sum
`sectorNumber * miniSectorSize + offset` is a `size_t` stored into the
`uint32_t offset`; `desiredSector` is a `size_t` passed on as a `uint32_t`. -/
def CompoundFile.getAddressWithMiniSectorNumber (cf : CompoundFile) (sectorNumber offset : Nat) :
    Except Err Nat :=
  if offset ≥ cf.miniSectorSize then
    .error .offsetGeMiniSectorSize
  else if sectorNumber ≥ CFB_SECTOR_MAX_REGULAR_SECTOR then
    .error .miniSectorGeMaxRegular
  else do
    let desiredSector := cf.miniStreamStartSector
    let offset := ((sectorNumber * cf.miniSectorSize + offset) % 2 ^ 64) % 2 ^ 32
    let (desiredSector, offset) ← cf.getAddressWithMiniSectorNumberLoop offset desiredSector offset
    cf.getAddressWithSectorNumber (desiredSector % 2 ^ 32) offset

/-- The `while` loop of `getNextMiniFATSectorNumber`, from the state
`(sectorNumber, miniFATSectorNumber)` to the state at the end of the loop. -/
def CompoundFile.getNextMiniFATSectorNumberLoop (cf : CompoundFile) (entriesPerSector : Nat) :
    Nat → Nat → Nat → Except Err (Nat × Nat)
  | 0, sectorNumber, miniFATSectorNumber =>
    if sectorNumber ≥ entriesPerSector ∧ miniFATSectorNumber ≠ CFB_SECTOR_END_OF_CHAIN then
      .error .outOfFuel
    else .ok (sectorNumber, miniFATSectorNumber)
  | fuel + 1, sectorNumber, miniFATSectorNumber =>
    if sectorNumber ≥ entriesPerSector ∧ miniFATSectorNumber ≠ CFB_SECTOR_END_OF_CHAIN then do
      let next ← cf.getNextFATSectorNumber miniFATSectorNumber
      cf.getNextMiniFATSectorNumberLoop entriesPerSector fuel (sectorNumber - entriesPerSector) next
    else .ok (sectorNumber, miniFATSectorNumber)

/-- The method `getNextMiniFATSectorNumber(sectorNumber)`. -/
def CompoundFile.getNextMiniFATSectorNumber (cf : CompoundFile) (sectorNumber : Nat) :
    Except Err Nat := do
  let entriesPerSector := (cf.sectorSize / 4) % 2 ^ 32
  let h ← cf.header
  let (sectorNumber, miniFATSectorNumber) ←
    cf.getNextMiniFATSectorNumberLoop entriesPerSector sectorNumber sectorNumber
      h.firstMiniFATSectorLocation
  if miniFATSectorNumber = CFB_SECTOR_END_OF_CHAIN then
    return CFB_SECTOR_END_OF_CHAIN
  let address ← cf.getAddressWithSectorNumber miniFATSectorNumber ((sectorNumber * 4) % 2 ^ 32)
  cf.getUint32Field address

/-- The value of `std::vector<char>::max_size()`: the largest `ptrdiff_t`, of 64
bits. -/
def vectorMaxSize : Nat := 2 ^ 63 - 1

/-- The call `buffer.resize(n)` of a `std::vector<char>`: the new contents, or
the exception, which leaves the vector as it was.  A size above `max_size()`
throws `std::length_error`; a size up to the present one drops the chars behind
it; a larger one appends zero chars, and throws `std::bad_alloc` when the vector
cannot get the storage for them.  Whether it can is not in the hands of the
program: `alloc n` says whether the vector gets the storage for `n` chars (from
its capacity or from the allocator). -/
def resize (alloc : Nat → Bool) (buffer : List Byte) (n : Nat) : Except Err (List Byte) :=
  if n > vectorMaxSize then .error .lengthError
  else if n ≤ buffer.length then .ok (buffer.take n)
  else if alloc n then .ok (buffer ++ List.replicate (n - buffer.length) 0)
  else .error .badAlloc

/-- The call `memcpy(buffer.data() + bufferPosition, source, source.length)`. -/
def memcpy (buffer : List Byte) (bufferPosition : Nat) (source : List Byte) : List Byte :=
  buffer.take bufferPosition ++ source ++ buffer.drop (bufferPosition + source.length)

/-- The `while` loop of `readStream`: the outcome and the contents of `buffer`
afterwards, from the loop state `(sectorNumber, streamSizeToRead, buffer,
bufferPosition)`. -/
def CompoundFile.readStreamLoop (cf : CompoundFile) (sectorSize : Nat)
    (addressFn : Nat → Nat → Except Err Nat) (nextSectorFn : Nat → Except Err Nat) :
    Nat → Nat → Nat → List Byte → Nat → Except Err Unit × List Byte
  | 0, _, streamSizeToRead, buffer, _ =>
    if streamSizeToRead > 0 then (.error .outOfFuel, buffer) else (.ok (), buffer)
  | fuel + 1, sectorNumber, streamSizeToRead, buffer, bufferPosition =>
    if streamSizeToRead > 0 then
      match addressFn sectorNumber 0 with
      | .error e => (.error e, buffer)
      | .ok sourceAddress =>
        let streamSizeToCopy := min sectorSize streamSizeToRead
        match cf.load sourceAddress (min sectorSize streamSizeToCopy) with
        | .error e => (.error e, buffer)
        | .ok source =>
          let buffer := memcpy buffer bufferPosition source
          match nextSectorFn sectorNumber with
          | .error e => (.error e, buffer)
          | .ok next =>
            cf.readStreamLoop sectorSize addressFn nextSectorFn fuel next
              (streamSizeToRead - streamSizeToCopy) buffer (bufferPosition + streamSizeToCopy)
    else (.ok (), buffer)

/-- The method `readStream(sectorNumber, streamSizeToRead, buffer, sectorSize,
addressFn, nextSectorFn)`: the outcome and the contents of `buffer` afterwards. -/
def CompoundFile.readStream (cf : CompoundFile) (sectorNumber streamSizeToRead : Nat)
    (buffer : List Byte) (sectorSize : Nat)
    (addressFn : Nat → Nat → Except Err Nat) (nextSectorFn : Nat → Except Err Nat) :
    Except Err Unit × List Byte :=
  cf.readStreamLoop sectorSize addressFn nextSectorFn streamSizeToRead sectorNumber
    streamSizeToRead buffer 0

/-- The method `readStreamOfEntry(entry, buffer)`: the outcome and the contents
of the caller's `buffer` afterwards.  `alloc` is the argument of `resize`. -/
def CompoundFile.readStreamOfEntryInto (cf : CompoundFile) (alloc : Nat → Bool)
    (entry : DirectoryEntry) (buffer : List Byte) : Except Err Unit × List Byte :=
  match resize alloc buffer entry.streamSize with
  | .error e => (.error e, buffer)
  | .ok buffer =>
    match cf.header with
    | .error e => (.error e, buffer)
    | .ok h =>
      if entry.streamSize < h.miniStreamCutoffSize then
        cf.readStream entry.startSectorLocation entry.streamSize buffer cf.miniSectorSize
          cf.getAddressWithMiniSectorNumber cf.getNextMiniFATSectorNumber
      else
        cf.readStream entry.startSectorLocation entry.streamSize buffer cf.sectorSize
          cf.getAddressWithSectorNumber cf.getNextFATSectorNumber

/-- The method `readStreamOfEntry(entry)`: the local `buffer` is returned when
the two-argument method returns and is destroyed when it throws. -/
def CompoundFile.readStreamOfEntry (cf : CompoundFile) (alloc : Nat → Bool)
    (entry : DirectoryEntry) : Except Err (List Byte) :=
  match cf.readStreamOfEntryInto alloc entry [] with
  | (.error e, _) => .error e
  | (.ok _, buffer) => .ok buffer

/-- The expression `getDirectoryEntry(entry->childID)` and its like for the two
sibling members: the member is a load of 4 bytes at `member` bytes into the
entry. -/
def CompoundFile.getLinkedEntry (cf : CompoundFile) (entry member : Nat) :
    Except Err (Option Nat) := do
  let id ← cf.getUint32Field (entry + member)
  cf.getDirectoryEntry id

/-- The method `iterateNodes(entry, depth, callback)`: the outcome and the calls
of `callback` made so far, each call the pair of its arguments, after the calls
`calls` made before.  The fuel bounds the depth of the recursion.  (`depth` is
a `size_t`; it is one less than the number of nested activations, which the
stack keeps far below `2 ^ 64`, so `depth + 1` is left unreduced.) -/
def CompoundFile.iterateNodes (cf : CompoundFile) :
    Nat → Option Nat → Nat → List (Nat × Nat) → Except Err Unit × List (Nat × Nat)
  | _, none, _, calls => (.ok (), calls)
  | 0, some _, _, calls => (.error .outOfFuel, calls)
  | fuel + 1, some entry, depth, calls =>
    let calls := calls ++ [(entry, depth)]
    match cf.getLinkedEntry entry 76 with
    | .error e => (.error e, calls)
    | .ok child =>
      let afterChild : Except Err Unit × List (Nat × Nat) :=
        if child ≠ none then
          match cf.getLinkedEntry entry 76 with
          | .error e => (.error e, calls)
          | .ok again => cf.iterateNodes fuel again (depth + 1) calls
        else (.ok (), calls)
      match afterChild with
      | (.error e, calls) => (.error e, calls)
      | (.ok _, calls) =>
        match cf.getLinkedEntry entry 68 with
        | .error e => (.error e, calls)
        | .ok left =>
          match cf.iterateNodes fuel left depth calls with
          | (.error e, calls) => (.error e, calls)
          | (.ok _, calls) =>
            match cf.getLinkedEntry entry 72 with
            | .error e => (.error e, calls)
            | .ok right => cf.iterateNodes fuel right depth calls

/-- The method `iterateAll(callback)`, with the fuel for `iterateNodes`. -/
def CompoundFile.iterateAll (cf : CompoundFile) (fuel : Nat) :
    Except Err Unit × List (Nat × Nat) :=
  match cf.getRootDirectoryEntry with
  | .error e => (.error e, [])
  | .ok none => (.error .nullDereference, [])
  | .ok (some root) =>
    match cf.getLinkedEntry root 76 with
    | .error e => (.error e, [])
    | .ok entry => cf.iterateNodes fuel entry 0 []

/-- The method `iterateFromDirectoryEntry(directoryEntry, callback)`, with the
fuel for `iterateNodes`. -/
def CompoundFile.iterateFromDirectoryEntry (cf : CompoundFile) (fuel : Nat)
    (directoryEntry : DirectoryEntry) : Except Err Unit × List (Nat × Nat) :=
  match cf.getDirectoryEntry directoryEntry.childID with
  | .error e => (.error e, [])
  | .ok entry => cf.iterateNodes fuel entry 0 []

/-! ## The words of the specification -/

deriving instance DecidableEq for Except

/-- The conditions that the specification puts on the header. -/
structure HeaderOk (h : CompoundFileHeader) : Prop where
  signature : h.signature = CFB_SIGNATURE
  minor : h.minorVersion = 0x003E
  major : h.majorVersion = 3 ∨ h.majorVersion = 4
  shift3 : h.majorVersion = 3 ↔ h.sectorShift = 9
  shift4 : h.majorVersion = 4 ↔ h.sectorShift = 12
  byteOrder : h.byteOrder = 0xFFFE
  miniShift : h.miniSectorShift = 6

/-- The data members after `read` has stored the two pointers and the length. -/
def borrowed (image : List Byte) : CompoundFile :=
  { buffer := some image, bufferLength := image.length,
    compoundFileHeader := some (headerView image),
    sectorSize := 0, miniSectorSize := 0, miniStreamStartSector := 0 }

/-- The data members after `read` has set the two sector sizes. -/
def sized (image : List Byte) : CompoundFile :=
  { borrowed image with
    sectorSize := 2 ^ (headerView image).sectorShift,
    miniSectorSize := 2 ^ (headerView image).miniSectorShift }

/-- What the operations need of the data members: the image is borrowed, the
header is the view of its start, the sizes are set. -/
structure Ready (cf : CompoundFile) (image : List Byte) : Prop where
  buffer : cf.buffer = some image
  length : cf.bufferLength = image.length
  header : cf.compoundFileHeader = some (headerView image)
  sector : cf.sectorSize = 512 ∨ cf.sectorSize = 4096
  mini : cf.miniSectorSize = 64

/-- The reader `cf` holds the image: some `read(image)` returned and left `cf`. -/
def Loaded (cf : CompoundFile) (image : List Byte) : Prop :=
  ∃ s : CompoundFile, s.read (some image) = (.ok (), cf)

/-- The throw sites of `read` up to the return of `validateHeader()`. -/
def Err.inValidation : Err → Bool
  | .bufferNullOrShort => true
  | .invalidSignature => true
  | .invalidMinorVersion => true
  | .invalidMajorVersion => true
  | .invalidSectorShift => true
  | .invalidByteOrder => true
  | .invalidMiniSectorShift => true
  | _ => false

/-- The outcome of `read` says that `read` got past `validateHeader()`: it
returned, or it ended at a later place. -/
def PastValidation (outcome : Except Err Unit) : Prop :=
  ∀ e, outcome = .error e → e.inValidation = false

/-- The well-formed input of the specification: long enough, a header that meets
the load invariants, the root entry (index 0, at the start of the first
directory sector) inside the image with `creationTime == 0`. -/
structure WellFormed (image : List Byte) : Prop where
  length : 512 ≤ image.length
  header : HeaderOk (headerView image)
  rootSector : (headerView image).firstDirectorySectorLocation < CFB_SECTOR_MAX_REGULAR_SECTOR
  rootInside : 2 ^ (headerView image).sectorShift *
      ((headerView image).firstDirectorySectorLocation + 1) + 128 ≤ image.length
  creationTime : fieldAt image (2 ^ (headerView image).sectorShift *
      ((headerView image).firstDirectorySectorLocation + 1) + 100) 8 = 0

/-- The chain of the specification: `s_0 = start`, `s_(j+1) = next(s_j)`; the
value is `s_j`, or the first failure of `next` on the way. -/
def chain (next : Nat → Except Err Nat) (start : Nat) : Nat → Except Err Nat
  | 0 => .ok start
  | j + 1 =>
    match chain next start j with
    | .error e => .error e
    | .ok s => next s

/-- The sector size `S` of the specification for the stream of an entry: 64 when
`streamSize < miniStreamCutoffSize`, else the sector size. -/
def streamSectorSize (cf : CompoundFile) (image : List Byte) (entry : DirectoryEntry) : Nat :=
  if entry.streamSize < (headerView image).miniStreamCutoffSize then 64 else cf.sectorSize

/-- The `addr` of the specification for the stream of an entry:
`address_of_mini_sector` when `streamSize < miniStreamCutoffSize`, else
`address_of_sector`. -/
def streamAddress (cf : CompoundFile) (image : List Byte) (entry : DirectoryEntry) :
    Nat → Nat → Except Err Nat :=
  if entry.streamSize < (headerView image).miniStreamCutoffSize then
    cf.getAddressWithMiniSectorNumber
  else cf.getAddressWithSectorNumber

/-- The `next` of the specification for the stream of an entry:
`next_mini_sector` when `streamSize < miniStreamCutoffSize`, else
`next_sector_in_chain`. -/
def streamNext (cf : CompoundFile) (image : List Byte) (entry : DirectoryEntry) :
    Nat → Except Err Nat :=
  if entry.streamSize < (headerView image).miniStreamCutoffSize then
    cf.getNextMiniFATSectorNumber
  else cf.getNextFATSectorNumber

/-- The `visit` of the specification, as a relation: `Visit cf i d out` says
that the links below index `i` form a finite tree of entries and that
`visit(i, d)` is `out`, where `visit(NO_STREAM, d) = []` and
`visit(i, d) = [(entry_at(i), d)] ++ visit(child(i), d + 1) ++ visit(left(i), d)
++ visit(right(i), d)`.  The three links of an entry are its members at offsets
76, 68 and 72. -/
inductive Visit (cf : CompoundFile) : Nat → Nat → List (Nat × Nat) → Prop
  | nil (d : Nat) : Visit cf CFB_DIRECTORY_ENTRY_NO_STREAM d []
  | node (i d entry child left right : Nat) (cs ls rs : List (Nat × Nat)) :
      i ≠ CFB_DIRECTORY_ENTRY_NO_STREAM →
      cf.getDirectoryEntry i = .ok (some entry) →
      cf.getUint32Field (entry + 76) = .ok child →
      cf.getUint32Field (entry + 68) = .ok left →
      cf.getUint32Field (entry + 72) = .ok right →
      Visit cf child (d + 1) cs → Visit cf left d ls → Visit cf right d rs →
      Visit cf i d ([(entry, d)] ++ cs ++ ls ++ rs)

/-- The 32-bit value at byte offset `offset` of sector `sector`, as the source
fetches it: `getUint32Field(getAddressWithSectorNumber(sector, offset))`. -/
def CompoundFile.valueInSector (cf : CompoundFile) (sector offset : Nat) : Except Err Nat := do
  let address ← cf.getAddressWithSectorNumber sector offset
  cf.getUint32Field address

/-- The DIFAT sector after `sector`: the 32-bit value at byte offset
`sector_size - 4` of it. -/
def CompoundFile.nextDIFATSector (cf : CompoundFile) (sector : Nat) : Except Err Nat :=
  cf.valueInSector sector (cf.sectorSize - 4)

/-- A regular sector that starts inside the image. -/
def CompoundFile.RegularInBounds (cf : CompoundFile) (image : List Byte) (sector : Nat) : Prop :=
  sector < CFB_SECTOR_MAX_REGULAR_SECTOR ∧ cf.sectorSize * (sector + 1) < image.length

/-- The three links of a directory entry. -/
inductive Link
  | child
  | left
  | right
  deriving DecidableEq, Repr

/-- The offset of the link inside the 128 bytes of an entry. -/
def Link.member : Link → Nat
  | .child => 76
  | .left => 68
  | .right => 72

/-- The entry that the chain of links `path` leads to from the entry with index
`i`: `none` when `i` or an index on the way is `NO_STREAM`, or an entry on the
way cannot be read. -/
def entryOn (cf : CompoundFile) : Nat → List Link → Option Nat
  | i, [] =>
    if i = CFB_DIRECTORY_ENTRY_NO_STREAM then none
    else
      match cf.getDirectoryEntry i with
      | .ok (some entry) => some entry
      | _ => none
  | i, link :: rest =>
    if i = CFB_DIRECTORY_ENTRY_NO_STREAM then none
    else
      match cf.getDirectoryEntry i with
      | .ok (some entry) =>
        match cf.getUint32Field (entry + link.member) with
        | .ok next => entryOn cf next rest
        | .error _ => none
      | _ => none

/-- The `ENTRY_UNKNOWN_OR_UNALLOCATED` of `enum DirectoryEntryType`. -/
def ENTRY_UNKNOWN_OR_UNALLOCATED : Nat := 0

/-! ## Test images -/

/-- The `width` little-endian bytes of `value`. -/
def bytesLE : Nat → Nat → List Byte
  | 0, _ => []
  | width + 1, value => Fin.ofNat value :: bytesLE width (value / 256)

/-- The bytes followed by zero bytes up to the length `n`. -/
def padTo (n : Nat) (bytes : List Byte) : List Byte := bytes ++ List.replicate (n - bytes.length) 0

/-- The bytes of a table of 32-bit entries, padded with zero bytes to `n` bytes. -/
def mkTable (n : Nat) (entries : List Nat) : List Byte :=
  padTo n (entries.flatMap (bytesLE 4))

/-- The 512 bytes of a header with the given fields; the header DIFAT is `difat`
followed by `FREE` entries. -/
def mkHeader (major shift firstDir cutoff firstMiniFAT firstDIFAT : Nat) (difat : List Nat) :
    List Byte :=
  CFB_SIGNATURE ++ List.replicate 16 0 ++ bytesLE 2 0x3E ++ bytesLE 2 major ++ bytesLE 2 0xFFFE
    ++ bytesLE 2 shift ++ bytesLE 2 6 ++ List.replicate 6 0 ++ bytesLE 4 0 ++ bytesLE 4 1
    ++ bytesLE 4 firstDir ++ bytesLE 4 0 ++ bytesLE 4 cutoff ++ bytesLE 4 firstMiniFAT
    ++ bytesLE 4 1 ++ bytesLE 4 firstDIFAT ++ bytesLE 4 0
    ++ mkTable 436 (difat ++ List.replicate (109 - difat.length) CFB_SECTOR_FREE_SECT)

/-- The 128 bytes of a directory entry with the given fields (no name, creation
time 0). -/
def mkEntry (objectType left right child start size : Nat) : List Byte :=
  List.replicate 66 0 ++ bytesLE 1 objectType ++ bytesLE 1 0 ++ bytesLE 4 left ++ bytesLE 4 right
    ++ bytesLE 4 child ++ List.replicate 20 0 ++ bytesLE 8 0 ++ bytesLE 8 0 ++ bytesLE 4 start
    ++ bytesLE 8 size

/-- A version 3 image of one sector: the directory sector, holding the root
entry alone. -/
def imageTiny : List Byte :=
  mkHeader 3 9 0 4096 CFB_SECTOR_END_OF_CHAIN CFB_SECTOR_END_OF_CHAIN []
    ++ padTo 512 (mkEntry 5 CFB_DIRECTORY_ENTRY_NO_STREAM CFB_DIRECTORY_ENTRY_NO_STREAM
        CFB_DIRECTORY_ENTRY_NO_STREAM CFB_SECTOR_END_OF_CHAIN 0)

/-- The reader after `read(imageTiny)`. -/
def readerTiny : CompoundFile :=
  { buffer := some imageTiny, bufferLength := 1024,
    compoundFileHeader := some (headerView imageTiny),
    sectorSize := 512, miniSectorSize := 64, miniStreamStartSector := CFB_SECTOR_END_OF_CHAIN }

/-- An image of 512 zero bytes: long enough, with a wrong signature. -/
def imageZeros : List Byte := List.replicate 512 0

/-- A version 3 image of seven sectors, with mini-stream cutoff 128.  Sector 0
is the FAT, sectors 1 and 6 the directory (entries 0 to 3 and 4 to 7), sector 2
the mini stream (byte `i` is `i mod 256`), sector 3 the MiniFAT (mini sectors 0
and 1 are a chain), sectors 4 and 5 a chain of two data sectors (bytes 0xAA and
0xBB).  The root has child 1; entry 1 has left sibling 2 and right sibling 3;
entry 3 has child 4. -/
def imageSmall : List Byte :=
  mkHeader 3 9 1 128 3 CFB_SECTOR_END_OF_CHAIN [0]
    ++ mkTable 512 [CFB_SECTOR_FAT_SECTOR, 6, CFB_SECTOR_END_OF_CHAIN, CFB_SECTOR_END_OF_CHAIN,
        5, CFB_SECTOR_END_OF_CHAIN, CFB_SECTOR_END_OF_CHAIN]
    ++ (mkEntry 5 CFB_DIRECTORY_ENTRY_NO_STREAM CFB_DIRECTORY_ENTRY_NO_STREAM 1 2 512
        ++ mkEntry 2 2 3 CFB_DIRECTORY_ENTRY_NO_STREAM 0 100
        ++ mkEntry 2 CFB_DIRECTORY_ENTRY_NO_STREAM CFB_DIRECTORY_ENTRY_NO_STREAM
            CFB_DIRECTORY_ENTRY_NO_STREAM 4 600
        ++ mkEntry 1 CFB_DIRECTORY_ENTRY_NO_STREAM CFB_DIRECTORY_ENTRY_NO_STREAM 4 0 0)
    ++ (List.range 512).map (fun i => Fin.ofNat i)
    ++ mkTable 512 [1, CFB_SECTOR_END_OF_CHAIN]
    ++ List.replicate 512 0xAA ++ List.replicate 512 0xBB
    ++ padTo 512 (mkEntry 2 CFB_DIRECTORY_ENTRY_NO_STREAM CFB_DIRECTORY_ENTRY_NO_STREAM
        CFB_DIRECTORY_ENTRY_NO_STREAM 0 12)

/-- The reader after `read(imageSmall)`. -/
def readerSmall : CompoundFile :=
  { buffer := some imageSmall, bufferLength := 4096,
    compoundFileHeader := some (headerView imageSmall),
    sectorSize := 512, miniSectorSize := 64, miniStreamStartSector := 2 }

/-- An entry for a stream of 100 bytes that starts at mini sector 0: below the
cutoff of `imageSmall`. -/
def entryMini : DirectoryEntry :=
  { objectType := 2, leftSiblingID := CFB_DIRECTORY_ENTRY_NO_STREAM,
    rightSiblingID := CFB_DIRECTORY_ENTRY_NO_STREAM, childID := CFB_DIRECTORY_ENTRY_NO_STREAM,
    creationTime := 0, startSectorLocation := 0, streamSize := 100 }

/-- An entry for a stream of 1500 bytes that starts at sector 4: in `imageSmall`
the chain from sector 4 has two sectors, one less than the stream needs. -/
def entryTruncated : DirectoryEntry :=
  { objectType := 2, leftSiblingID := CFB_DIRECTORY_ENTRY_NO_STREAM,
    rightSiblingID := CFB_DIRECTORY_ENTRY_NO_STREAM, childID := CFB_DIRECTORY_ENTRY_NO_STREAM,
    creationTime := 0, startSectorLocation := 4, streamSize := 1500 }

/-- The first 513 bytes of `imageTiny`: the header and the first byte of the
directory sector. -/
def imageCut : List Byte := imageTiny.take 513

/-- A version 3 image of one sector, the directory sector: the root has child 1,
and entry 1 has itself as left sibling. -/
def imageCycle : List Byte :=
  mkHeader 3 9 0 4096 CFB_SECTOR_END_OF_CHAIN CFB_SECTOR_END_OF_CHAIN []
    ++ padTo 512 (mkEntry 5 CFB_DIRECTORY_ENTRY_NO_STREAM CFB_DIRECTORY_ENTRY_NO_STREAM 1
        CFB_SECTOR_END_OF_CHAIN 0
      ++ mkEntry 2 1 CFB_DIRECTORY_ENTRY_NO_STREAM CFB_DIRECTORY_ENTRY_NO_STREAM 0 0)

/-- The reader after `read(imageCycle)`. -/
def readerCycle : CompoundFile :=
  { buffer := some imageCycle, bufferLength := 1024,
    compoundFileHeader := some (headerView imageCycle),
    sectorSize := 512, miniSectorSize := 64, miniStreamStartSector := CFB_SECTOR_END_OF_CHAIN }

/-- A version 3 image of one sector, the directory sector: the root has child 1,
and entry 1 has object type 0 (unknown or unallocated) and no links. -/
def imageUnallocated : List Byte :=
  mkHeader 3 9 0 4096 CFB_SECTOR_END_OF_CHAIN CFB_SECTOR_END_OF_CHAIN []
    ++ padTo 512 (mkEntry 5 CFB_DIRECTORY_ENTRY_NO_STREAM CFB_DIRECTORY_ENTRY_NO_STREAM 1
        CFB_SECTOR_END_OF_CHAIN 0
      ++ mkEntry 0 CFB_DIRECTORY_ENTRY_NO_STREAM CFB_DIRECTORY_ENTRY_NO_STREAM
        CFB_DIRECTORY_ENTRY_NO_STREAM 0 0)

/-- The reader after `read(imageUnallocated)`. -/
def readerUnallocated : CompoundFile :=
  { buffer := some imageUnallocated, bufferLength := 1024,
    compoundFileHeader := some (headerView imageUnallocated),
    sectorSize := 512, miniSectorSize := 64, miniStreamStartSector := CFB_SECTOR_END_OF_CHAIN }

/-- A version 3 image of four sectors.  Sector 0 is the FAT: the entry of sector
1 is `FREE`, and entry 127 (the one that `FREE mod 128` selects) is 3.  Sector 1
is the first directory sector.  Sector 2 is a DIFAT sector whose 127 entries are
all 0 and whose last field names sector 2 again.  Sector 3 holds zero bytes. -/
def imageSentinel : List Byte :=
  mkHeader 3 9 1 4096 CFB_SECTOR_END_OF_CHAIN 2 [0]
    ++ mkTable 512 ([CFB_SECTOR_FAT_SECTOR, CFB_SECTOR_FREE_SECT, CFB_SECTOR_DIFAT_SECTOR,
        CFB_SECTOR_END_OF_CHAIN] ++ List.replicate 123 0 ++ [3])
    ++ padTo 512 (mkEntry 5 CFB_DIRECTORY_ENTRY_NO_STREAM CFB_DIRECTORY_ENTRY_NO_STREAM
        CFB_DIRECTORY_ENTRY_NO_STREAM CFB_SECTOR_END_OF_CHAIN 0)
    ++ mkTable 512 (List.replicate 127 0 ++ [2])
    ++ List.replicate 512 0

/-- The reader after `read(imageSentinel)`. -/
def readerSentinel : CompoundFile :=
  { buffer := some imageSentinel, bufferLength := 2560,
    compoundFileHeader := some (headerView imageSentinel),
    sectorSize := 512, miniSectorSize := 64, miniStreamStartSector := CFB_SECTOR_END_OF_CHAIN }

/-- A call that `readStream` makes through one of its two function arguments:
`addressFn(sectorNumber, offset)` or `nextSectorFn(sectorNumber)`. -/
inductive StreamCall where
  | address (sectorNumber offset : Nat)
  | next (sectorNumber : Nat)
  deriving DecidableEq, Repr

/-- The calls of `addressFn` and of `nextSectorFn` that the `while` loop of
`readStream` makes, in order, from the loop state `(sectorNumber,
streamSizeToRead)`: the loop of `readStreamLoop`, with each call written down
where the source makes it.  A call that throws is the last one. -/
def CompoundFile.readStreamCalls (cf : CompoundFile) (sectorSize : Nat)
    (addressFn : Nat → Nat → Except Err Nat) (nextSectorFn : Nat → Except Err Nat) :
    Nat → Nat → Nat → List StreamCall
  | 0, _, _ => []
  | fuel + 1, sectorNumber, streamSizeToRead =>
    if streamSizeToRead > 0 then
      .address sectorNumber 0 ::
        match addressFn sectorNumber 0 with
        | .error _ => []
        | .ok sourceAddress =>
          let streamSizeToCopy := min sectorSize streamSizeToRead
          match cf.load sourceAddress (min sectorSize streamSizeToCopy) with
          | .error _ => []
          | .ok _ =>
            .next sectorNumber ::
              match nextSectorFn sectorNumber with
              | .error _ => []
              | .ok next =>
                cf.readStreamCalls sectorSize addressFn nextSectorFn fuel next
                  (streamSizeToRead - streamSizeToCopy)
    else []

/-- The calls of the sector addressing and of the FAT and MiniFAT lookups that
`readStreamOfEntry(entry, buffer)` makes, in order: none when `buffer.resize`
throws, else those of the call of `readStream` that it chooses, with the
functions that the call binds. -/
def CompoundFile.readStreamOfEntryCalls (cf : CompoundFile) (alloc : Nat → Bool)
    (entry : DirectoryEntry) (buffer : List Byte) : List StreamCall :=
  match resize alloc buffer entry.streamSize with
  | .error _ => []
  | .ok _ =>
    match cf.header with
    | .error _ => []
    | .ok h =>
      if entry.streamSize < h.miniStreamCutoffSize then
        cf.readStreamCalls cf.miniSectorSize cf.getAddressWithMiniSectorNumber
          cf.getNextMiniFATSectorNumber entry.streamSize entry.startSectorLocation entry.streamSize
      else
        cf.readStreamCalls cf.sectorSize cf.getAddressWithSectorNumber
          cf.getNextFATSectorNumber entry.streamSize entry.startSectorLocation entry.streamSize

/-- An entry for a stream of `2 ^ 64 - 1` bytes that starts at sector 4. -/
def entryHuge : DirectoryEntry :=
  { objectType := 2, leftSiblingID := CFB_DIRECTORY_ENTRY_NO_STREAM,
    rightSiblingID := CFB_DIRECTORY_ENTRY_NO_STREAM, childID := CFB_DIRECTORY_ENTRY_NO_STREAM,
    creationTime := 0, startSectorLocation := 4, streamSize := 2 ^ 64 - 1 }

/-- A vector that gets the storage for every size. -/
def allocAlways : Nat → Bool := fun _ => true

/-- A vector that gets no storage. -/
def allocNever : Nat → Bool := fun _ => false

/-- An entry for a stream of no bytes whose start sector is `start`. -/
def entryEmpty (start : Nat) : DirectoryEntry :=
  { objectType := 2, leftSiblingID := CFB_DIRECTORY_ENTRY_NO_STREAM,
    rightSiblingID := CFB_DIRECTORY_ENTRY_NO_STREAM, childID := CFB_DIRECTORY_ENTRY_NO_STREAM,
    creationTime := 0, startSectorLocation := start, streamSize := 0 }

/-! ## Properties of `read` -/

theorem validateHeader_some (cf : CompoundFile) (h : CompoundFileHeader)
    (hh : cf.compoundFileHeader = some h) :
    cf.validateHeader =
      if h.signature ≠ CFB_SIGNATURE then .error .invalidSignature
      else if h.minorVersion ≠ 0x003E then .error .invalidMinorVersion
      else if h.majorVersion ≠ 3 ∧ h.majorVersion ≠ 4 then .error .invalidMajorVersion
      else if ¬ ((h.majorVersion = 3 ↔ h.sectorShift = 9) ∧ (h.majorVersion = 4 ↔ h.sectorShift = 12))
        then .error .invalidSectorShift
      else if h.byteOrder ≠ 0xFFFE then .error .invalidByteOrder
      else if h.miniSectorShift ≠ 6 then .error .invalidMiniSectorShift
      else .ok () := by
  unfold CompoundFile.validateHeader CompoundFile.header
  rw [hh]
  simp only [bind, Except.bind, throw, throwThe, MonadExceptOf.throw, pure, Except.pure]
  by_cases h1 : h.signature = CFB_SIGNATURE <;> simp [h1]
  by_cases h2 : h.minorVersion = 0x3E <;> simp [h2]
  by_cases h3 : h.majorVersion = 3 <;> by_cases h4 : h.majorVersion = 4 <;>
    by_cases h5 : h.sectorShift = 9 <;> by_cases h6 : h.sectorShift = 12 <;>
    simp [h3, h4, h5, h6]

theorem validateHeader_ok_iff (cf : CompoundFile) :
    cf.validateHeader = .ok () ↔ ∃ h, cf.compoundFileHeader = some h ∧ HeaderOk h := by
  cases hh : cf.compoundFileHeader with
  | none => simp [CompoundFile.validateHeader, CompoundFile.header, hh, bind, Except.bind]
  | some h =>
    rw [validateHeader_some cf h hh]
    constructor
    · intro hv
      refine ⟨h, rfl, ?_⟩
      split_ifs at hv with h1 h2 h3 h4 h5 h6
      push_neg at h1 h2 h5 h6 h4
      exact ⟨h1, h2, by omega, h4.1, h4.2, h5, h6⟩
    · rintro ⟨h', hh', ok⟩
      cases hh'
      have := ok.major
      simp [ok.signature, ok.minor, ok.shift3, ok.shift4, ok.byteOrder, ok.miniShift]
      have h3 := ok.shift3
      have h4 := ok.shift4
      omega

theorem read_none (s : CompoundFile) : s.read none = (.error .bufferNullOrShort, CompoundFile.new) := rfl

theorem read_short (s : CompoundFile) (image : List Byte) (h : image.length < 512) :
    s.read (some image) = (.error .bufferNullOrShort, CompoundFile.new) := by
  simp [CompoundFile.read, sizeofCompoundFileHeader, h, CompoundFile.clear, CompoundFile.new]

theorem read_some (s : CompoundFile) (image : List Byte) (h : 512 ≤ image.length) :
    s.read (some image) =
      match (borrowed image).validateHeader with
      | .error e => (.error e, borrowed image)
      | .ok _ =>
        match (sized image).readRoot with
        | .error e => (.error e, sized image)
        | .ok start => (.ok (), { sized image with miniStreamStartSector := start }) := by
  have h' : ¬ image.length < sizeofCompoundFileHeader := by
    simp [sizeofCompoundFileHeader]; omega
  simp only [CompoundFile.read, h', if_false, CompoundFile.clear]
  rfl

theorem read_eq_read_new (s : CompoundFile) (buffer : Option (List Byte)) :
    s.read buffer = CompoundFile.new.read buffer := by
  cases buffer <;> rfl

theorem getAddressWithSectorNumber_eq (cf : CompoundFile)
    (hs : cf.sectorSize = 512 ∨ cf.sectorSize = 4096) (n o : Nat) :
    cf.getAddressWithSectorNumber n o =
      if o ≥ cf.sectorSize then .error .offsetGeSectorSize
      else if n ≥ CFB_SECTOR_MAX_REGULAR_SECTOR then .error .sectorGeMaxRegular
      else if cf.bufferLength ≤ cf.sectorSize * (n + 1) + o then .error .outOfFile
      else .ok (cf.sectorSize * (n + 1) + o) := by
  unfold CompoundFile.getAddressWithSectorNumber
  by_cases h1 : o ≥ cf.sectorSize
  · simp [h1]
  by_cases h2 : n ≥ CFB_SECTOR_MAX_REGULAR_SECTOR
  · simp [h1, h2]
  have e : (cf.sectorSize * ((n + 1) % 2 ^ 32) + o) % 2 ^ 64 = cf.sectorSize * (n + 1) + o := by
    unfold CFB_SECTOR_MAX_REGULAR_SECTOR at h2
    have e1 : (n + 1) % 2 ^ 32 = n + 1 := Nat.mod_eq_of_lt (by omega)
    rw [e1]
    apply Nat.mod_eq_of_lt
    rcases hs with hs | hs <;> rw [hs] at h1 ⊢ <;> omega
  simp only [h1, h2, if_false, e]

theorem getAddressWithSectorNumber_ok_iff (cf : CompoundFile)
    (hs : cf.sectorSize = 512 ∨ cf.sectorSize = 4096) (n o a : Nat) :
    cf.getAddressWithSectorNumber n o = .ok a ↔
      o < cf.sectorSize ∧ n < CFB_SECTOR_MAX_REGULAR_SECTOR ∧
        a = cf.sectorSize * (n + 1) + o ∧ a < cf.bufferLength := by
  rw [getAddressWithSectorNumber_eq cf hs]
  split_ifs with h1 h2 h3
  · simp; omega
  · simp; omega
  · simp; omega
  · simp only [Except.ok.injEq]; omega

theorem HeaderOk.sectorSize {h : CompoundFileHeader} (ok : HeaderOk h) :
    (h.majorVersion = 3 ∧ h.sectorShift = 9) ∨ (h.majorVersion = 4 ∧ h.sectorShift = 12) := by
  have h3 := ok.shift3
  have h4 := ok.shift4
  have := ok.major
  omega

theorem sized_ready (image : List Byte) (ok : HeaderOk (headerView image)) :
    Ready (sized image) image := by
  refine ⟨rfl, rfl, rfl, ?_, ?_⟩
  · rcases ok.sectorSize with ⟨_, h⟩ | ⟨_, h⟩ <;> simp [sized, h]
  · simp [sized, ok.miniShift]

theorem Ready.start {cf : CompoundFile} {image : List Byte} (r : Ready cf image) (start : Nat) :
    Ready { cf with miniStreamStartSector := start } image :=
  ⟨r.buffer, r.length, r.header, r.sector, r.mini⟩

theorem load_eq {cf : CompoundFile} {image : List Byte} (hb : cf.buffer = some image)
    (address n : Nat) :
    cf.load address n =
      if address + n ≤ image.length then .ok (slice image address n) else .error .undefinedRead := by
  simp [CompoundFile.load, hb]

theorem getUint32Field_eq {cf : CompoundFile} {image : List Byte} (hb : cf.buffer = some image)
    (address : Nat) :
    cf.getUint32Field address =
      if address + 4 ≤ image.length then .ok (fieldAt image address 4) else .error .undefinedRead := by
  simp only [CompoundFile.getUint32Field, load_eq hb]
  split_ifs <;> rfl

theorem getUint64Field_eq {cf : CompoundFile} {image : List Byte} (hb : cf.buffer = some image)
    (address : Nat) :
    cf.getUint64Field address =
      if address + 8 ≤ image.length then .ok (fieldAt image address 8) else .error .undefinedRead := by
  simp only [CompoundFile.getUint64Field, load_eq hb]
  split_ifs <;> rfl

theorem getDirectoryEntryLoop_lt (cf : CompoundFile) (eps fuel id s : Nat) (h : id < eps) :
    cf.getDirectoryEntryLoop eps fuel id s = .ok (id, s) := by
  have h' : ¬ (eps ≤ id ∧ s ≠ CFB_SECTOR_END_OF_CHAIN) := fun c => absurd c.1 (by omega)
  cases fuel <;> simp only [CompoundFile.getDirectoryEntryLoop, h', if_false]

theorem entriesPerSector_dir {cf : CompoundFile} {image : List Byte} (r : Ready cf image) :
    (cf.sectorSize / sizeofDirectoryEntry) % 2 ^ 32 = cf.sectorSize / 128 ∧
      0 < cf.sectorSize / 128 ∧ cf.sectorSize / 128 * 128 = cf.sectorSize := by
  rcases r.sector with h | h <;> simp [h, sizeofDirectoryEntry]

theorem getDirectoryEntry_eq {cf : CompoundFile} {image : List Byte} (r : Ready cf image)
    (id : Nat) (hid : id ≠ CFB_DIRECTORY_ENTRY_NO_STREAM) :
    cf.getDirectoryEntry id =
      match cf.getDirectoryEntryLoop (cf.sectorSize / 128) id id
          (headerView image).firstDirectorySectorLocation with
      | .error e => .error e
      | .ok (id', s) =>
        (cf.getAddressWithSectorNumber s ((id' * 128) % 2 ^ 32)).map some := by
  simp only [CompoundFile.getDirectoryEntry, CompoundFile.header, r.header, hid, if_false,
    (entriesPerSector_dir r).1, bind, Except.bind, pure, Except.pure]
  cases cf.getDirectoryEntryLoop (cf.sectorSize / 128) id id
      (headerView image).firstDirectorySectorLocation with
  | error e => rfl
  | ok p =>
    obtain ⟨id', s⟩ := p
    simp only [sizeofDirectoryEntry]
    cases cf.getAddressWithSectorNumber s ((id' * 128) % 2 ^ 32) <;> rfl

theorem getDirectoryEntry_zero {cf : CompoundFile} {image : List Byte} (r : Ready cf image) :
    cf.getDirectoryEntry 0 =
      (cf.getAddressWithSectorNumber (headerView image).firstDirectorySectorLocation 0).map some := by
  rw [getDirectoryEntry_eq r 0 (by decide),
    getDirectoryEntryLoop_lt cf _ _ _ _ (entriesPerSector_dir r).2.1]
  rfl

theorem readRoot_eq {cf : CompoundFile} {image : List Byte} (r : Ready cf image) :
    cf.readRoot =
      match cf.getAddressWithSectorNumber (headerView image).firstDirectorySectorLocation 0 with
      | .error e => .error e
      | .ok entry =>
        if entry + 108 ≤ image.length then
          if fieldAt image (entry + 100) 8 ≠ 0 then .error .rootCreationTime
          else if entry + 120 ≤ image.length then .ok (fieldAt image (entry + 116) 4)
          else .error .undefinedRead
        else .error .undefinedRead := by
  simp only [CompoundFile.readRoot, CompoundFile.getRootDirectoryEntry, getDirectoryEntry_zero r,
    getUint64Field_eq r.buffer, getUint32Field_eq r.buffer]
  cases cf.getAddressWithSectorNumber (headerView image).firstDirectorySectorLocation 0 with
  | error e => rfl
  | ok entry =>
    simp only [Except.map, bind, Except.bind, throw, throwThe, MonadExceptOf.throw, pure, Except.pure]
    split_ifs <;> simp_all

theorem borrowed_validateHeader_ok_iff (image : List Byte) :
    (borrowed image).validateHeader = .ok () ↔ HeaderOk (headerView image) := by
  rw [validateHeader_ok_iff]
  constructor
  · rintro ⟨h, hh, ok⟩
    cases hh
    exact ok
  · intro ok
    exact ⟨_, rfl, ok⟩

theorem read_ok_iff (s cf : CompoundFile) (buffer : Option (List Byte)) :
    s.read buffer = (.ok (), cf) ↔
      ∃ image, buffer = some image ∧ 512 ≤ image.length ∧ HeaderOk (headerView image) ∧
        ∃ start, (sized image).readRoot = .ok start ∧
          cf = { sized image with miniStreamStartSector := start } := by
  cases buffer with
  | none => simp [read_none]
  | some image =>
    by_cases hlen : image.length < 512
    · rw [read_short s image hlen]
      simp
      intro h
      omega
    · rw [read_some s image (by omega)]
      cases hv : (borrowed image).validateHeader with
      | error e =>
        have : ¬ HeaderOk (headerView image) := by
          rw [← borrowed_validateHeader_ok_iff, hv]; simp
        simp [this]
      | ok u =>
        have ok : HeaderOk (headerView image) := by
          rw [← borrowed_validateHeader_ok_iff, hv]
        rcases hr : (sized image).readRoot with e | start
        · simp [hr]
        · simp only [Prod.mk.injEq, true_and, Option.some.injEq, exists_eq_left', Except.ok.injEq]
          constructor
          · intro h
            exact ⟨by omega, ok, start, hr, h.symm⟩
          · rintro ⟨_, _, start', h1, h2⟩
            rw [hr] at h1
            cases h1
            exact h2.symm

theorem Loaded.ready {cf : CompoundFile} {image : List Byte} (h : Loaded cf image) :
    Ready cf image := by
  obtain ⟨s, hs⟩ := h
  obtain ⟨image', h1, _, ok, start, _, rfl⟩ := (read_ok_iff s cf _).1 hs
  cases h1
  exact (sized_ready image ok).start start

theorem Loaded.headerOk {cf : CompoundFile} {image : List Byte} (h : Loaded cf image) :
    HeaderOk (headerView image) := by
  obtain ⟨s, hs⟩ := h
  obtain ⟨image', h1, _, ok, _⟩ := (read_ok_iff s cf _).1 hs
  cases h1
  exact ok

theorem readerTiny_loaded : Loaded readerTiny imageTiny := ⟨CompoundFile.new, by decide!⟩

theorem headerOk_imageTiny : HeaderOk (headerView imageTiny) :=
  ⟨by decide!, by decide!, by decide!, by decide!, by decide!, by decide!, by decide!⟩

theorem read_error_of_not_headerOk (s : CompoundFile) (image : List Byte) (hlen : 512 ≤ image.length)
    (hbad : ¬ HeaderOk (headerView image)) :
    ∃ e, s.read (some image) = (.error e, borrowed image) ∧ e.inValidation = true ∧
      e ≠ .bufferNullOrShort ∧ (borrowed image).validateHeader = .error e := by
  rw [read_some s image hlen]
  rcases hv : (borrowed image).validateHeader with e | u
  · refine ⟨e, rfl, ?_, ?_, rfl⟩ <;>
    · rw [validateHeader_some (borrowed image) (headerView image) rfl] at hv
      split_ifs at hv <;> cases hv <;> decide
  · exact absurd ((borrowed_validateHeader_ok_iff image).1 hv) hbad

theorem readRoot_flat {cf : CompoundFile} {image : List Byte} (r : Ready cf image) :
    cf.readRoot =
      if (headerView image).firstDirectorySectorLocation ≥ CFB_SECTOR_MAX_REGULAR_SECTOR then
        .error .sectorGeMaxRegular
      else if image.length ≤ cf.sectorSize * ((headerView image).firstDirectorySectorLocation + 1)
        then .error .outOfFile
      else if image.length <
          cf.sectorSize * ((headerView image).firstDirectorySectorLocation + 1) + 108 then
        .error .undefinedRead
      else if fieldAt image
          (cf.sectorSize * ((headerView image).firstDirectorySectorLocation + 1) + 100) 8 ≠ 0 then
        .error .rootCreationTime
      else if image.length <
          cf.sectorSize * ((headerView image).firstDirectorySectorLocation + 1) + 120 then
        .error .undefinedRead
      else .ok (fieldAt image
          (cf.sectorSize * ((headerView image).firstDirectorySectorLocation + 1) + 116) 4) := by
  have h0 : ¬ 0 ≥ cf.sectorSize := by rcases r.sector with h | h <;> omega
  rw [readRoot_eq r, getAddressWithSectorNumber_eq cf r.sector, r.length]
  simp only [h0, if_false, Nat.add_zero]
  by_cases h1 : (headerView image).firstDirectorySectorLocation ≥ CFB_SECTOR_MAX_REGULAR_SECTOR
  · simp only [h1, if_true]
  simp only [h1, if_false]
  by_cases h2 : image.length ≤ cf.sectorSize * ((headerView image).firstDirectorySectorLocation + 1)
  · simp only [h2, if_true]
  simp only [h2, if_false]
  split_ifs <;> first | rfl | omega

theorem readRoot_not_inValidation {cf : CompoundFile} {image : List Byte} (r : Ready cf image)
    (e : Err) (h : cf.readRoot = .error e) : e.inValidation = false := by
  rw [readRoot_flat r] at h
  split_ifs at h <;> cases h <;> rfl

theorem read_headerOk (s : CompoundFile) (image : List Byte) (hlen : 512 ≤ image.length)
    (ok : HeaderOk (headerView image)) :
    s.read (some image) =
      match (sized image).readRoot with
      | .error e => (.error e, sized image)
      | .ok start => (.ok (), { sized image with miniStreamStartSector := start }) := by
  simp only [read_some s image hlen, (borrowed_validateHeader_ok_iff image).2 ok]

theorem signature_ne_of_byte (image : List Byte) (i : Nat) (b : Byte) (hi : i < 8)
    (hb : image[i]? = some b) (hne : some b ≠ CFB_SIGNATURE[i]?) :
    (headerView image).signature ≠ CFB_SIGNATURE := by
  intro h
  apply hne
  have : (slice image 0 8)[i]? = image[i]? := by
    simp [slice, List.getElem?_take, hi]
  rw [← hb, ← this]
  exact congrArg (fun l => l[i]?) h

/-- C4. `read` gets past header validation exactly for a non-null image of at
least 512 bytes whose header has the signature, minor version 0x3E, major
version 3 or 4, sector shift 9 exactly for major version 3 and 12 exactly for
major version 4, byte order 0xFFFE and mini sector shift 6.  An image of at least
512 bytes with a signature byte that differs from the signature fails with the
invalid-signature error (kind `HeaderInvalid`); a null or short image fails with
the invalid-argument error of `read` (kind `InvalidArgument`). -/
theorem read_past_validation_iff (s : CompoundFile) (buffer : Option (List Byte)) :
    (PastValidation (s.read buffer).1 ↔
      ∃ image, buffer = some image ∧ 512 ≤ image.length ∧ HeaderOk (headerView image)) ∧
    (∀ image i b, buffer = some image → 512 ≤ image.length → i < 8 → image[i]? = some b →
      some b ≠ CFB_SIGNATURE[i]? →
      (s.read buffer).1 = .error .invalidSignature ∧
        Err.invalidSignature.kind = some .HeaderInvalid) ∧
    ((buffer = none ∨ ∃ image, buffer = some image ∧ image.length < 512) →
      (s.read buffer).1 = .error .bufferNullOrShort ∧
        Err.bufferNullOrShort.kind = some .InvalidArgument) := by
  refine ⟨?_, ?_, ?_⟩
  · cases buffer with
    | none => simp [read_none, PastValidation, Err.inValidation]
    | some image =>
      by_cases hlen : image.length < 512
      · rw [read_short s image hlen]
        simp [PastValidation, Err.inValidation]
        intro h
        omega
      · by_cases ok : HeaderOk (headerView image)
        · have hp : PastValidation (s.read (some image)).1 := by
            rw [read_headerOk s image (by omega) ok]
            rcases hr : (sized image).readRoot with e | start
            · intro e' he'
              cases he'
              exact readRoot_not_inValidation (sized_ready image ok) e hr
            · intro e' he'
              cases he'
          simp only [hp, true_iff]
          exact ⟨image, rfl, by omega, ok⟩
        · obtain ⟨e, he, hv, _⟩ := read_error_of_not_headerOk s image (by omega) ok
          rw [he]
          simp [PastValidation, hv, ok]
  · rintro image i b rfl hlen hi hb hne
    refine ⟨?_, rfl⟩
    have hsig := signature_ne_of_byte image i b hi hb hne
    rw [read_some s image hlen, validateHeader_some (borrowed image) (headerView image) rfl,
      if_pos hsig]
  · rintro (rfl | ⟨image, rfl, hlen⟩)
    · exact ⟨rfl, rfl⟩
    · rw [read_short s image hlen]
      exact ⟨rfl, rfl⟩

/-- C4, at concrete inputs: `imageTiny` gets past validation, `imageZeros` (its
first byte is not 0xD0) and the null image do not. -/
theorem read_past_validation_iff_witness :
    PastValidation (CompoundFile.new.read (some imageTiny)).1 ∧
      (CompoundFile.new.read (some imageZeros)).1 = .error .invalidSignature ∧
      (CompoundFile.new.read none).1 = .error .bufferNullOrShort := by
  refine ⟨?_, ?_, ?_⟩
  · exact (read_past_validation_iff CompoundFile.new (some imageTiny)).1.2
      ⟨imageTiny, rfl, by decide!, headerOk_imageTiny⟩
  · have h1 : 512 ≤ imageZeros.length := by decide!
    have h2 : imageZeros[0]? = some 0 := by decide!
    exact ((read_past_validation_iff CompoundFile.new (some imageZeros)).2.1 imageZeros 0 0 rfl
      h1 (by decide) h2 (by decide)).1
  · exact ((read_past_validation_iff CompoundFile.new none).2.2 (Or.inl rfl)).1

theorem wellFormed_imageTiny : WellFormed imageTiny :=
  ⟨by decide!, headerOk_imageTiny, by decide!, by decide!, by decide!⟩

theorem sized_sectorSize (image : List Byte) :
    (sized image).sectorSize = 2 ^ (headerView image).sectorShift := rfl

/-- C5. `read` succeeds on every well-formed image; and when `read` succeeds,
the header is the view of the image's first 512 bytes with major version 3 or 4,
minor version 0x3E and byte order 0xFFFE, the sector size is `1 << sectorShift`
(512 or 4096), the mini sector size is 64, and the mini-stream start sector is
the `startSectorLocation` of directory entry 0, whose `creationTime` is 0. -/
theorem read_wellFormed (s cf : CompoundFile) (buffer : Option (List Byte)) :
    (∀ image, buffer = some image → WellFormed image → (s.read buffer).1 = .ok ()) ∧
    (s.read buffer = (.ok (), cf) →
      ∃ image, buffer = some image ∧
        cf.getCompoundFileHeader = some (headerView image) ∧
        ((headerView image).majorVersion = 3 ∨ (headerView image).majorVersion = 4) ∧
        (headerView image).minorVersion = 0x3E ∧ (headerView image).byteOrder = 0xFFFE ∧
        cf.sectorSize = 1 <<< (headerView image).sectorShift ∧
        (cf.sectorSize = 512 ∨ cf.sectorSize = 4096) ∧ cf.miniSectorSize = 64 ∧
        ∃ root, cf.getDirectoryEntry 0 = .ok (some root) ∧ root + 120 ≤ image.length ∧
          cf.miniStreamStartSector = fieldAt image (root + 116) 4 ∧
          fieldAt image (root + 100) 8 = 0) := by
  constructor
  · rintro image rfl wf
    have r := sized_ready image wf.header
    rw [read_headerOk s image wf.length wf.header, readRoot_flat r, sized_sectorSize]
    have h1 := wf.rootSector
    have h2 := wf.rootInside
    have h3 := wf.creationTime
    rw [if_neg (by omega), if_neg (by omega), if_neg (by omega), if_neg (by simp [h3]),
      if_neg (by omega)]
  · intro h
    obtain ⟨image, rfl, hlen, ok, start, hroot, rfl⟩ := (read_ok_iff s cf buffer).1 h
    have r := sized_ready image ok
    have r' := r.start start
    refine ⟨image, rfl, rfl, ok.major, ok.minor, ok.byteOrder, ?_, r.sector, r.mini, ?_⟩
    · show 2 ^ (headerView image).sectorShift = 1 <<< (headerView image).sectorShift
      rw [Nat.one_shiftLeft]
    · rw [readRoot_flat r] at hroot
      have hs : ¬ 0 ≥ (sized image).sectorSize := by rcases r.sector with h | h <;> omega
      have hss : ({ sized image with miniStreamStartSector := start } : CompoundFile).sectorSize
          = (sized image).sectorSize := rfl
      rw [getDirectoryEntry_zero r', getAddressWithSectorNumber_eq _ r'.sector, r'.length, hss]
      split_ifs at hroot with h1 h2 h3 h4 h5
      simp only [Except.ok.injEq] at hroot
      rw [if_neg hs, if_neg h1, if_neg (by omega)]
      refine ⟨_, rfl, by omega, ?_, ?_⟩
      · exact hroot.symm
      · simpa using h4

/-- C5, at a concrete input: `imageTiny` is well formed, and `read` leaves the
reader `readerTiny`. -/
theorem read_wellFormed_witness :
    (CompoundFile.new.read (some imageTiny)).1 = .ok () ∧
      ∃ image, some imageTiny = some image ∧
        readerTiny.getCompoundFileHeader = some (headerView image) ∧
        ((headerView image).majorVersion = 3 ∨ (headerView image).majorVersion = 4) ∧
        (headerView image).minorVersion = 0x3E ∧ (headerView image).byteOrder = 0xFFFE ∧
        readerTiny.sectorSize = 1 <<< (headerView image).sectorShift ∧
        (readerTiny.sectorSize = 512 ∨ readerTiny.sectorSize = 4096) ∧
        readerTiny.miniSectorSize = 64 ∧
        ∃ root, readerTiny.getDirectoryEntry 0 = .ok (some root) ∧ root + 120 ≤ image.length ∧
          readerTiny.miniStreamStartSector = fieldAt image (root + 116) 4 ∧
          fieldAt image (root + 100) 8 = 0 :=
  ⟨(read_wellFormed CompoundFile.new readerTiny (some imageTiny)).1 imageTiny rfl
      wellFormed_imageTiny,
    (read_wellFormed CompoundFile.new readerTiny (some imageTiny)).2 (by decide!)⟩

/-- C6, as stated, fails: `read` of 512 zero bytes fails in header validation and
leaves the reader holding the image, not cleared. -/
theorem read_failure_not_cleared :
    (CompoundFile.new.read (some imageZeros)).1 = .error .invalidSignature ∧
      (CompoundFile.new.read (some imageZeros)).2.buffer = some imageZeros ∧
      (CompoundFile.new.read (some imageZeros)).2.bufferLength = 512 ∧
      (CompoundFile.new.read (some imageZeros)).2 ≠ CompoundFile.new.clear := by
  decide!

/-- C6, amended. When `read` fails, `miniStreamStartSector` is 0; a null or short
image leaves the reader in the cleared state; a failure of header validation
leaves it holding the image, its length and the header view, with both sector
sizes 0; a failure at the root entry leaves it holding these and the two sector
sizes. -/
theorem read_failure_state (s : CompoundFile) (buffer : Option (List Byte)) (e : Err)
    (h : (s.read buffer).1 = .error e) :
    (s.read buffer).2.miniStreamStartSector = 0 ∧
    ((buffer = none ∨ ∃ image, buffer = some image ∧ image.length < 512) →
      (s.read buffer).2 = s.clear) ∧
    (∀ image, buffer = some image → 512 ≤ image.length →
      (¬ HeaderOk (headerView image) → (s.read buffer).2 = borrowed image) ∧
      (HeaderOk (headerView image) → (s.read buffer).2 = sized image)) := by
  cases buffer with
  | none =>
    refine ⟨rfl, fun _ => rfl, ?_⟩
    intro image hb
    cases hb
  | some image =>
    by_cases hlen : image.length < 512
    · rw [read_short s image hlen]
      refine ⟨rfl, fun _ => rfl, ?_⟩
      intro image' hb hlen'
      cases hb
      omega
    · by_cases ok : HeaderOk (headerView image)
      · rw [read_headerOk s image (by omega) ok] at h ⊢
        rcases hr : (sized image).readRoot with e' | start
        · simp only [hr]
          refine ⟨rfl, ?_, ?_⟩
          · rintro (hb | ⟨image', hb, hlen'⟩)
            · cases hb
            · cases hb
              omega
          · intro image' hb _
            cases hb
            exact ⟨fun c => absurd ok c, fun _ => rfl⟩
        · simp [hr] at h
      · obtain ⟨e', he, _⟩ := read_error_of_not_headerOk s image (by omega) ok
        rw [he]
        refine ⟨rfl, ?_, ?_⟩
        · rintro (hb | ⟨image', hb, hlen'⟩)
          · cases hb
          · cases hb
            omega
        · intro image' hb _
          cases hb
          exact ⟨fun _ => rfl, fun c => absurd c ok⟩

/-- C6, amended, at a concrete input: `read` of 512 zero bytes. -/
theorem read_failure_state_witness :
    (CompoundFile.new.read (some imageZeros)).2.miniStreamStartSector = 0 ∧
      (CompoundFile.new.read (some imageZeros)).2 = borrowed imageZeros :=
  have h := read_failure_state CompoundFile.new (some imageZeros) .invalidSignature (by decide!)
  ⟨h.1, (h.2.2 imageZeros rfl (by decide!)).1 (fun ok => absurd ok.signature (by decide!))⟩

/-- C7. `read` from any state of the reader has the outcome and leaves the state
that `read` on a newly constructed reader has and leaves; `clear` after `clear`
leaves what `clear` leaves. -/
theorem read_from_any_state (s : CompoundFile) (buffer : Option (List Byte)) :
    s.read buffer = CompoundFile.new.read buffer ∧ s.clear.clear = s.clear :=
  ⟨read_eq_read_new s buffer, rfl⟩

/-! ## Properties of the directory lookup -/

theorem readerSmall_loaded : Loaded readerSmall imageSmall := ⟨CompoundFile.new, by decide!⟩

theorem chain_succ_front (next : Nat → Except Err Nat) (s j : Nat) :
    chain next s (j + 1) =
      match next s with
      | .error e => .error e
      | .ok s' => chain next s' j := by
  induction j with
  | zero =>
    simp only [chain]
    cases next s <;> rfl
  | succ j ih =>
    rw [chain, ih]
    cases h : next s with
    | error e => rfl
    | ok s' => simp only [chain]

theorem chain_ok_of_succ (next : Nat → Except Err Nat) (s j t : Nat)
    (h : chain next s (j + 1) = .ok t) : ∃ u, chain next s j = .ok u ∧ next u = .ok t := by
  rw [chain] at h
  cases hc : chain next s j with
  | error e => rw [hc] at h; cases h
  | ok u => rw [hc] at h; exact ⟨u, rfl, h⟩

theorem getDirectoryEntryLoop_ok (cf : CompoundFile) (eps : Nat) :
    ∀ fuel id s id' s', cf.getDirectoryEntryLoop eps fuel id s = .ok (id', s') →
      ∃ k, chain cf.getNextFATSectorNumber s k = .ok s' ∧ id = id' + k * eps ∧
        (id' < eps ∨ s' = CFB_SECTOR_END_OF_CHAIN) := by
  intro fuel
  induction fuel with
  | zero =>
    intro id s id' s' h
    simp only [CompoundFile.getDirectoryEntryLoop] at h
    split_ifs at h with hc
    simp only [Except.ok.injEq, Prod.mk.injEq] at h
    obtain ⟨rfl, rfl⟩ := h
    refine ⟨0, rfl, by omega, ?_⟩
    by_cases hs : s = CFB_SECTOR_END_OF_CHAIN
    · exact Or.inr hs
    · exact Or.inl (by
        by_contra hlt
        exact hc ⟨by omega, hs⟩)
  | succ fuel ih =>
    intro id s id' s' h
    simp only [CompoundFile.getDirectoryEntryLoop] at h
    split_ifs at h with hc
    · cases hn : cf.getNextFATSectorNumber s with
      | error e => simp [hn, bind, Except.bind] at h
      | ok n =>
        simp only [hn, bind, Except.bind] at h
        obtain ⟨k, hk, hid, hend⟩ := ih _ _ _ _ h
        refine ⟨k + 1, ?_, ?_, hend⟩
        · rw [chain_succ_front, hn]
          exact hk
        · have := hc.1
          rw [Nat.add_mul]
          omega
    · simp only [Except.ok.injEq, Prod.mk.injEq] at h
      obtain ⟨rfl, rfl⟩ := h
      refine ⟨0, rfl, by omega, ?_⟩
      by_cases hs : s = CFB_SECTOR_END_OF_CHAIN
      · exact Or.inr hs
      · exact Or.inl (by
          by_contra hlt
          exact hc ⟨by omega, hs⟩)

theorem getDirectoryEntryLoop_endOfChain (cf : CompoundFile) (eps : Nat) (heps : 0 < eps) :
    ∀ j fuel id s, chain cf.getNextFATSectorNumber s j = .ok CFB_SECTOR_END_OF_CHAIN →
      j ≤ id / eps → id / eps ≤ fuel →
      ∃ id', cf.getDirectoryEntryLoop eps fuel id s = .ok (id', CFB_SECTOR_END_OF_CHAIN) := by
  intro j
  induction j with
  | zero =>
    intro fuel id s hc _ _
    simp only [chain, Except.ok.injEq] at hc
    subst hc
    cases fuel <;> exact ⟨id, by simp [CompoundFile.getDirectoryEntryLoop]⟩
  | succ j ih =>
    intro fuel id s hc hj hfuel
    by_cases hs : s = CFB_SECTOR_END_OF_CHAIN
    · subst hs
      cases fuel <;> exact ⟨id, by simp [CompoundFile.getDirectoryEntryLoop]⟩
    · rw [chain_succ_front] at hc
      cases hn : cf.getNextFATSectorNumber s with
      | error e => rw [hn] at hc; cases hc
      | ok n =>
        rw [hn] at hc
        have hq : 1 ≤ id / eps := by omega
        have hle : eps ≤ id := by
          by_contra hlt
          rw [Nat.div_eq_of_lt (by omega)] at hq
          omega
        have hdiv : (id - eps) / eps = id / eps - 1 := by
          have := Nat.div_eq_sub_div heps hle
          omega
        cases fuel with
        | zero => omega
        | succ fuel =>
          obtain ⟨id', h⟩ := ih fuel (id - eps) n hc (by omega) (by omega)
          refine ⟨id', ?_⟩
          simp only [CompoundFile.getDirectoryEntryLoop, hle, hs, ne_eq, not_false_eq_true,
            and_self, if_true, hn, bind, Except.bind]
          exact h
theorem getAddressWithSectorNumber_endOfChain (cf : CompoundFile) (offset : Nat) :
    cf.getAddressWithSectorNumber CFB_SECTOR_END_OF_CHAIN offset = .error .offsetGeSectorSize ∨
      cf.getAddressWithSectorNumber CFB_SECTOR_END_OF_CHAIN offset = .error .sectorGeMaxRegular := by
  unfold CompoundFile.getAddressWithSectorNumber
  by_cases h : offset ≥ cf.sectorSize
  · exact Or.inl (by simp only [h, if_true])
  · refine Or.inr ?_
    have h2 : CFB_SECTOR_END_OF_CHAIN ≥ CFB_SECTOR_MAX_REGULAR_SECTOR := by decide
    simp only [h, h2, if_true, if_false]

/-- C8. In a loaded reader `entry_at(NO_STREAM)` is the null pointer; an entry
returned for another index starts at image offset
`sector_size * (d_q + 1) + r * 128`, with `q = index div eps`,
`r = index mod eps`, `eps = sector_size / 128`, `d_0` the first directory sector
of the header and `d_(j+1) = next_sector_in_chain(d_j)`; and for `index < eps`
the result is the one of the address resolver at `(d_0, index * 128)`, which
looks at no FAT entry. -/
theorem getDirectoryEntry_address (cf : CompoundFile) (image : List Byte) (hl : Loaded cf image)
    (index : Nat) :
    cf.getDirectoryEntry CFB_DIRECTORY_ENTRY_NO_STREAM = .ok none ∧
    (index ≠ CFB_DIRECTORY_ENTRY_NO_STREAM → ∀ entry, cf.getDirectoryEntry index = .ok entry →
      ∃ d, chain cf.getNextFATSectorNumber (headerView image).firstDirectorySectorLocation
          (index / (cf.sectorSize / 128)) = .ok d ∧
        entry = some (cf.sectorSize * (d + 1) + index % (cf.sectorSize / 128) * 128)) ∧
    (index ≠ CFB_DIRECTORY_ENTRY_NO_STREAM → index < cf.sectorSize / 128 →
      cf.getDirectoryEntry index =
        (cf.getAddressWithSectorNumber (headerView image).firstDirectorySectorLocation
          (index * 128)).map some) := by
  have r := hl.ready
  obtain ⟨_, heps, hmul⟩ := entriesPerSector_dir r
  refine ⟨rfl, ?_, ?_⟩
  · intro hne entry h
    rw [getDirectoryEntry_eq r index hne] at h
    rcases hloop : cf.getDirectoryEntryLoop (cf.sectorSize / 128) index index
        (headerView image).firstDirectorySectorLocation with e | ⟨id', s'⟩
    · rw [hloop] at h
      cases h
    · rw [hloop] at h
      simp only at h
      rcases ha : cf.getAddressWithSectorNumber s' (id' * 128 % 2 ^ 32) with e | a
      · rw [ha] at h
        cases h
      · rw [ha] at h
        simp only [Except.map, Except.ok.injEq] at h
        obtain ⟨hoff, hs', rfl, _⟩ := (getAddressWithSectorNumber_ok_iff cf r.sector _ _ _).1 ha
        obtain ⟨k, hk, hid, hend⟩ := getDirectoryEntryLoop_ok cf _ _ _ _ _ _ hloop
        have hlt : id' < cf.sectorSize / 128 := by
          rcases hend with hlt | hend
          · exact hlt
          · rw [hend] at hs'
            exact absurd hs' (by decide)
        have hq : index / (cf.sectorSize / 128) = k := by
          rw [hid, Nat.add_mul_div_right _ _ heps, Nat.div_eq_of_lt hlt, Nat.zero_add]
        have hr : index % (cf.sectorSize / 128) = id' := by
          rw [hid, Nat.add_mul_mod_self_right, Nat.mod_eq_of_lt hlt]
        have hsmall : id' * 128 % 2 ^ 32 = id' * 128 := by
          apply Nat.mod_eq_of_lt
          rcases r.sector with hS | hS <;> rw [hS] at hlt <;> omega
        rw [hq, hr]
        exact ⟨s', hk, by rw [← h, hsmall]⟩
  · intro hne hlt
    rw [getDirectoryEntry_eq r index hne, getDirectoryEntryLoop_lt cf _ _ _ _ hlt]
    have hsmall : index * 128 % 2 ^ 32 = index * 128 := by
      apply Nat.mod_eq_of_lt
      rcases r.sector with hS | hS <;> rw [hS] at hlt <;> omega
    simp only [hsmall]

/-- C8, at a concrete input: entry 4 of `imageSmall` lies at the start of the
second directory sector (sector 6), entry 2 in the first one. -/
theorem getDirectoryEntry_address_witness :
    readerSmall.getDirectoryEntry CFB_DIRECTORY_ENTRY_NO_STREAM = .ok none ∧
      (∃ d, chain readerSmall.getNextFATSectorNumber
          (headerView imageSmall).firstDirectorySectorLocation
          (4 / (readerSmall.sectorSize / 128)) = .ok d ∧
        some 3584 = some (readerSmall.sectorSize * (d + 1) +
          4 % (readerSmall.sectorSize / 128) * 128)) ∧
      readerSmall.getDirectoryEntry 2 =
        (readerSmall.getAddressWithSectorNumber
          (headerView imageSmall).firstDirectorySectorLocation (2 * 128)).map some :=
  have h := getDirectoryEntry_address readerSmall imageSmall readerSmall_loaded
  ⟨(h 4).1, (h 4).2.1 (by decide) (some 3584) (by decide!),
    (h 2).2.2 (by decide) (by decide)⟩

/-- C9, as stated, fails: in `imageSmall` the directory chain is sector 1,
sector 6, `END_OF_CHAIN`; `entry_at(8)` fails with the invalid-argument error of
the address resolver, whose kind is not `CorruptChain`. -/
theorem getDirectoryEntry_endOfChain_kind :
    chain readerSmall.getNextFATSectorNumber (headerView imageSmall).firstDirectorySectorLocation 2
        = .ok CFB_SECTOR_END_OF_CHAIN ∧
      2 ≤ 8 / (readerSmall.sectorSize / 128) ∧
      readerSmall.getDirectoryEntry 8 = .error .sectorGeMaxRegular ∧
      Err.sectorGeMaxRegular.kind ≠ some .CorruptChain := by
  decide!

/-- C9, amended. In a loaded reader, when the directory sector chain reaches
`END_OF_CHAIN` at or before the sector that holds `index`, `entry_at(index)`
fails with an invalid-argument error of the address resolver (offset not below
the sector size, or sector not below `MAX_REGULAR`), for every index; and the
address resolver gives no address for `END_OF_CHAIN`, whatever the offset. -/
theorem getDirectoryEntry_endOfChain (cf : CompoundFile) (image : List Byte)
    (hl : Loaded cf image) (index j : Nat) (hne : index ≠ CFB_DIRECTORY_ENTRY_NO_STREAM)
    (hj : j ≤ index / (cf.sectorSize / 128))
    (hc : chain cf.getNextFATSectorNumber (headerView image).firstDirectorySectorLocation j
      = .ok CFB_SECTOR_END_OF_CHAIN) :
    (∃ e, cf.getDirectoryEntry index = .error e ∧
      (e = .offsetGeSectorSize ∨ e = .sectorGeMaxRegular) ∧ e.kind = some .InvalidArgument) ∧
    ∀ offset, ∃ e, cf.getAddressWithSectorNumber CFB_SECTOR_END_OF_CHAIN offset = .error e ∧
      (e = .offsetGeSectorSize ∨ e = .sectorGeMaxRegular) := by
  have r := hl.ready
  obtain ⟨_, heps, _⟩ := entriesPerSector_dir r
  constructor
  · obtain ⟨id', hloop⟩ := getDirectoryEntryLoop_endOfChain cf _ heps j index index _ hc hj
      (Nat.div_le_self _ _)
    rw [getDirectoryEntry_eq r index hne, hloop]
    rcases getAddressWithSectorNumber_endOfChain cf (id' * 128 % 2 ^ 32) with h | h
    · exact ⟨_, by simp only [h, Except.map], Or.inl rfl, rfl⟩
    · exact ⟨_, by simp only [h, Except.map], Or.inr rfl, rfl⟩
  · intro offset
    rcases getAddressWithSectorNumber_endOfChain cf offset with h | h
    · exact ⟨_, h, Or.inl rfl⟩
    · exact ⟨_, h, Or.inr rfl⟩

/-- C9, amended, at a concrete input: `entry_at(12)` in `imageSmall`, whose
directory chain ends after two sectors. -/
theorem getDirectoryEntry_endOfChain_witness :
    (∃ e, readerSmall.getDirectoryEntry 12 = .error e ∧
      (e = .offsetGeSectorSize ∨ e = .sectorGeMaxRegular) ∧ e.kind = some .InvalidArgument) ∧
    ∀ offset, ∃ e, readerSmall.getAddressWithSectorNumber CFB_SECTOR_END_OF_CHAIN offset
        = .error e ∧ (e = .offsetGeSectorSize ∨ e = .sectorGeMaxRegular) :=
  getDirectoryEntry_endOfChain readerSmall imageSmall readerSmall_loaded 12 2 (by decide)
    (by decide) (by decide!)

/-! ## Properties of `readStream` -/

theorem slice_length (image : List Byte) (a n : Nat) (h : a + n ≤ image.length) :
    (slice image a n).length = n := by
  simp only [slice, List.length_take, List.length_drop]
  omega

theorem slice_getElem? (image : List Byte) (a n k : Nat) (hk : k < n) :
    (slice image a n)[k]? = image[a + k]? := by
  simp [slice, List.getElem?_take, hk]

theorem memcpy_length (buffer source : List Byte) (pos : Nat)
    (h : pos + source.length ≤ buffer.length) :
    (memcpy buffer pos source).length = buffer.length := by
  simp only [memcpy, List.length_append, List.length_take, List.length_drop]
  omega

theorem memcpy_getElem?_outside (buffer source : List Byte) (pos k : Nat)
    (h : pos + source.length ≤ buffer.length) (hk : k < pos ∨ pos + source.length ≤ k) :
    (memcpy buffer pos source)[k]? = buffer[k]? := by
  have h1 : (buffer.take pos).length = pos := by rw [List.length_take]; omega
  have h2 : (buffer.take pos ++ source).length = pos + source.length := by
    rw [List.length_append, h1]
  unfold memcpy
  rcases hk with hk | hk
  · rw [List.append_assoc, List.getElem?_append_left (by omega)]
    simp [List.getElem?_take, hk]
  · rw [List.getElem?_append_right (by omega), h2, List.getElem?_drop]
    congr 1
    omega

theorem memcpy_getElem?_inside (buffer source : List Byte) (pos i : Nat)
    (h : pos + source.length ≤ buffer.length) (hi : i < source.length) :
    (memcpy buffer pos source)[pos + i]? = source[i]? := by
  have h1 : (buffer.take pos).length = pos := by rw [List.length_take]; omega
  have h2 : (buffer.take pos ++ source).length = pos + source.length := by
    rw [List.length_append, h1]
  unfold memcpy
  rw [List.getElem?_append_left (by omega), List.getElem?_append_right (by omega), h1]
  congr 1
  omega

theorem load_ok {cf : CompoundFile} {address n : Nat} {source : List Byte}
    (h : cf.load address n = .ok source) :
    ∃ image, cf.buffer = some image ∧ address + n ≤ image.length ∧ source = slice image address n := by
  unfold CompoundFile.load at h
  cases hb : cf.buffer with
  | none => rw [hb] at h; cases h
  | some image =>
    rw [hb] at h
    simp only at h
    split_ifs at h with hle
    cases h
    exact ⟨image, rfl, hle, rfl⟩

theorem load_length {cf : CompoundFile} {address n : Nat} {source : List Byte}
    (h : cf.load address n = .ok source) : source.length = n := by
  obtain ⟨image, _, hle, rfl⟩ := load_ok h
  exact slice_length image address n hle

theorem min_min (S rem : Nat) : min S (min S rem) = min S rem := by
  omega

theorem readStreamLoop_addr_error (cf : CompoundFile) (S : Nat)
    (addr : Nat → Nat → Except Err Nat) (next : Nat → Except Err Nat) (fuel s rem : Nat)
    (buf : List Byte) (pos : Nat) (hrem : 0 < rem) (e : Err) (ha : addr s 0 = .error e) :
    cf.readStreamLoop S addr next (fuel + 1) s rem buf pos = (.error e, buf) := by
  simp only [CompoundFile.readStreamLoop, gt_iff_lt, hrem, if_true, ha]

theorem readStreamLoop_load_error (cf : CompoundFile) (S : Nat)
    (addr : Nat → Nat → Except Err Nat) (next : Nat → Except Err Nat) (fuel s rem : Nat)
    (buf : List Byte) (pos : Nat) (hrem : 0 < rem) (a : Nat) (ha : addr s 0 = .ok a) (e : Err)
    (hload : cf.load a (min S rem) = .error e) :
    cf.readStreamLoop S addr next (fuel + 1) s rem buf pos = (.error e, buf) := by
  simp only [CompoundFile.readStreamLoop, gt_iff_lt, hrem, if_true, ha, min_min, hload]

theorem readStreamLoop_next_error (cf : CompoundFile) (S : Nat)
    (addr : Nat → Nat → Except Err Nat) (next : Nat → Except Err Nat) (fuel s rem : Nat)
    (buf : List Byte) (pos : Nat) (hrem : 0 < rem) (a : Nat) (ha : addr s 0 = .ok a)
    (source : List Byte) (hload : cf.load a (min S rem) = .ok source) (e : Err)
    (hn : next s = .error e) :
    cf.readStreamLoop S addr next (fuel + 1) s rem buf pos = (.error e, memcpy buf pos source) := by
  simp only [CompoundFile.readStreamLoop, gt_iff_lt, hrem, if_true, ha, min_min, hload, hn]

theorem readStreamLoop_step (cf : CompoundFile) (S : Nat)
    (addr : Nat → Nat → Except Err Nat) (next : Nat → Except Err Nat) (fuel s rem : Nat)
    (buf : List Byte) (pos : Nat) (hrem : 0 < rem) (a : Nat) (ha : addr s 0 = .ok a)
    (source : List Byte) (hload : cf.load a (min S rem) = .ok source) (n : Nat)
    (hn : next s = .ok n) :
    cf.readStreamLoop S addr next (fuel + 1) s rem buf pos =
      cf.readStreamLoop S addr next fuel n (rem - min S rem) (memcpy buf pos source)
        (pos + min S rem) := by
  simp only [CompoundFile.readStreamLoop, gt_iff_lt, hrem, if_true, ha, min_min, hload, hn]

theorem readStreamLoop_done (cf : CompoundFile) (S : Nat) (addr : Nat → Nat → Except Err Nat)
    (next : Nat → Except Err Nat) (fuel s : Nat) (buf : List Byte) (pos : Nat) :
    cf.readStreamLoop S addr next fuel s 0 buf pos = (.ok (), buf) := by
  cases fuel <;> simp [CompoundFile.readStreamLoop]

theorem readStreamLoop_length (cf : CompoundFile) (S : Nat) (addr : Nat → Nat → Except Err Nat)
    (next : Nat → Except Err Nat) :
    ∀ fuel s rem buf pos, pos + rem ≤ buf.length →
      (cf.readStreamLoop S addr next fuel s rem buf pos).2.length = buf.length := by
  intro fuel
  induction fuel with
  | zero =>
    intro s rem buf pos _
    simp only [CompoundFile.readStreamLoop]
    split_ifs <;> rfl
  | succ fuel ih =>
    intro s rem buf pos hlen
    rcases Nat.eq_zero_or_pos rem with h0 | hrem
    · subst h0
      rw [readStreamLoop_done]
    · rcases ha : addr s 0 with e | a
      · rw [readStreamLoop_addr_error _ _ _ _ _ _ _ _ _ hrem e ha]
      · rcases hload : cf.load a (min S rem) with e | source
        · rw [readStreamLoop_load_error _ _ _ _ _ _ _ _ _ hrem a ha e hload]
        · have hsl := load_length hload
          have hm := memcpy_length buf source pos (by omega)
          rcases hn : next s with e | n
          · rw [readStreamLoop_next_error _ _ _ _ _ _ _ _ _ hrem a ha source hload e hn]
            exact hm
          · rw [readStreamLoop_step _ _ _ _ _ _ _ _ _ hrem a ha source hload n hn,
              ih _ _ _ _ (by omega), hm]

theorem readStreamLoop_ok (cf : CompoundFile) (image : List Byte) (hb : cf.buffer = some image)
    (S : Nat) (hS : 0 < S) (addr : Nat → Nat → Except Err Nat) (next : Nat → Except Err Nat) :
    ∀ fuel s rem buf pos buf', pos + rem ≤ buf.length →
      cf.readStreamLoop S addr next fuel s rem buf pos = (.ok (), buf') →
      (∀ k, k < pos ∨ pos + rem ≤ k → buf'[k]? = buf[k]?) ∧
      ∀ i, i < rem → ∃ sj a b, chain next s (i / S) = .ok sj ∧ addr sj 0 = .ok a ∧
        image[a + i % S]? = some b ∧ buf'[pos + i]? = some b := by
  intro fuel
  induction fuel with
  | zero =>
    intro s rem buf pos buf' _ h
    simp only [CompoundFile.readStreamLoop] at h
    split_ifs at h with hr
    · cases h
    · cases h
      exact ⟨fun _ _ => rfl, fun i hi => absurd hi (by omega)⟩
  | succ fuel ih =>
    intro s rem buf pos buf' hlen h
    rcases Nat.eq_zero_or_pos rem with h0 | hrem
    · subst h0
      rw [readStreamLoop_done] at h
      cases h
      exact ⟨fun _ _ => rfl, fun i hi => absurd hi (by omega)⟩
    · rcases ha : addr s 0 with e | a
      · rw [readStreamLoop_addr_error _ _ _ _ _ _ _ _ _ hrem e ha] at h; cases h
      rcases hload : cf.load a (min S rem) with e | source
      · rw [readStreamLoop_load_error _ _ _ _ _ _ _ _ _ hrem a ha e hload] at h; cases h
      rcases hn : next s with e | n
      · rw [readStreamLoop_next_error _ _ _ _ _ _ _ _ _ hrem a ha source hload e hn] at h; cases h
      rw [readStreamLoop_step _ _ _ _ _ _ _ _ _ hrem a ha source hload n hn] at h
      obtain ⟨image', hb', hle, rfl⟩ := load_ok hload
      rw [hb] at hb'
      cases hb'
      have hsl := slice_length image a (min S rem) hle
      have hm := memcpy_length buf (slice image a (min S rem)) pos (by omega)
      obtain ⟨hout, hin⟩ := ih _ _ _ _ buf' (by omega) h
      constructor
      · intro k hk
        rw [hout k (by omega), memcpy_getElem?_outside _ _ _ _ (by omega) (by omega)]
      · intro i hi
        by_cases hic : i < min S rem
        · have hiS : i < S := by omega
          have hai : a + i < image.length := by omega
          refine ⟨s, a, image[a + i], ?_, ha, ?_, ?_⟩
          · rw [Nat.div_eq_of_lt hiS]
            rfl
          · rw [Nat.mod_eq_of_lt hiS]
            exact List.getElem?_eq_getElem hai
          · rw [hout (pos + i) (by omega), memcpy_getElem?_inside _ _ _ _ (by omega) (by omega),
              slice_getElem? _ _ _ _ hic]
            exact List.getElem?_eq_getElem hai
        · have hc : min S rem = S := by omega
          rw [hc] at hin
          obtain ⟨sj, a', b, h1, h2, h3, h4⟩ := hin (i - S) (by omega)
          have hi' : i = (i - S) + S := by omega
          refine ⟨sj, a', b, ?_, h2, ?_, ?_⟩
          · rw [hi', Nat.add_div_right _ hS, chain_succ_front, hn]
            exact h1
          · rw [hi', Nat.add_mod_right]
            exact h3
          · rw [← h4]
            congr 1
            omega

theorem resize_length {alloc : Nat → Bool} {buffer : List Byte} {n : Nat} {b : List Byte}
    (h : resize alloc buffer n = .ok b) : b.length = n := by
  unfold resize at h
  split_ifs at h with h1 h2 h3
  · cases h
    rw [List.length_take]
    omega
  · cases h
    rw [List.length_append, List.length_replicate]
    omega

theorem resize_error {alloc : Nat → Bool} {buffer : List Byte} {n : Nat} {e : Err}
    (h : resize alloc buffer n = .error e) : e = .lengthError ∨ e = .badAlloc := by
  unfold resize at h
  split_ifs at h with h1 h2 h3
  · cases h
    exact Or.inl rfl
  · cases h
    exact Or.inr rfl

theorem resize_zero (alloc : Nat → Bool) (buffer : List Byte) : resize alloc buffer 0 = .ok [] := by
  unfold resize
  rw [if_neg (Nat.not_lt_zero _), if_pos (Nat.zero_le _)]
  rfl

theorem readStreamOfEntryInto_error (cf : CompoundFile) (alloc : Nat → Bool)
    (entry : DirectoryEntry) (buffer : List Byte) (e : Err)
    (hr : resize alloc buffer entry.streamSize = .error e) :
    cf.readStreamOfEntryInto alloc entry buffer = (.error e, buffer) := by
  simp only [CompoundFile.readStreamOfEntryInto, hr]

theorem readStreamOfEntryInto_eq {cf : CompoundFile} {image : List Byte} (r : Ready cf image)
    (alloc : Nat → Bool) (entry : DirectoryEntry) (buffer b0 : List Byte)
    (hr : resize alloc buffer entry.streamSize = .ok b0) :
    cf.readStreamOfEntryInto alloc entry buffer =
      cf.readStreamLoop (streamSectorSize cf image entry) (streamAddress cf image entry)
        (streamNext cf image entry) entry.streamSize entry.startSectorLocation entry.streamSize
        b0 0 := by
  simp only [CompoundFile.readStreamOfEntryInto, hr, CompoundFile.header, r.header,
    CompoundFile.readStream, streamSectorSize, streamAddress, streamNext, r.mini]
  split_ifs <;> rfl

theorem streamSectorSize_pos {cf : CompoundFile} {image : List Byte} (r : Ready cf image)
    (entry : DirectoryEntry) : 0 < streamSectorSize cf image entry := by
  unfold streamSectorSize
  split_ifs
  · omega
  · rcases r.sector with h | h <;> omega

theorem readStreamOfEntry_ok_iff (cf : CompoundFile) (alloc : Nat → Bool)
    (entry : DirectoryEntry) (result : List Byte) :
    cf.readStreamOfEntry alloc entry = .ok result ↔
      cf.readStreamOfEntryInto alloc entry [] = (.ok (), result) := by
  unfold CompoundFile.readStreamOfEntry
  rcases h : cf.readStreamOfEntryInto alloc entry [] with ⟨o | u, buf⟩
  · simp
  · simp

theorem readStreamOfEntry_error_iff (cf : CompoundFile) (alloc : Nat → Bool)
    (entry : DirectoryEntry) (e : Err) :
    cf.readStreamOfEntry alloc entry = .error e ↔
      (cf.readStreamOfEntryInto alloc entry []).1 = .error e := by
  unfold CompoundFile.readStreamOfEntry
  rcases h : cf.readStreamOfEntryInto alloc entry [] with ⟨o | u, buf⟩
  · simp
  · simp

/-- C1. In a loaded reader, a buffer that `read_stream(e)` returns has exactly
`e.streamSize` bytes, and its byte `i` is the image byte at
`addr(s_(i div S), 0) + (i mod S)`, with `s_0 = e.startSectorLocation`,
`s_(j+1) = next(s_j)` and with `S`, `addr`, `next` those of the mini sectors when
`e.streamSize < miniStreamCutoffSize` and those of the regular sectors
otherwise. -/
theorem readStreamOfEntry_bytes (cf : CompoundFile) (image : List Byte) (hl : Loaded cf image)
    (alloc : Nat → Bool) (entry : DirectoryEntry) (result : List Byte)
    (h : cf.readStreamOfEntry alloc entry = .ok result) :
    result.length = entry.streamSize ∧
    ∀ i, i < entry.streamSize →
      ∃ s a b,
        chain (streamNext cf image entry) entry.startSectorLocation
          (i / streamSectorSize cf image entry) = .ok s ∧
        streamAddress cf image entry s 0 = .ok a ∧
        image[a + i % streamSectorSize cf image entry]? = some b ∧
        result[i]? = some b := by
  have r := hl.ready
  rw [readStreamOfEntry_ok_iff] at h
  rcases hr : resize alloc [] entry.streamSize with e | b0
  · rw [readStreamOfEntryInto_error cf alloc entry [] e hr] at h
    cases h
  rw [readStreamOfEntryInto_eq r alloc entry [] b0 hr] at h
  have hb0 := resize_length hr
  have hlen := readStreamLoop_length cf (streamSectorSize cf image entry)
    (streamAddress cf image entry) (streamNext cf image entry) entry.streamSize
    entry.startSectorLocation entry.streamSize b0 0 (by omega)
  rw [h, hb0] at hlen
  refine ⟨hlen, ?_⟩
  obtain ⟨_, hin⟩ := readStreamLoop_ok cf image r.buffer _ (streamSectorSize_pos r entry) _ _ _ _ _ _
    _ result (by omega) h
  intro i hi
  obtain ⟨s, a, b, h1, h2, h3, h4⟩ := hin i hi
  rw [Nat.zero_add] at h4
  exact ⟨s, a, b, h1, h2, h3, h4⟩

/-- C1, at a concrete input: the stream of 100 bytes in the mini sectors 0 and 1
of `imageSmall`. -/
theorem readStreamOfEntry_bytes_witness :
    ((List.range 100).map fun i => (Fin.ofNat i : Byte)).length = entryMini.streamSize ∧
    ∀ i, i < entryMini.streamSize →
      ∃ s a b,
        chain (streamNext readerSmall imageSmall entryMini) entryMini.startSectorLocation
          (i / streamSectorSize readerSmall imageSmall entryMini) = .ok s ∧
        streamAddress readerSmall imageSmall entryMini s 0 = .ok a ∧
        imageSmall[a + i % streamSectorSize readerSmall imageSmall entryMini]? = some b ∧
        ((List.range 100).map fun i => (Fin.ofNat i : Byte))[i]? = some b :=
  readStreamOfEntry_bytes readerSmall imageSmall readerSmall_loaded allocAlways entryMini _
    (by decide!)

/-- C3, as stated, fails: in `imageSmall` the chain from sector 4 reaches
`END_OF_CHAIN` after two sectors, 1024 of the 1500 bytes; `read_stream` fails
with the invalid-argument error of the address resolver, whose kind is not
`CorruptChain`, and the caller's buffer `[1, 2, 3]` is left with 1500 bytes, the
first 1024 of them copied from the two sectors. -/
theorem readStreamOfEntry_endOfChain_buffer :
    chain readerSmall.getNextFATSectorNumber entryTruncated.startSectorLocation 2
        = .ok CFB_SECTOR_END_OF_CHAIN ∧
      2 * readerSmall.sectorSize < entryTruncated.streamSize ∧
      (readerSmall.readStreamOfEntryInto allocAlways entryTruncated [1, 2, 3]).1
        = .error .sectorGeMaxRegular ∧
      Err.sectorGeMaxRegular.kind ≠ some .CorruptChain ∧
      (readerSmall.readStreamOfEntryInto allocAlways entryTruncated [1, 2, 3]).2
        = List.replicate 512 0xAA ++ List.replicate 512 0xBB ++ List.replicate 476 0 := by
  decide!

theorem chain_zero_ok (next : Nat → Except Err Nat) (s t : Nat) (h : chain next s 0 = .ok t) :
    t = s := by
  simp only [chain, Except.ok.injEq] at h
  exact h.symm

theorem readStreamLoop_endOfChain (cf : CompoundFile) (image : List Byte)
    (hb : cf.buffer = some image) (S : Nat) (hS : 0 < S) (addr : Nat → Nat → Except Err Nat)
    (next : Nat → Except Err Nat) (E : Err) (hE : addr CFB_SECTOR_END_OF_CHAIN 0 = .error E) :
    ∀ j fuel s rem buf pos, chain next s j = .ok CFB_SECTOR_END_OF_CHAIN →
      (∀ i, i < j → ∃ si a, chain next s i = .ok si ∧ addr si 0 = .ok a ∧ a + S ≤ image.length) →
      j * S < rem → j < fuel → pos + rem ≤ buf.length →
      ∃ buf', cf.readStreamLoop S addr next fuel s rem buf pos = (.error E, buf') ∧
        (∀ k, k < pos ∨ pos + j * S ≤ k → buf'[k]? = buf[k]?) ∧
        ∀ i, i < j * S → ∃ si a b, chain next s (i / S) = .ok si ∧ addr si 0 = .ok a ∧
          image[a + i % S]? = some b ∧ buf'[pos + i]? = some b := by
  intro j
  induction j with
  | zero =>
    intro fuel s rem buf pos hc _ hrem hfuel _
    have hs := chain_zero_ok _ _ _ hc
    subst hs
    obtain ⟨fuel, rfl⟩ : ∃ f, fuel = f + 1 := ⟨fuel - 1, by omega⟩
    refine ⟨buf, readStreamLoop_addr_error _ _ _ _ _ _ _ _ _ (by omega) E hE, fun _ _ => rfl, ?_⟩
    intro i hi
    omega
  | succ j ih =>
    intro fuel s rem buf pos hc hpre hrem hfuel hlen
    have hmul : (j + 1) * S = j * S + S := Nat.succ_mul j S
    rw [hmul] at hrem
    obtain ⟨fuel, rfl⟩ : ∃ f, fuel = f + 1 := ⟨fuel - 1, by omega⟩
    obtain ⟨s0, a, hs0, ha, hle⟩ := hpre 0 (by omega)
    have hs := chain_zero_ok _ _ _ hs0
    subst hs
    have hmin : min S rem = S := by omega
    have hload : cf.load a (min S rem) = .ok (slice image a S) := by
      rw [load_eq hb, hmin, if_pos hle]
    rw [chain_succ_front] at hc
    rcases hn : next s0 with e | n
    · rw [hn] at hc
      cases hc
    rw [hn] at hc
    have hsl := slice_length image a S hle
    have hm := memcpy_length buf (slice image a S) pos (by omega)
    have hpre' : ∀ i, i < j →
        ∃ si a, chain next n i = .ok si ∧ addr si 0 = .ok a ∧ a + S ≤ image.length := by
      intro i hi
      obtain ⟨si, a', h1, h2, h3⟩ := hpre (i + 1) (by omega)
      rw [chain_succ_front, hn] at h1
      exact ⟨si, a', h1, h2, h3⟩
    obtain ⟨buf', hloop, hout, hin⟩ := ih fuel n (rem - S) (memcpy buf pos (slice image a S))
      (pos + S) hc hpre' (by omega) (by omega) (by omega)
    refine ⟨buf', ?_, ?_, ?_⟩
    · rw [readStreamLoop_step _ _ _ _ _ _ _ _ _ (by omega) a ha _ hload n hn, hmin]
      exact hloop
    · intro k hk
      rw [hout k (by omega), memcpy_getElem?_outside _ _ _ _ (by omega) (by omega)]
    · intro i hi
      by_cases hiS : i < S
      · have hai : a + i < image.length := by omega
        refine ⟨s0, a, image[a + i], ?_, ha, ?_, ?_⟩
        · rw [Nat.div_eq_of_lt hiS]
          rfl
        · rw [Nat.mod_eq_of_lt hiS]
          exact List.getElem?_eq_getElem hai
        · rw [hout (pos + i) (by omega), memcpy_getElem?_inside _ _ _ _ (by omega) (by omega),
            slice_getElem? _ _ _ _ hiS]
          exact List.getElem?_eq_getElem hai
      · obtain ⟨sj, a', b, h1, h2, h3, h4⟩ := hin (i - S) (by omega)
        have hi' : i = (i - S) + S := by omega
        refine ⟨sj, a', b, ?_, h2, ?_, ?_⟩
        · rw [hi', Nat.add_div_right _ hS, chain_succ_front, hn]
          exact h1
        · rw [hi', Nat.add_mod_right]
          exact h3
        · rw [← h4]
          congr 1
          omega

theorem readStreamLoop_outcome (cf : CompoundFile) (S : Nat) (addr : Nat → Nat → Except Err Nat)
    (next : Nat → Except Err Nat) :
    ∀ fuel s rem (buf buf' : List Byte) (pos pos' : Nat),
      (cf.readStreamLoop S addr next fuel s rem buf pos).1 =
        (cf.readStreamLoop S addr next fuel s rem buf' pos').1 := by
  intro fuel
  induction fuel with
  | zero =>
    intro s rem buf buf' pos pos'
    simp only [CompoundFile.readStreamLoop]
    split_ifs <;> rfl
  | succ fuel ih =>
    intro s rem buf buf' pos pos'
    rcases Nat.eq_zero_or_pos rem with h0 | hrem
    · subst h0
      rw [readStreamLoop_done, readStreamLoop_done]
    · rcases ha : addr s 0 with e | a
      · rw [readStreamLoop_addr_error _ _ _ _ _ _ _ _ _ hrem e ha,
          readStreamLoop_addr_error _ _ _ _ _ _ _ _ _ hrem e ha]
      · rcases hload : cf.load a (min S rem) with e | source
        · rw [readStreamLoop_load_error _ _ _ _ _ _ _ _ _ hrem a ha e hload,
            readStreamLoop_load_error _ _ _ _ _ _ _ _ _ hrem a ha e hload]
        · rcases hn : next s with e | n
          · rw [readStreamLoop_next_error _ _ _ _ _ _ _ _ _ hrem a ha source hload e hn,
              readStreamLoop_next_error _ _ _ _ _ _ _ _ _ hrem a ha source hload e hn]
          · rw [readStreamLoop_step _ _ _ _ _ _ _ _ _ hrem a ha source hload n hn,
              readStreamLoop_step _ _ _ _ _ _ _ _ _ hrem a ha source hload n hn]
            exact ih _ _ _ _ _ _

theorem streamAddress_endOfChain {cf : CompoundFile} {image : List Byte} (r : Ready cf image)
    (entry : DirectoryEntry) :
    ∃ E, streamAddress cf image entry CFB_SECTOR_END_OF_CHAIN 0 = .error E ∧
      (E = .sectorGeMaxRegular ∨ E = .miniSectorGeMaxRegular) ∧
      E.kind = some .InvalidArgument := by
  have h2 : CFB_SECTOR_END_OF_CHAIN ≥ CFB_SECTOR_MAX_REGULAR_SECTOR := by decide
  unfold streamAddress
  split_ifs
  · refine ⟨.miniSectorGeMaxRegular, ?_, Or.inr rfl, rfl⟩
    have h1 : ¬ 0 ≥ cf.miniSectorSize := by rw [r.mini]; omega
    simp only [CompoundFile.getAddressWithMiniSectorNumber, h1, h2, if_true, if_false]
  · refine ⟨.sectorGeMaxRegular, ?_, Or.inl rfl, rfl⟩
    have h1 : ¬ 0 ≥ cf.sectorSize := by rcases r.sector with h | h <;> omega
    simp only [CompoundFile.getAddressWithSectorNumber, h1, h2, if_true, if_false]

/-- C3, amended. In a loaded reader, when the chain from `e.startSectorLocation`
reaches `END_OF_CHAIN` after `j` sectors with `j * S < e.streamSize`,
`read_stream(e)` fails in both overloads, the one-argument overload returns no
buffer, and the error is not of kind `CorruptChain`.  When `buffer.resize`
throws, the error is its `length_error` or `bad_alloc`, the caller's buffer of
the two-argument overload is as it was and no sector is looked up.  When it does
not, the caller's buffer is left with `e.streamSize` bytes and the one-argument
overload, if its `resize` does not throw either, fails with the same error; when
the `j` sectors before lie in the image, the error is the invalid-argument error
of the address resolver for a sector number not below `MAX_REGULAR`, and the
first `j * S` bytes left in the caller's buffer are the bytes of those
sectors. -/
theorem readStreamOfEntry_endOfChain (cf : CompoundFile) (image : List Byte)
    (hl : Loaded cf image) (alloc : Nat → Bool) (entry : DirectoryEntry) (buffer : List Byte)
    (j : Nat) (hj : j * streamSectorSize cf image entry < entry.streamSize)
    (hc : chain (streamNext cf image entry) entry.startSectorLocation j
      = .ok CFB_SECTOR_END_OF_CHAIN) :
    (∃ err, cf.readStreamOfEntry alloc entry = .error err ∧ err.kind ≠ some .CorruptChain) ∧
    (∃ err, (cf.readStreamOfEntryInto alloc entry buffer).1 = .error err ∧
      err.kind ≠ some .CorruptChain) ∧
    (∀ e, resize alloc buffer entry.streamSize = .error e →
      (e = .lengthError ∨ e = .badAlloc) ∧
      cf.readStreamOfEntryInto alloc entry buffer = (.error e, buffer) ∧
      cf.readStreamOfEntryCalls alloc entry buffer = []) ∧
    (∀ b0, resize alloc buffer entry.streamSize = .ok b0 →
      ∃ err, (cf.readStreamOfEntryInto alloc entry buffer).1 = .error err ∧
        (∀ b1, resize alloc [] entry.streamSize = .ok b1 →
          cf.readStreamOfEntry alloc entry = .error err) ∧
        (cf.readStreamOfEntryInto alloc entry buffer).2.length = entry.streamSize ∧
        ((∀ i, i < j →
            ∃ s a, chain (streamNext cf image entry) entry.startSectorLocation i = .ok s ∧
              streamAddress cf image entry s 0 = .ok a ∧
              a + streamSectorSize cf image entry ≤ image.length) →
          (err = .sectorGeMaxRegular ∨ err = .miniSectorGeMaxRegular) ∧
          err.kind = some .InvalidArgument ∧
          ∀ i, i < j * streamSectorSize cf image entry →
            ∃ s a b,
              chain (streamNext cf image entry) entry.startSectorLocation
                (i / streamSectorSize cf image entry) = .ok s ∧
              streamAddress cf image entry s 0 = .ok a ∧
              image[a + i % streamSectorSize cf image entry]? = some b ∧
              (cf.readStreamOfEntryInto alloc entry buffer).2[i]? = some b)) := by
  have r := hl.ready
  have hS := streamSectorSize_pos r entry
  obtain ⟨E, hE, hEor, hEkind⟩ := streamAddress_endOfChain r entry
  have hkind : ∀ err : Err, err.kind ≠ some .CorruptChain := by
    intro err
    cases err <;> simp [Err.kind]
  have hfail : ∀ buf : List Byte,
      ∃ err, (cf.readStreamOfEntryInto alloc entry buf).1 = .error err := by
    intro buf
    rcases hr : resize alloc buf entry.streamSize with e | b0
    · rw [readStreamOfEntryInto_error cf alloc entry buf e hr]
      exact ⟨e, rfl⟩
    rcases hres : cf.readStreamOfEntryInto alloc entry buf with ⟨e | u, buf'⟩
    · exact ⟨e, rfl⟩
    · exfalso
      rw [readStreamOfEntryInto_eq r alloc entry buf b0 hr] at hres
      have hb0 := resize_length hr
      obtain ⟨_, hin⟩ := readStreamLoop_ok cf image r.buffer _ hS _ _ _ _ _ _ _ buf'
        (by omega) hres
      obtain ⟨s, a, b, h1, h2, _, _⟩ := hin (j * streamSectorSize cf image entry) hj
      rw [Nat.mul_div_cancel _ hS, hc] at h1
      cases h1
      rw [hE] at h2
      cases h2
  refine ⟨?_, ?_, ?_, ?_⟩
  · obtain ⟨err, herr⟩ := hfail []
    exact ⟨err, (readStreamOfEntry_error_iff cf alloc entry err).2 herr, hkind err⟩
  · obtain ⟨err, herr⟩ := hfail buffer
    exact ⟨err, herr, hkind err⟩
  · intro e hr
    refine ⟨resize_error hr, readStreamOfEntryInto_error cf alloc entry buffer e hr, ?_⟩
    simp only [CompoundFile.readStreamOfEntryCalls, hr]
  · intro b0 hr
    have hb0 := resize_length hr
    obtain ⟨err, herr⟩ := hfail buffer
    refine ⟨err, herr, ?_, ?_, ?_⟩
    · intro b1 hr1
      rw [readStreamOfEntry_error_iff, readStreamOfEntryInto_eq r alloc entry [] b1 hr1]
      rw [readStreamOfEntryInto_eq r alloc entry buffer b0 hr] at herr
      rw [← herr]
      exact readStreamLoop_outcome _ _ _ _ _ _ _ _ _ _ _
    · rw [readStreamOfEntryInto_eq r alloc entry buffer b0 hr,
        readStreamLoop_length _ _ _ _ _ _ _ _ _ (by omega), hb0]
    · intro hpre
      have hjlt : j < entry.streamSize := by
        have : j * 1 ≤ j * streamSectorSize cf image entry := Nat.mul_le_mul_left j hS
        omega
      obtain ⟨buf', hloop, _, hin⟩ := readStreamLoop_endOfChain cf image r.buffer _ hS _ _ E hE j
        entry.streamSize entry.startSectorLocation entry.streamSize b0 0 hc hpre hj hjlt
        (by omega)
      rw [readStreamOfEntryInto_eq r alloc entry buffer b0 hr, hloop] at herr
      simp only [Except.error.injEq] at herr
      subst herr
      rw [readStreamOfEntryInto_eq r alloc entry buffer b0 hr, hloop]
      refine ⟨hEor, hEkind, ?_⟩
      intro i hi
      obtain ⟨s, a, b, h1, h2, h3, h4⟩ := hin i hi
      rw [Nat.zero_add] at h4
      exact ⟨s, a, b, h1, h2, h3, h4⟩

/-- C3, amended, at concrete inputs: in `imageSmall` the stream of 1500 bytes
from sector 4, read into the caller's buffer `[1, 2, 3]`, and the stream of
`2 ^ 64 - 1` bytes from sector 4, for which `buffer.resize` throws
`length_error` and leaves the caller's buffer `[1, 2, 3]`. -/
theorem readStreamOfEntry_endOfChain_witness :
    ((∃ err, readerSmall.readStreamOfEntry allocAlways entryTruncated = .error err ∧
        err.kind ≠ some .CorruptChain) ∧
      ∃ err, (readerSmall.readStreamOfEntryInto allocAlways entryTruncated [1, 2, 3]).1
          = .error err ∧
        err.kind ≠ some .CorruptChain) ∧
    ((Err.lengthError = .lengthError ∨ Err.lengthError = .badAlloc) ∧
      readerSmall.readStreamOfEntryInto allocAlways entryHuge [1, 2, 3]
        = (.error .lengthError, [1, 2, 3]) ∧
      readerSmall.readStreamOfEntryCalls allocAlways entryHuge [1, 2, 3] = []) :=
  have h := readStreamOfEntry_endOfChain readerSmall imageSmall readerSmall_loaded allocAlways
    entryTruncated [1, 2, 3] 2 (by decide!) (by decide!)
  have h' := readStreamOfEntry_endOfChain readerSmall imageSmall readerSmall_loaded allocAlways
    entryHuge [1, 2, 3] 2 (by decide!) (by decide!)
  ⟨⟨h.1, h.2.1⟩, h'.2.2.1 .lengthError (by decide!)⟩

/-! ## Properties of the traversal -/

theorem getLinkedEntry_eq (cf : CompoundFile) (entry member id : Nat)
    (h : cf.getUint32Field (entry + member) = .ok id) :
    cf.getLinkedEntry entry member = cf.getDirectoryEntry id := by
  simp only [CompoundFile.getLinkedEntry, h, bind, Except.bind]

theorem Visit.entry {cf : CompoundFile} {i d : Nat} {out : List (Nat × Nat)}
    (h : Visit cf i d out) : ∃ e, cf.getDirectoryEntry i = .ok e := by
  cases h with
  | nil => exact ⟨none, rfl⟩
  | node _ _ entry _ _ _ _ _ _ _ he => exact ⟨some entry, he⟩

theorem iterateNodes_none (cf : CompoundFile) (fuel depth : Nat) (calls : List (Nat × Nat)) :
    cf.iterateNodes fuel none depth calls = (.ok (), calls) := by
  cases fuel <;> simp only [CompoundFile.iterateNodes]

theorem iterateNodes_node (cf : CompoundFile) (fuel entry depth : Nat)
    (calls c1 c2 c3 : List (Nat × Nat)) (ec el er : Option Nat)
    (hc : cf.getLinkedEntry entry 76 = .ok ec)
    (hcs : cf.iterateNodes fuel ec (depth + 1) (calls ++ [(entry, depth)]) = (.ok (), c1))
    (hl : cf.getLinkedEntry entry 68 = .ok el)
    (hls : cf.iterateNodes fuel el depth c1 = (.ok (), c2))
    (hr : cf.getLinkedEntry entry 72 = .ok er)
    (hrs : cf.iterateNodes fuel er depth c2 = (.ok (), c3)) :
    cf.iterateNodes (fuel + 1) (some entry) depth calls = (.ok (), c3) := by
  simp only [CompoundFile.iterateNodes, hc]
  by_cases hne : ec = none
  · subst hne
    rw [iterateNodes_none] at hcs
    cases hcs
    simp only [ne_eq, not_true_eq_false, if_false, hl, hls, hr, hrs]
  · simp only [ne_eq, hne, not_false_eq_true, if_true, hcs, hl, hls, hr, hrs]

theorem iterateNodes_visit {cf : CompoundFile} {i d : Nat} {out : List (Nat × Nat)}
    (h : Visit cf i d out) :
    ∃ fuel, ∀ n, fuel ≤ n → ∀ calls e, cf.getDirectoryEntry i = .ok e →
      cf.iterateNodes n e d calls = (.ok (), calls ++ out) := by
  induction h with
  | nil d =>
    refine ⟨0, ?_⟩
    intro n _ calls e he
    have : e = none := by
      have h0 : cf.getDirectoryEntry CFB_DIRECTORY_ENTRY_NO_STREAM = .ok none := rfl
      rw [h0] at he
      cases he
      rfl
    subst this
    rw [iterateNodes_none, List.append_nil]
  | node i d entry child left right cs ls rs hne he hchild hleft hright hvc hvl hvr ihc ihl ihr =>
    obtain ⟨fc, hfc⟩ := ihc
    obtain ⟨fl, hfl⟩ := ihl
    obtain ⟨fr, hfr⟩ := ihr
    obtain ⟨ec, hec⟩ := hvc.entry
    obtain ⟨el, hel⟩ := hvl.entry
    obtain ⟨er, her⟩ := hvr.entry
    refine ⟨fc + fl + fr + 1, ?_⟩
    intro n hn calls e he'
    rw [he] at he'
    cases he'
    obtain ⟨m, rfl⟩ : ∃ m, n = m + 1 := ⟨n - 1, by omega⟩
    have h1 := hfc m (by omega) (calls ++ [(entry, d)]) ec hec
    have h2 := hfl m (by omega) (calls ++ [(entry, d)] ++ cs) el hel
    have h3 := hfr m (by omega) (calls ++ [(entry, d)] ++ cs ++ ls) er her
    rw [iterateNodes_node cf m entry d calls _ _ _ ec el er
      (by rw [getLinkedEntry_eq _ _ _ _ hchild]; exact hec) h1
      (by rw [getLinkedEntry_eq _ _ _ _ hleft]; exact hel) h2
      (by rw [getLinkedEntry_eq _ _ _ _ hright]; exact her) h3]
    simp only [List.append_assoc]

theorem Loaded.root {cf : CompoundFile} {image : List Byte} (h : Loaded cf image) :
    ∃ root, cf.getRootDirectoryEntry = .ok (some root) ∧ root + 120 ≤ image.length := by
  have r := h.ready
  obtain ⟨s, hs⟩ := h
  obtain ⟨image', h1, _, ok, start, hroot, rfl⟩ := (read_ok_iff s cf _).1 hs
  cases h1
  have rs := sized_ready image ok
  rw [readRoot_flat rs] at hroot
  have hs0 : ¬ 0 ≥ (sized image).sectorSize := by rcases rs.sector with h | h <;> omega
  have hss : ({ sized image with miniStreamStartSector := start } : CompoundFile).sectorSize
      = (sized image).sectorSize := rfl
  unfold CompoundFile.getRootDirectoryEntry
  rw [getDirectoryEntry_zero r, getAddressWithSectorNumber_eq _ r.sector, r.length, hss]
  split_ifs at hroot with h1 h2 h3 h4 h5
  rw [if_neg hs0, if_neg h1, if_neg (by omega)]
  exact ⟨_, rfl, by omega⟩

/-- C10. In a loaded reader the root entry and its `childID` are readable, and
whenever the links below `root.childID` form a finite tree, `iterate_all`
delivers `visit(root.childID, 0)`; whenever the links below `e.childID` form a
finite tree, `iterate_from(e)` delivers `visit(e.childID, 0)`.  Each node comes
before its child subtree, then its left-sibling subtree, then its right-sibling
subtree, one deeper across a child link and as deep across a sibling link.
(Delivered means: with enough fuel for the recursion, and with any more.) -/
theorem iterateAll_visit (cf : CompoundFile) (image : List Byte) (hl : Loaded cf image) :
    (∃ root child, cf.getRootDirectoryEntry = .ok (some root) ∧
      cf.getUint32Field (root + 76) = .ok child ∧
      ∀ out, Visit cf child 0 out →
        ∃ fuel, ∀ n, fuel ≤ n → cf.iterateAll n = (.ok (), out)) ∧
    (∀ (e : DirectoryEntry) out, Visit cf e.childID 0 out →
      ∃ fuel, ∀ n, fuel ≤ n → cf.iterateFromDirectoryEntry n e = (.ok (), out)) := by
  have r := hl.ready
  constructor
  · obtain ⟨root, hroot, hlen⟩ := hl.root
    have hchild : cf.getUint32Field (root + 76) = .ok (fieldAt image (root + 76) 4) := by
      rw [getUint32Field_eq r.buffer, if_pos (by omega)]
    refine ⟨root, _, hroot, hchild, ?_⟩
    intro out hv
    obtain ⟨fuel, hf⟩ := iterateNodes_visit hv
    obtain ⟨e, he⟩ := hv.entry
    refine ⟨fuel, ?_⟩
    intro n hn
    have := hf n hn [] e he
    simp only [CompoundFile.iterateAll, hroot, getLinkedEntry_eq _ _ _ _ hchild, he]
    rw [this, List.nil_append]
  · intro e out hv
    obtain ⟨fuel, hf⟩ := iterateNodes_visit hv
    obtain ⟨ec, hec⟩ := hv.entry
    refine ⟨fuel, ?_⟩
    intro n hn
    have := hf n hn [] ec hec
    simp only [CompoundFile.iterateFromDirectoryEntry, hec]
    rw [this, List.nil_append]

theorem visit_leaf (cf : CompoundFile) (i d entry : Nat)
    (hne : i ≠ CFB_DIRECTORY_ENTRY_NO_STREAM)
    (he : cf.getDirectoryEntry i = .ok (some entry))
    (hchild : cf.getUint32Field (entry + 76) = .ok CFB_DIRECTORY_ENTRY_NO_STREAM)
    (hleft : cf.getUint32Field (entry + 68) = .ok CFB_DIRECTORY_ENTRY_NO_STREAM)
    (hright : cf.getUint32Field (entry + 72) = .ok CFB_DIRECTORY_ENTRY_NO_STREAM) :
    Visit cf i d [(entry, d)] :=
  Visit.node i d entry _ _ _ [] [] [] hne he hchild hleft hright (.nil _) (.nil _) (.nil _)

theorem visit_readerSmall :
    Visit readerSmall 1 0 [(1152, 0), (1280, 0), (1408, 0), (3584, 1)] :=
  Visit.node 1 0 1152 CFB_DIRECTORY_ENTRY_NO_STREAM 2 3 [] [(1280, 0)] [(1408, 0), (3584, 1)]
    (by decide) (by decide!) (by decide!) (by decide!) (by decide!) (.nil _)
    (visit_leaf readerSmall 2 0 1280 (by decide) (by decide!) (by decide!) (by decide!)
      (by decide!))
    (Visit.node 3 0 1408 4 CFB_DIRECTORY_ENTRY_NO_STREAM CFB_DIRECTORY_ENTRY_NO_STREAM
      [(3584, 1)] [] [] (by decide) (by decide!) (by decide!) (by decide!) (by decide!)
      (visit_leaf readerSmall 4 1 3584 (by decide) (by decide!) (by decide!) (by decide!)
        (by decide!))
      (.nil _) (.nil _))

/-- C10, at a concrete input: in `imageSmall` the root has child 1, entry 1 has
the siblings 2 and 3, entry 3 has child 4; `iterate_all` delivers the entries 1,
2, 3 at depth 0 and then entry 4 at depth 1. -/
theorem iterateAll_visit_witness :
    ∃ fuel, ∀ n, fuel ≤ n →
      readerSmall.iterateAll n = (.ok (), [(1152, 0), (1280, 0), (1408, 0), (3584, 1)]) := by
  obtain ⟨root, child, hroot, hchild, h⟩ :=
    (iterateAll_visit readerSmall imageSmall readerSmall_loaded).1
  have hr : readerSmall.getRootDirectoryEntry = .ok (some 1024) := by decide!
  rw [hr] at hroot
  cases hroot
  have hc : readerSmall.getUint32Field (1024 + 76) = .ok 1 := by decide!
  rw [hc] at hchild
  cases hchild
  exact h _ visit_readerSmall

/-! ## Properties of the sector addressing and the FAT -/

/-- C15. In a loaded reader `address_of_sector(n, o)` succeeds exactly when
`o < sector_size`, `n < MAX_REGULAR` and `sector_size * (n + 1) + o` is below the
image length, and it then returns that offset, computed without wraparound; a
returned address lies in `[sector_size, image_end)` and different pairs `(n, o)`
give different addresses; a violation of one of the first two conditions fails
with an error of kind `InvalidArgument`, a violation of the third alone with
one of kind `OutOfBounds`. -/
theorem getAddressWithSectorNumber_spec (cf : CompoundFile) (image : List Byte)
    (hl : Loaded cf image) (n o : Nat) :
    (∀ a, cf.getAddressWithSectorNumber n o = .ok a ↔
      o < cf.sectorSize ∧ n < CFB_SECTOR_MAX_REGULAR_SECTOR ∧
        cf.sectorSize * (n + 1) + o < image.length ∧ a = cf.sectorSize * (n + 1) + o) ∧
    (∀ a, cf.getAddressWithSectorNumber n o = .ok a → cf.sectorSize ≤ a ∧ a < image.length) ∧
    (∀ n' o' a, cf.getAddressWithSectorNumber n o = .ok a →
      cf.getAddressWithSectorNumber n' o' = .ok a → n = n' ∧ o = o') ∧
    ((o ≥ cf.sectorSize ∨ n ≥ CFB_SECTOR_MAX_REGULAR_SECTOR) →
      ∃ e, cf.getAddressWithSectorNumber n o = .error e ∧ e.kind = some .InvalidArgument) ∧
    (o < cf.sectorSize → n < CFB_SECTOR_MAX_REGULAR_SECTOR →
      image.length ≤ cf.sectorSize * (n + 1) + o →
      ∃ e, cf.getAddressWithSectorNumber n o = .error e ∧ e.kind = some .OutOfBounds) := by
  have r := hl.ready
  have hiff := getAddressWithSectorNumber_ok_iff cf r.sector
  rw [r.length] at hiff
  refine ⟨?_, ?_, ?_, ?_, ?_⟩
  · intro a
    rw [hiff]
    constructor
    · rintro ⟨h1, h2, h3, h4⟩
      exact ⟨h1, h2, by omega, h3⟩
    · rintro ⟨h1, h2, h3, h4⟩
      exact ⟨h1, h2, h4, by omega⟩
  · intro a ha
    obtain ⟨h1, h2, h3, h4⟩ := (hiff _ _ _).1 ha
    refine ⟨?_, h4⟩
    rw [h3, Nat.mul_add, Nat.mul_one]
    omega
  · intro n' o' a ha ha'
    obtain ⟨h1, _, h3, _⟩ := (hiff _ _ _).1 ha
    obtain ⟨h1', _, h3', _⟩ := (hiff _ _ _).1 ha'
    rcases r.sector with hS | hS <;> rw [hS] at h1 h1' h3 h3' <;> omega
  · intro hbad
    rw [getAddressWithSectorNumber_eq cf r.sector]
    by_cases h1 : o ≥ cf.sectorSize
    · exact ⟨.offsetGeSectorSize, by rw [if_pos h1], rfl⟩
    · have h2 : n ≥ CFB_SECTOR_MAX_REGULAR_SECTOR := by
        rcases hbad with h | h
        · exact absurd h h1
        · exact h
      exact ⟨.sectorGeMaxRegular, by rw [if_neg h1, if_pos h2], rfl⟩
  · intro h1 h2 h3
    rw [getAddressWithSectorNumber_eq cf r.sector, r.length]
    exact ⟨.outOfFile, by rw [if_neg (by omega), if_neg (by omega), if_pos h3], rfl⟩

/-- C15, at concrete inputs: sector 6 of `imageSmall` at offset 0, and sector 7,
which starts at the end of the image. -/
theorem getAddressWithSectorNumber_spec_witness :
    (readerSmall.sectorSize ≤ 3584 ∧ 3584 < imageSmall.length) ∧
      ∃ e, readerSmall.getAddressWithSectorNumber 7 0 = .error e ∧ e.kind = some .OutOfBounds :=
  ⟨(getAddressWithSectorNumber_spec readerSmall imageSmall readerSmall_loaded 6 0).2.1 3584
      (by decide!),
    (getAddressWithSectorNumber_spec readerSmall imageSmall readerSmall_loaded 7 0).2.2.2.2
      (by decide) (by decide) (by decide!)⟩

theorem valueInSector_ok_iff {cf : CompoundFile} {image : List Byte} (r : Ready cf image)
    (d o v : Nat) :
    cf.valueInSector d o = .ok v ↔
      o < cf.sectorSize ∧ d < CFB_SECTOR_MAX_REGULAR_SECTOR ∧
        cf.sectorSize * (d + 1) + o + 4 ≤ image.length ∧
        v = fieldAt image (cf.sectorSize * (d + 1) + o) 4 := by
  unfold CompoundFile.valueInSector
  rcases ha : cf.getAddressWithSectorNumber d o with e | a
  · simp only [bind, Except.bind]
    constructor
    · intro h; cases h
    · rintro ⟨h1, h2, h3, _⟩
      have := (getAddressWithSectorNumber_ok_iff cf r.sector d o _).2
        ⟨h1, h2, rfl, by rw [r.length]; omega⟩
      rw [ha] at this
      cases this
  · obtain ⟨h1, h2, rfl, h4⟩ := (getAddressWithSectorNumber_ok_iff cf r.sector d o a).1 ha
    simp only [bind, Except.bind, getUint32Field_eq r.buffer]
    split_ifs with h
    · simp only [Except.ok.injEq]
      constructor
      · intro hv
        exact ⟨h1, h2, h, hv.symm⟩
      · rintro ⟨_, _, _, hv⟩
        exact hv.symm
    · constructor
      · intro hc; cases hc
      · rintro ⟨_, _, h3, _⟩
        exact absurd h3 h

theorem valueInSector_regular {cf : CompoundFile} {image : List Byte} (r : Ready cf image)
    {d o v : Nat} (h : cf.valueInSector d o = .ok v) : cf.RegularInBounds image d := by
  obtain ⟨_, h2, h3, _⟩ := (valueInSector_ok_iff r d o v).1 h
  exact ⟨h2, by omega⟩

theorem valueInSector_not_outOfFuel (cf : CompoundFile) (d o : Nat) :
    cf.valueInSector d o ≠ .error .outOfFuel := by
  unfold CompoundFile.valueInSector CompoundFile.getAddressWithSectorNumber
    CompoundFile.getUint32Field CompoundFile.load
  simp only [bind, Except.bind]
  split_ifs
  · simp
  · simp
  · simp
  · cases cf.buffer
    · simp [Except.map]
    · simp only [Except.map]
      split_ifs <;> simp

theorem chain_ok_le (next : Nat → Except Err Nat) (s q d : Nat) (h : chain next s q = .ok d) :
    ∀ t, t ≤ q → ∃ u, chain next s t = .ok u := by
  induction q generalizing d with
  | zero =>
    intro t ht
    have : t = 0 := by omega
    subst this
    exact ⟨d, h⟩
  | succ q ih =>
    intro t ht
    rcases Nat.lt_or_ge t (q + 1) with hlt | hge
    · obtain ⟨u, hu, _⟩ := chain_ok_of_succ next s q d h
      exact ih u hu t (by omega)
    · have : t = q + 1 := by omega
      subst this
      exact ⟨d, h⟩

theorem sectorSize_facts {cf : CompoundFile} {image : List Byte} (r : Ready cf image) :
    (cf.sectorSize / 4) % 2 ^ 32 = cf.sectorSize / 4 ∧
    (cf.sectorSize / 4 + (2 ^ 64 - 1)) % 2 ^ 64 = cf.sectorSize / 4 - 1 ∧
    ((cf.sectorSize + (2 ^ 64 - 4)) % 2 ^ 64) % 2 ^ 32 = cf.sectorSize - 4 ∧
    0 < cf.sectorSize / 4 - 1 ∧ cf.sectorSize / 4 * 4 = cf.sectorSize ∧
    64 ≤ cf.sectorSize / 4 := by
  rcases r.sector with h | h <;> simp [h]

theorem getFATSectorNumberLoop_below (cf : CompoundFile) (k fuel j d : Nat) (h : j < k) :
    cf.getFATSectorNumberLoop k fuel j d = .ok (j, d) := by
  have h' : ¬ j ≥ k := by omega
  cases fuel <;> simp only [CompoundFile.getFATSectorNumberLoop, h', if_false]

theorem getFATSectorNumberLoop_hop {cf : CompoundFile} {image : List Byte} (r : Ready cf image)
    (k fuel j d : Nat) (h : j ≥ k) :
    cf.getFATSectorNumberLoop k (fuel + 1) j d =
      (cf.nextDIFATSector d).bind fun next => cf.getFATSectorNumberLoop k fuel (j - k) next := by
  simp only [CompoundFile.getFATSectorNumberLoop, h, if_true, (sectorSize_facts r).2.2.1,
    CompoundFile.nextDIFATSector, CompoundFile.valueInSector, bind, Except.bind]
  all_goals (rcases cf.getAddressWithSectorNumber d (cf.sectorSize - 4) with e | a)
  all_goals rfl

theorem getFATSectorNumberLoop_ok {cf : CompoundFile} {image : List Byte} (r : Ready cf image)
    (k : Nat) :
    ∀ fuel j d j' d', cf.getFATSectorNumberLoop k fuel j d = .ok (j', d') →
      ∃ t, chain cf.nextDIFATSector d t = .ok d' ∧ j = j' + t * k ∧ j' < k := by
  intro fuel
  induction fuel with
  | zero =>
    intro j d j' d' h
    simp only [CompoundFile.getFATSectorNumberLoop] at h
    split_ifs at h with hc
    simp only [Except.ok.injEq, Prod.mk.injEq] at h
    obtain ⟨rfl, rfl⟩ := h
    exact ⟨0, rfl, by omega, by omega⟩
  | succ fuel ih =>
    intro j d j' d' h
    by_cases hc : j ≥ k
    · rw [getFATSectorNumberLoop_hop r k fuel j d hc] at h
      rcases hn : cf.nextDIFATSector d with e | n
      · rw [hn] at h; cases h
      · rw [hn] at h
        obtain ⟨t, ht, hj, hlt⟩ := ih _ _ _ _ h
        refine ⟨t + 1, ?_, ?_, hlt⟩
        · rw [chain_succ_front, hn]
          exact ht
        · rw [Nat.add_mul]
          omega
    · rw [getFATSectorNumberLoop_below cf k _ j d (by omega)] at h
      simp only [Except.ok.injEq, Prod.mk.injEq] at h
      obtain ⟨rfl, rfl⟩ := h
      exact ⟨0, rfl, by omega, by omega⟩

theorem div_pred_of_ge {j k : Nat} (hk : 0 < k) (h : k ≤ j) : (j - k) / k = j / k - 1 := by
  rw [Nat.div_eq_sub_div hk h, Nat.add_sub_cancel]

theorem div_pos_of_ge {j k : Nat} (hk : 0 < k) (h : k ≤ j) : 1 ≤ j / k := by
  rw [Nat.div_eq_sub_div hk h]
  exact Nat.le_add_left 1 _

theorem getFATSectorNumberLoop_fuel {cf : CompoundFile} {image : List Byte} (r : Ready cf image)
    (k : Nat) (hk : 0 < k) :
    ∀ fuel fuel' j d, j / k ≤ fuel → j / k ≤ fuel' →
      cf.getFATSectorNumberLoop k fuel j d = cf.getFATSectorNumberLoop k fuel' j d ∧
        cf.getFATSectorNumberLoop k fuel j d ≠ .error .outOfFuel := by
  intro fuel
  induction fuel with
  | zero =>
    intro fuel' j d h _
    have hlt : j < k := by
      by_contra hge
      have := div_pos_of_ge hk (Nat.le_of_not_lt hge)
      omega
    rw [getFATSectorNumberLoop_below cf k _ j d hlt, getFATSectorNumberLoop_below cf k _ j d hlt]
    exact ⟨rfl, by simp⟩
  | succ fuel ih =>
    intro fuel' j d h h'
    by_cases hlt : j < k
    · rw [getFATSectorNumberLoop_below cf k _ j d hlt,
        getFATSectorNumberLoop_below cf k _ j d hlt]
      exact ⟨rfl, by simp⟩
    · have hge : j ≥ k := Nat.le_of_not_lt hlt
      have h1 := div_pos_of_ge hk hge
      have h2 := div_pred_of_ge hk hge
      obtain ⟨f', rfl⟩ : ∃ f', fuel' = f' + 1 := ⟨fuel' - 1, by omega⟩
      rw [getFATSectorNumberLoop_hop r k fuel j d hge, getFATSectorNumberLoop_hop r k f' j d hge]
      rcases hn : cf.nextDIFATSector d with e | n
      · refine ⟨rfl, ?_⟩
        intro hc
        simp only [Except.bind, Except.error.injEq] at hc
        subst hc
        exact valueInSector_not_outOfFuel cf _ _ hn
      · exact ih f' (j - k) n (by omega) (by omega)

theorem headerDIFAT_getD (image : List Byte) (i : Nat) (h : i < 109) :
    (headerView image).headerDIFAT.getD i 0 = fieldAt image (76 + 4 * i) 4 := by
  simp only [headerView, List.getD_eq_getElem?_getD, List.getElem?_map]
  rw [List.getElem?_range h]
  rfl

theorem getFATSectorNumber_lt {cf : CompoundFile} {image : List Byte} (r : Ready cf image)
    (i : Nat) (h : i < 109) :
    cf.getFATSectorNumber i = .ok (fieldAt image (76 + 4 * i) 4) := by
  simp only [CompoundFile.getFATSectorNumber, CompoundFile.header, r.header, h, if_true, bind,
    Except.bind, pure, Except.pure, headerDIFAT_getD image i h]

theorem getFATSectorNumber_ge {cf : CompoundFile} {image : List Byte} (r : Ready cf image)
    (i : Nat) (h : 109 ≤ i) :
    cf.getFATSectorNumber i =
      (cf.getFATSectorNumberLoop (cf.sectorSize / 4 - 1) (i - 109) (i - 109)
        (headerView image).firstDIFATSectorLocation).bind
        fun p => cf.valueInSector p.2 ((p.1 * 4) % 2 ^ 32) := by
  have h' : ¬ i < 109 := by omega
  simp only [CompoundFile.getFATSectorNumber, CompoundFile.header, r.header, h', if_false, bind,
    Except.bind, (sectorSize_facts r).2.1, CompoundFile.valueInSector]
  all_goals
    rcases cf.getFATSectorNumberLoop (cf.sectorSize / 4 - 1) (i - 109) (i - 109)
      (headerView image).firstDIFATSectorLocation with e | ⟨j', d'⟩ <;> rfl

theorem getFATSectorNumber_not_outOfFuel {cf : CompoundFile} {image : List Byte}
    (r : Ready cf image) (i : Nat) : cf.getFATSectorNumber i ≠ .error .outOfFuel := by
  by_cases h : i < 109
  · rw [getFATSectorNumber_lt r i h]
    simp
  · rw [getFATSectorNumber_ge r i (by omega)]
    have hk := (sectorSize_facts r).2.2.2.1
    have hf := (getFATSectorNumberLoop_fuel r _ hk (i - 109) (i - 109) (i - 109)
      (headerView image).firstDIFATSectorLocation (Nat.div_le_self _ _) (Nat.div_le_self _ _)).2
    rcases hl : cf.getFATSectorNumberLoop (cf.sectorSize / 4 - 1) (i - 109) (i - 109)
        (headerView image).firstDIFATSectorLocation with e | p
    · rw [hl] at hf
      simp only [Except.bind]
      intro hc
      simp only [Except.error.injEq] at hc
      subst hc
      exact hf rfl
    · simp only [Except.bind]
      exact valueInSector_not_outOfFuel cf _ _

/-- C17. In a loaded reader `fat_sector_number_of(i)` for `i < 109` is entry `i`
of the header DIFAT (the 32-bit value at image offset `76 + 4 * i`), whatever the
sectors hold.  For `i >= 109`, with `k = sector_size / 4 - 1`, `j = i - 109`,
`D_0` the first DIFAT sector of the header and `D_(t+1)` the 32-bit value at
byte offset `sector_size - 4` of sector `D_t`: a returned value is the 32-bit
value at byte offset `(j mod k) * 4` of sector `D_(j div k)`, and every `D_t`
with `t <= j div k` is then a regular sector that starts inside the image; so
the call fails when one of them is not. -/
theorem getFATSectorNumber_spec (cf : CompoundFile) (image : List Byte) (hl : Loaded cf image)
    (i : Nat) :
    (i < 109 → cf.getFATSectorNumber i = .ok (fieldAt image (76 + 4 * i) 4) ∧
      (headerView image).headerDIFAT[i]? = some (fieldAt image (76 + 4 * i) 4)) ∧
    (109 ≤ i → ∀ v, cf.getFATSectorNumber i = .ok v →
      (∃ d, chain cf.nextDIFATSector (headerView image).firstDIFATSectorLocation
          ((i - 109) / (cf.sectorSize / 4 - 1)) = .ok d ∧
        cf.sectorSize * (d + 1) + (i - 109) % (cf.sectorSize / 4 - 1) * 4 + 4 ≤ image.length ∧
        v = fieldAt image
          (cf.sectorSize * (d + 1) + (i - 109) % (cf.sectorSize / 4 - 1) * 4) 4) ∧
      ∀ t, t ≤ (i - 109) / (cf.sectorSize / 4 - 1) →
        ∃ d, chain cf.nextDIFATSector (headerView image).firstDIFATSectorLocation t = .ok d ∧
          cf.RegularInBounds image d) ∧
    (109 ≤ i → ∀ t d, t ≤ (i - 109) / (cf.sectorSize / 4 - 1) →
      chain cf.nextDIFATSector (headerView image).firstDIFATSectorLocation t = .ok d →
      ¬ cf.RegularInBounds image d → ∃ e, cf.getFATSectorNumber i = .error e) := by
  have r := hl.ready
  have hk := (sectorSize_facts r).2.2.2.1
  have main : 109 ≤ i → ∀ v, cf.getFATSectorNumber i = .ok v →
      (∃ d, chain cf.nextDIFATSector (headerView image).firstDIFATSectorLocation
          ((i - 109) / (cf.sectorSize / 4 - 1)) = .ok d ∧
        cf.sectorSize * (d + 1) + (i - 109) % (cf.sectorSize / 4 - 1) * 4 + 4 ≤ image.length ∧
        v = fieldAt image
          (cf.sectorSize * (d + 1) + (i - 109) % (cf.sectorSize / 4 - 1) * 4) 4) ∧
      ∀ t, t ≤ (i - 109) / (cf.sectorSize / 4 - 1) →
        ∃ d, chain cf.nextDIFATSector (headerView image).firstDIFATSectorLocation t = .ok d ∧
          cf.RegularInBounds image d := by
    intro hi v hv
    rw [getFATSectorNumber_ge r i hi] at hv
    rcases hloop : cf.getFATSectorNumberLoop (cf.sectorSize / 4 - 1) (i - 109) (i - 109)
        (headerView image).firstDIFATSectorLocation with e | ⟨j', d'⟩
    · rw [hloop] at hv
      cases hv
    · rw [hloop] at hv
      simp only [Except.bind] at hv
      obtain ⟨t, hchain, hj, hlt⟩ := getFATSectorNumberLoop_ok r _ _ _ _ _ _ hloop
      have hq : (i - 109) / (cf.sectorSize / 4 - 1) = t := by
        rw [hj, Nat.add_mul_div_right _ _ hk, Nat.div_eq_of_lt hlt, Nat.zero_add]
      have hr : (i - 109) % (cf.sectorSize / 4 - 1) = j' := by
        rw [hj, Nat.add_mul_mod_self_right, Nat.mod_eq_of_lt hlt]
      have hsmall : j' * 4 % 2 ^ 32 = j' * 4 := by
        apply Nat.mod_eq_of_lt
        rcases r.sector with hS | hS <;> rw [hS] at hlt <;> omega
      rw [hsmall] at hv
      obtain ⟨_, _, h3, h4⟩ := (valueInSector_ok_iff r _ _ _).1 hv
      rw [hq, hr]
      refine ⟨⟨d', hchain, h3, h4⟩, ?_⟩
      intro u hu
      rcases Nat.lt_or_ge u t with hlt' | hge'
      · obtain ⟨w, hw⟩ := chain_ok_le _ _ _ _ hchain (u + 1) (by omega)
        obtain ⟨x, hx, hnext⟩ := chain_ok_of_succ _ _ _ _ hw
        exact ⟨x, hx, valueInSector_regular r hnext⟩
      · have : u = t := by omega
        subst this
        exact ⟨d', hchain, valueInSector_regular r hv⟩
  refine ⟨?_, main, ?_⟩
  · intro hi
    refine ⟨getFATSectorNumber_lt r i hi, ?_⟩
    have := headerDIFAT_getD image i hi
    have hlen : (headerView image).headerDIFAT.length = 109 := by simp [headerView]
    rw [List.getD_eq_getElem?_getD, List.getElem?_eq_getElem (by omega)] at this
    rw [List.getElem?_eq_getElem (by omega)]
    exact congrArg some this
  · intro hi t d ht hchain hbad
    rcases hcall : cf.getFATSectorNumber i with e | v
    · exact ⟨e, rfl⟩
    · exfalso
      obtain ⟨d', hd', hreg⟩ := (main hi v hcall).2 t ht
      rw [hchain] at hd'
      cases hd'
      exact hbad hreg

theorem getNextFATSectorNumber_eq {cf : CompoundFile} {image : List Byte} (r : Ready cf image)
    (n : Nat) (hn : n < 2 ^ 32) :
    cf.getNextFATSectorNumber n =
      (cf.getFATSectorNumber (n / (cf.sectorSize / 4))).bind
        fun f => cf.valueInSector f (n % (cf.sectorSize / 4) * 4) := by
  obtain ⟨h1, _, _, _, _, h64⟩ := sectorSize_facts r
  have h0 : ¬ cf.sectorSize / 4 = 0 := by omega
  have hdiv : n / (cf.sectorSize / 4) % 2 ^ 32 = n / (cf.sectorSize / 4) :=
    Nat.mod_eq_of_lt (Nat.lt_of_le_of_lt (Nat.div_le_self _ _) hn)
  have hmod : n % (cf.sectorSize / 4) * 4 % 2 ^ 32 = n % (cf.sectorSize / 4) * 4 := by
    apply Nat.mod_eq_of_lt
    have := Nat.mod_lt n (show 0 < cf.sectorSize / 4 by omega)
    rcases r.sector with hS | hS <;> rw [hS] at this ⊢ <;> omega
  simp only [CompoundFile.getNextFATSectorNumber, h1, h0, if_false, hdiv, hmod, bind,
    Except.bind, pure, Except.pure, CompoundFile.valueInSector]

theorem getNextFATSectorNumber_not_outOfFuel {cf : CompoundFile} {image : List Byte}
    (r : Ready cf image) (n : Nat) : cf.getNextFATSectorNumber n ≠ .error .outOfFuel := by
  obtain ⟨h1, _, _, _, _, h64⟩ := sectorSize_facts r
  have h0 : ¬ cf.sectorSize / 4 = 0 := by omega
  simp only [CompoundFile.getNextFATSectorNumber, h1, h0, if_false, bind, Except.bind, pure,
    Except.pure]
  have hf := getFATSectorNumber_not_outOfFuel r (n / (cf.sectorSize / 4) % 2 ^ 32)
  rcases hc : cf.getFATSectorNumber (n / (cf.sectorSize / 4) % 2 ^ 32) with e | f
  · rw [hc] at hf
    intro h
    simp only [Except.error.injEq] at h
    subst h
    exact hf rfl
  · exact valueInSector_not_outOfFuel cf f _

/-- C16. In a loaded reader, a value that `next_sector_in_chain(n)` returns for a
32-bit `n` is the 32-bit little-endian value stored at image offset
`sector_size * (f + 1) + (n mod eps) * 4`, with `eps = sector_size / 4` and `f`
the result of `fat_sector_number_of(n div eps)`; the value is returned as
stored, whatever it is. -/
theorem getNextFATSectorNumber_spec (cf : CompoundFile) (image : List Byte)
    (hl : Loaded cf image) (n v : Nat) (hn : n < 2 ^ 32)
    (h : cf.getNextFATSectorNumber n = .ok v) :
    ∃ f, cf.getFATSectorNumber (n / (cf.sectorSize / 4)) = .ok f ∧
      cf.sectorSize * (f + 1) + n % (cf.sectorSize / 4) * 4 + 4 ≤ image.length ∧
      v = fieldAt image (cf.sectorSize * (f + 1) + n % (cf.sectorSize / 4) * 4) 4 := by
  have r := hl.ready
  rw [getNextFATSectorNumber_eq r n hn] at h
  rcases hf : cf.getFATSectorNumber (n / (cf.sectorSize / 4)) with e | f
  · rw [hf] at h
    cases h
  · rw [hf] at h
    simp only [Except.bind] at h
    obtain ⟨_, _, h3, h4⟩ := (valueInSector_ok_iff r _ _ _).1 h
    exact ⟨f, rfl, h3, h4⟩

/-- C16, at a concrete input: in `imageSmall` the FAT entry of sector 2 is
`END_OF_CHAIN`, and that is what is returned. -/
theorem getNextFATSectorNumber_spec_witness :
    ∃ f, readerSmall.getFATSectorNumber (2 / (readerSmall.sectorSize / 4)) = .ok f ∧
      readerSmall.sectorSize * (f + 1) + 2 % (readerSmall.sectorSize / 4) * 4 + 4
        ≤ imageSmall.length ∧
      CFB_SECTOR_END_OF_CHAIN = fieldAt imageSmall
        (readerSmall.sectorSize * (f + 1) + 2 % (readerSmall.sectorSize / 4) * 4) 4 :=
  getNextFATSectorNumber_spec readerSmall imageSmall readerSmall_loaded 2
    CFB_SECTOR_END_OF_CHAIN (by decide) (by decide!)

/-! ## Properties of the MiniFAT walk -/

theorem getDirectoryEntryLoop_hop (cf : CompoundFile) (eps fuel id s : Nat) (h : eps ≤ id)
    (hs : s ≠ CFB_SECTOR_END_OF_CHAIN) :
    cf.getDirectoryEntryLoop eps (fuel + 1) id s =
      (cf.getNextFATSectorNumber s).bind fun next =>
        cf.getDirectoryEntryLoop eps fuel (id - eps) next := by
  simp only [CompoundFile.getDirectoryEntryLoop, h, hs, ne_eq, not_false_eq_true, and_self,
    if_true, bind]

theorem getDirectoryEntryLoop_stop (cf : CompoundFile) (eps fuel id : Nat) :
    cf.getDirectoryEntryLoop eps fuel id CFB_SECTOR_END_OF_CHAIN
      = .ok (id, CFB_SECTOR_END_OF_CHAIN) := by
  cases fuel <;> simp [CompoundFile.getDirectoryEntryLoop]

theorem getNextMiniFATSectorNumberLoop_eq (cf : CompoundFile) (eps : Nat) :
    ∀ fuel m s, cf.getNextMiniFATSectorNumberLoop eps fuel m s
      = cf.getDirectoryEntryLoop eps fuel m s := by
  intro fuel
  induction fuel with
  | zero =>
    intro m s
    simp only [CompoundFile.getNextMiniFATSectorNumberLoop, CompoundFile.getDirectoryEntryLoop,
      ge_iff_le]
  | succ fuel ih =>
    intro m s
    simp only [CompoundFile.getNextMiniFATSectorNumberLoop, CompoundFile.getDirectoryEntryLoop,
      ge_iff_le, ih]

theorem getNextMiniFATSectorNumber_error {cf : CompoundFile} {image : List Byte}
    (r : Ready cf image) (m : Nat) (e : Err)
    (hloop : cf.getDirectoryEntryLoop (cf.sectorSize / 4) m m
      (headerView image).firstMiniFATSectorLocation = .error e) :
    cf.getNextMiniFATSectorNumber m = .error e := by
  simp only [CompoundFile.getNextMiniFATSectorNumber, CompoundFile.header, r.header,
    (sectorSize_facts r).1, getNextMiniFATSectorNumberLoop_eq, hloop, bind, Except.bind]

theorem getNextMiniFATSectorNumber_stop {cf : CompoundFile} {image : List Byte}
    (r : Ready cf image) (m m' s : Nat)
    (hloop : cf.getDirectoryEntryLoop (cf.sectorSize / 4) m m
      (headerView image).firstMiniFATSectorLocation = .ok (m', s))
    (hs : s = CFB_SECTOR_END_OF_CHAIN) :
    cf.getNextMiniFATSectorNumber m = .ok CFB_SECTOR_END_OF_CHAIN := by
  simp only [CompoundFile.getNextMiniFATSectorNumber, CompoundFile.header, r.header,
    (sectorSize_facts r).1, getNextMiniFATSectorNumberLoop_eq, hloop, bind, Except.bind, pure,
    Except.pure]
  rw [if_pos hs]

theorem getNextMiniFATSectorNumber_value {cf : CompoundFile} {image : List Byte}
    (r : Ready cf image) (m m' s : Nat)
    (hloop : cf.getDirectoryEntryLoop (cf.sectorSize / 4) m m
      (headerView image).firstMiniFATSectorLocation = .ok (m', s))
    (hs : s ≠ CFB_SECTOR_END_OF_CHAIN) :
    cf.getNextMiniFATSectorNumber m = cf.valueInSector s ((m' * 4) % 2 ^ 32) := by
  simp only [CompoundFile.getNextMiniFATSectorNumber, CompoundFile.header, r.header,
    (sectorSize_facts r).1, getNextMiniFATSectorNumberLoop_eq, hloop, bind, Except.bind, pure,
    Except.pure, CompoundFile.valueInSector]
  rw [if_neg hs]

/-- C19. In a loaded reader, with `eps = sector_size / 4`, `M_0` the first
MiniFAT sector of the header and `M_(j+1) = next_sector_in_chain(M_j)`: when some
`M_j` with `j <= m div eps` is `END_OF_CHAIN`, `next_mini_sector(m)` returns
`END_OF_CHAIN`; when none is, a value that it returns is the 32-bit value at
byte offset `(m mod eps) * 4` of sector `M_(m div eps)`. -/
theorem getNextMiniFATSectorNumber_spec (cf : CompoundFile) (image : List Byte)
    (hl : Loaded cf image) (m : Nat) :
    (∀ j, j ≤ m / (cf.sectorSize / 4) →
      chain cf.getNextFATSectorNumber (headerView image).firstMiniFATSectorLocation j
        = .ok CFB_SECTOR_END_OF_CHAIN →
      cf.getNextMiniFATSectorNumber m = .ok CFB_SECTOR_END_OF_CHAIN) ∧
    ((∀ j, j ≤ m / (cf.sectorSize / 4) →
      chain cf.getNextFATSectorNumber (headerView image).firstMiniFATSectorLocation j
        ≠ .ok CFB_SECTOR_END_OF_CHAIN) →
      ∀ v, cf.getNextMiniFATSectorNumber m = .ok v →
        ∃ s, chain cf.getNextFATSectorNumber (headerView image).firstMiniFATSectorLocation
            (m / (cf.sectorSize / 4)) = .ok s ∧
          cf.sectorSize * (s + 1) + m % (cf.sectorSize / 4) * 4 + 4 ≤ image.length ∧
          v = fieldAt image (cf.sectorSize * (s + 1) + m % (cf.sectorSize / 4) * 4) 4) := by
  have r := hl.ready
  have heps : 0 < cf.sectorSize / 4 := by
    have := (sectorSize_facts r).2.2.2.2.2
    omega
  constructor
  · intro j hj hc
    obtain ⟨m', hloop⟩ := getDirectoryEntryLoop_endOfChain cf _ heps j m m _ hc hj
      (Nat.div_le_self _ _)
    exact getNextMiniFATSectorNumber_stop r m m' _ hloop rfl
  · intro hno v hv
    rcases hloop : cf.getDirectoryEntryLoop (cf.sectorSize / 4) m m
        (headerView image).firstMiniFATSectorLocation with e | ⟨m', s⟩
    · rw [getNextMiniFATSectorNumber_error r m e hloop] at hv
      cases hv
    · obtain ⟨k, hk, hm, hend⟩ := getDirectoryEntryLoop_ok cf _ _ _ _ _ _ hloop
      have hkle : k ≤ m / (cf.sectorSize / 4) := by
        rw [hm, Nat.add_mul_div_right _ _ heps]
        exact Nat.le_add_left _ _
      have hs : s ≠ CFB_SECTOR_END_OF_CHAIN := by
        intro hs
        rw [hs] at hk
        exact hno k hkle hk
      have hlt : m' < cf.sectorSize / 4 := by
        rcases hend with h | h
        · exact h
        · exact absurd h hs
      have hq : m / (cf.sectorSize / 4) = k := by
        rw [hm, Nat.add_mul_div_right _ _ heps, Nat.div_eq_of_lt hlt, Nat.zero_add]
      have hr : m % (cf.sectorSize / 4) = m' := by
        rw [hm, Nat.add_mul_mod_self_right, Nat.mod_eq_of_lt hlt]
      have hsmall : m' * 4 % 2 ^ 32 = m' * 4 := by
        apply Nat.mod_eq_of_lt
        rcases r.sector with hS | hS <;> rw [hS] at hlt <;> omega
      rw [getNextMiniFATSectorNumber_value r m m' s hloop hs, hsmall] at hv
      obtain ⟨_, _, h3, h4⟩ := (valueInSector_ok_iff r _ _ _).1 hv
      rw [hq, hr]
      exact ⟨s, hk, h3, h4⟩

/-- C19, at concrete inputs: in `imageSmall` the MiniFAT is sector 3 alone;
mini sector 128 lies behind its end, and the entry of mini sector 0 is 1. -/
theorem getNextMiniFATSectorNumber_spec_witness :
    readerSmall.getNextMiniFATSectorNumber 128 = .ok CFB_SECTOR_END_OF_CHAIN ∧
      ∃ s, chain readerSmall.getNextFATSectorNumber
          (headerView imageSmall).firstMiniFATSectorLocation
          (0 / (readerSmall.sectorSize / 4)) = .ok s ∧
        readerSmall.sectorSize * (s + 1) + 0 % (readerSmall.sectorSize / 4) * 4 + 4
          ≤ imageSmall.length ∧
        1 = fieldAt imageSmall
          (readerSmall.sectorSize * (s + 1) + 0 % (readerSmall.sectorSize / 4) * 4) 4 :=
  ⟨(getNextMiniFATSectorNumber_spec readerSmall imageSmall readerSmall_loaded 128).1 1
      (by decide) (by decide!),
    (getNextMiniFATSectorNumber_spec readerSmall imageSmall readerSmall_loaded 0).2
      (fun j hj => by
        have h0 : j = 0 := by
          have : 0 / (readerSmall.sectorSize / 4) = 0 := by decide
          omega
        subst h0
        decide!)
      1 (by decide!)⟩

/-! ## Termination of `readStream` and of the walks -/

theorem getDirectoryEntryLoop_fuel {cf : CompoundFile} {image : List Byte} (r : Ready cf image)
    (eps : Nat) (heps : 0 < eps) :
    ∀ fuel fuel' id s, id / eps ≤ fuel → id / eps ≤ fuel' →
      cf.getDirectoryEntryLoop eps fuel id s = cf.getDirectoryEntryLoop eps fuel' id s ∧
        cf.getDirectoryEntryLoop eps fuel id s ≠ .error .outOfFuel := by
  intro fuel
  induction fuel with
  | zero =>
    intro fuel' id s h _
    have hlt : id < eps := by
      by_contra hge
      have := div_pos_of_ge heps (Nat.le_of_not_lt hge)
      omega
    rw [getDirectoryEntryLoop_lt cf eps _ id s hlt, getDirectoryEntryLoop_lt cf eps _ id s hlt]
    exact ⟨rfl, by simp⟩
  | succ fuel ih =>
    intro fuel' id s h h'
    by_cases hlt : id < eps
    · rw [getDirectoryEntryLoop_lt cf eps _ id s hlt, getDirectoryEntryLoop_lt cf eps _ id s hlt]
      exact ⟨rfl, by simp⟩
    by_cases hs : s = CFB_SECTOR_END_OF_CHAIN
    · rw [hs, getDirectoryEntryLoop_stop, getDirectoryEntryLoop_stop]
      exact ⟨rfl, by simp⟩
    have hge : eps ≤ id := Nat.le_of_not_lt hlt
    have h1 := div_pos_of_ge heps hge
    have h2 := div_pred_of_ge heps hge
    obtain ⟨f', rfl⟩ : ∃ f', fuel' = f' + 1 := ⟨fuel' - 1, by omega⟩
    rw [getDirectoryEntryLoop_hop cf eps fuel id s hge hs,
      getDirectoryEntryLoop_hop cf eps f' id s hge hs]
    rcases hn : cf.getNextFATSectorNumber s with e | n
    · refine ⟨rfl, ?_⟩
      intro hc
      simp only [Except.bind, Except.error.injEq] at hc
      subst hc
      exact getNextFATSectorNumber_not_outOfFuel r s hn
    · exact ih f' (id - eps) n (by omega) (by omega)

theorem getAddressWithMiniSectorNumberLoop_below (cf : CompoundFile) (fuel d off : Nat)
    (h : off < cf.sectorSize) :
    cf.getAddressWithMiniSectorNumberLoop fuel d off = .ok (d, off) := by
  have h' : ¬ off ≥ cf.sectorSize := by omega
  cases fuel <;> simp only [CompoundFile.getAddressWithMiniSectorNumberLoop, h', if_false]

theorem getAddressWithMiniSectorNumberLoop_hop (cf : CompoundFile) (fuel d off : Nat)
    (h : off ≥ cf.sectorSize) :
    cf.getAddressWithMiniSectorNumberLoop (fuel + 1) d off =
      (cf.getNextFATSectorNumber d).bind fun next =>
        cf.getAddressWithMiniSectorNumberLoop fuel next ((off - cf.sectorSize) % 2 ^ 32) := by
  simp only [CompoundFile.getAddressWithMiniSectorNumberLoop, h, if_true, bind]

theorem getAddressWithMiniSectorNumberLoop_fuel {cf : CompoundFile} {image : List Byte}
    (r : Ready cf image) :
    ∀ fuel fuel' d off, off / cf.sectorSize ≤ fuel → off / cf.sectorSize ≤ fuel' →
      cf.getAddressWithMiniSectorNumberLoop fuel d off
          = cf.getAddressWithMiniSectorNumberLoop fuel' d off ∧
        cf.getAddressWithMiniSectorNumberLoop fuel d off ≠ .error .outOfFuel := by
  have hS : 0 < cf.sectorSize := by rcases r.sector with h | h <;> omega
  intro fuel
  induction fuel with
  | zero =>
    intro fuel' d off h _
    have hlt : off < cf.sectorSize := by
      by_contra hge
      have := div_pos_of_ge hS (Nat.le_of_not_lt hge)
      omega
    rw [getAddressWithMiniSectorNumberLoop_below cf _ d off hlt,
      getAddressWithMiniSectorNumberLoop_below cf _ d off hlt]
    exact ⟨rfl, by simp⟩
  | succ fuel ih =>
    intro fuel' d off h h'
    by_cases hlt : off < cf.sectorSize
    · rw [getAddressWithMiniSectorNumberLoop_below cf _ d off hlt,
        getAddressWithMiniSectorNumberLoop_below cf _ d off hlt]
      exact ⟨rfl, by simp⟩
    have hge : cf.sectorSize ≤ off := Nat.le_of_not_lt hlt
    have h1 := div_pos_of_ge hS hge
    have h2 := div_pred_of_ge hS hge
    have h3 : (off - cf.sectorSize) % 2 ^ 32 / cf.sectorSize ≤ (off - cf.sectorSize) / cf.sectorSize :=
      Nat.div_le_div_right (Nat.mod_le _ _)
    obtain ⟨f', rfl⟩ : ∃ f', fuel' = f' + 1 := ⟨fuel' - 1, by omega⟩
    rw [getAddressWithMiniSectorNumberLoop_hop cf fuel d off hge,
      getAddressWithMiniSectorNumberLoop_hop cf f' d off hge]
    rcases hn : cf.getNextFATSectorNumber d with e | n
    · refine ⟨rfl, ?_⟩
      intro hc
      simp only [Except.bind, Except.error.injEq] at hc
      subst hc
      exact getNextFATSectorNumber_not_outOfFuel r d hn
    · exact ih f' n _ (by omega) (by omega)

theorem getAddressWithSectorNumber_not_outOfFuel (cf : CompoundFile) (n o : Nat) :
    cf.getAddressWithSectorNumber n o ≠ .error .outOfFuel := by
  unfold CompoundFile.getAddressWithSectorNumber
  dsimp only
  split_ifs <;> simp

theorem getAddressWithMiniSectorNumber_not_outOfFuel {cf : CompoundFile} {image : List Byte}
    (r : Ready cf image) (m o : Nat) :
    cf.getAddressWithMiniSectorNumber m o ≠ .error .outOfFuel := by
  unfold CompoundFile.getAddressWithMiniSectorNumber
  split_ifs
  · simp
  · simp
  · have hf := (getAddressWithMiniSectorNumberLoop_fuel r
      ((m * cf.miniSectorSize + o) % 2 ^ 64 % 2 ^ 32)
      ((m * cf.miniSectorSize + o) % 2 ^ 64 % 2 ^ 32) cf.miniStreamStartSector
      ((m * cf.miniSectorSize + o) % 2 ^ 64 % 2 ^ 32) (Nat.div_le_self _ _)
      (Nat.div_le_self _ _)).2
    rcases hl : cf.getAddressWithMiniSectorNumberLoop
        ((m * cf.miniSectorSize + o) % 2 ^ 64 % 2 ^ 32) cf.miniStreamStartSector
        ((m * cf.miniSectorSize + o) % 2 ^ 64 % 2 ^ 32) with e | p
    · rw [hl] at hf
      simp only [bind, Except.bind, hl]
      intro hc
      simp only [Except.error.injEq] at hc
      subst hc
      exact hf rfl
    · simp only [bind, Except.bind, hl]
      exact getAddressWithSectorNumber_not_outOfFuel cf _ _

theorem getNextMiniFATSectorNumber_not_outOfFuel {cf : CompoundFile} {image : List Byte}
    (r : Ready cf image) (m : Nat) : cf.getNextMiniFATSectorNumber m ≠ .error .outOfFuel := by
  have heps : 0 < cf.sectorSize / 4 := by
    have := (sectorSize_facts r).2.2.2.2.2
    omega
  have hf := (getDirectoryEntryLoop_fuel r _ heps m m m
    (headerView image).firstMiniFATSectorLocation (Nat.div_le_self _ _) (Nat.div_le_self _ _)).2
  rcases hloop : cf.getDirectoryEntryLoop (cf.sectorSize / 4) m m
      (headerView image).firstMiniFATSectorLocation with e | ⟨m', s⟩
  · rw [getNextMiniFATSectorNumber_error r m e hloop]
    rw [hloop] at hf
    intro hc
    simp only [Except.error.injEq] at hc
    subst hc
    exact hf rfl
  · by_cases hs : s = CFB_SECTOR_END_OF_CHAIN
    · rw [getNextMiniFATSectorNumber_stop r m m' s hloop hs]
      simp
    · rw [getNextMiniFATSectorNumber_value r m m' s hloop hs]
      exact valueInSector_not_outOfFuel cf _ _

theorem load_not_outOfFuel (cf : CompoundFile) (a n : Nat) :
    cf.load a n ≠ .error .outOfFuel := by
  unfold CompoundFile.load
  cases cf.buffer
  · simp
  · dsimp only
    split_ifs <;> simp

theorem ceilDiv_zero_of_le {rem S fuel : Nat} (hS : 0 < S) (h : (rem + S - 1) / S ≤ fuel)
    (h0 : fuel = 0) : rem = 0 := by
  by_contra hne
  have := div_pos_of_ge hS (show S ≤ rem + S - 1 by omega)
  omega

theorem ceilDiv_step {rem S : Nat} (hS : 0 < S) (hrem : 0 < rem) :
    (rem - min S rem + S - 1) / S = (rem + S - 1) / S - 1 ∧ 1 ≤ (rem + S - 1) / S := by
  have h1 := div_pos_of_ge hS (show S ≤ rem + S - 1 by omega)
  refine ⟨?_, h1⟩
  rcases Nat.lt_or_ge S rem with hlt | hge
  · have hmin : min S rem = S := by omega
    rw [hmin, ← div_pred_of_ge hS (show S ≤ rem + S - 1 by omega)]
    congr 1
    omega
  · have hmin : min S rem = rem := by omega
    rw [hmin, Nat.sub_self, Nat.zero_add, Nat.div_eq_of_lt (by omega)]
    have h2 : (rem + S - 1) / S < 2 := by
      rw [Nat.div_lt_iff_lt_mul hS]
      omega
    omega

theorem readStreamLoop_fuel (cf : CompoundFile) (S : Nat) (hS : 0 < S)
    (addr : Nat → Nat → Except Err Nat) (next : Nat → Except Err Nat)
    (haddr : ∀ s o, addr s o ≠ .error .outOfFuel) (hnext : ∀ s, next s ≠ .error .outOfFuel) :
    ∀ fuel fuel' s rem buf pos, (rem + S - 1) / S ≤ fuel → (rem + S - 1) / S ≤ fuel' →
      cf.readStreamLoop S addr next fuel s rem buf pos
          = cf.readStreamLoop S addr next fuel' s rem buf pos ∧
        (cf.readStreamLoop S addr next fuel s rem buf pos).1 ≠ .error .outOfFuel := by
  intro fuel
  induction fuel with
  | zero =>
    intro fuel' s rem buf pos h _
    have h0 := ceilDiv_zero_of_le hS h rfl
    subst h0
    rw [readStreamLoop_done, readStreamLoop_done]
    exact ⟨rfl, by simp⟩
  | succ fuel ih =>
    intro fuel' s rem buf pos h h'
    rcases Nat.eq_zero_or_pos rem with h0 | hrem
    · subst h0
      rw [readStreamLoop_done, readStreamLoop_done]
      exact ⟨rfl, by simp⟩
    obtain ⟨hstep, hpos⟩ := ceilDiv_step hS hrem
    obtain ⟨f', rfl⟩ : ∃ f', fuel' = f' + 1 := ⟨fuel' - 1, by omega⟩
    rcases ha : addr s 0 with e | a
    · rw [readStreamLoop_addr_error _ _ _ _ _ _ _ _ _ hrem e ha,
        readStreamLoop_addr_error _ _ _ _ _ _ _ _ _ hrem e ha]
      refine ⟨rfl, ?_⟩
      intro hc
      simp only [Except.error.injEq] at hc
      subst hc
      exact haddr s 0 ha
    rcases hload : cf.load a (min S rem) with e | source
    · rw [readStreamLoop_load_error _ _ _ _ _ _ _ _ _ hrem a ha e hload,
        readStreamLoop_load_error _ _ _ _ _ _ _ _ _ hrem a ha e hload]
      refine ⟨rfl, ?_⟩
      intro hc
      simp only [Except.error.injEq] at hc
      subst hc
      exact load_not_outOfFuel cf _ _ hload
    rcases hn : next s with e | n
    · rw [readStreamLoop_next_error _ _ _ _ _ _ _ _ _ hrem a ha source hload e hn,
        readStreamLoop_next_error _ _ _ _ _ _ _ _ _ hrem a ha source hload e hn]
      refine ⟨rfl, ?_⟩
      intro hc
      simp only [Except.error.injEq] at hc
      subst hc
      exact hnext s hn
    · rw [readStreamLoop_step _ _ _ _ _ _ _ _ _ hrem a ha source hload n hn,
        readStreamLoop_step _ _ _ _ _ _ _ _ _ hrem a ha source hload n hn]
      exact ih f' n _ _ _ (by omega) (by omega)

theorem streamAddress_not_outOfFuel {cf : CompoundFile} {image : List Byte} (r : Ready cf image)
    (entry : DirectoryEntry) (s o : Nat) :
    streamAddress cf image entry s o ≠ .error .outOfFuel := by
  unfold streamAddress
  split_ifs
  · exact getAddressWithMiniSectorNumber_not_outOfFuel r s o
  · exact getAddressWithSectorNumber_not_outOfFuel cf s o

theorem streamNext_not_outOfFuel {cf : CompoundFile} {image : List Byte} (r : Ready cf image)
    (entry : DirectoryEntry) (s : Nat) : streamNext cf image entry s ≠ .error .outOfFuel := by
  unfold streamNext
  split_ifs
  · exact getNextMiniFATSectorNumber_not_outOfFuel r s
  · exact getNextFATSectorNumber_not_outOfFuel r s

theorem ceilDiv_le_self {rem S : Nat} (hS : 0 < S) : (rem + S - 1) / S ≤ rem := by
  rcases Nat.eq_zero_or_pos rem with h0 | hrem
  · subst h0
    rw [Nat.zero_add, Nat.div_eq_of_lt (by omega)]
  · rw [Nat.div_le_iff_le_mul_add_pred hS]
    have : rem * 1 ≤ S * rem := by
      rw [Nat.mul_comm S rem]
      exact Nat.mul_le_mul_left rem hS
    omega

/-- C14. In a loaded reader `read_stream(e)` ends, with a buffer or an error,
whatever the image holds: its copy loop ends within `ceil(e.streamSize / S)`
iterations; the DIFAT walk for FAT block `i` ends within `(i - 109) div k` hops,
`k = sector_size / 4 - 1`; the mini-stream walk for the linear offset `L` ends
within `L div sector_size` hops; the MiniFAT walk for mini sector `m` ends
within `m div (sector_size / 4)` hops.  (A loop ends within `N` iterations:
with fuel `N` it does not run out of fuel, and with more fuel the result is the
same.) -/
theorem readStream_terminates (cf : CompoundFile) (image : List Byte) (hl : Loaded cf image)
    (alloc : Nat → Bool) (entry : DirectoryEntry) (buffer : List Byte) :
    ((cf.readStreamOfEntryInto alloc entry buffer).1 ≠ .error .outOfFuel ∧
      cf.readStreamOfEntry alloc entry ≠ .error .outOfFuel) ∧
    (∀ b0, resize alloc buffer entry.streamSize = .ok b0 →
      ∀ fuel, (entry.streamSize + streamSectorSize cf image entry - 1)
          / streamSectorSize cf image entry ≤ fuel →
        cf.readStreamLoop (streamSectorSize cf image entry) (streamAddress cf image entry)
          (streamNext cf image entry) fuel entry.startSectorLocation entry.streamSize
          b0 0 = cf.readStreamOfEntryInto alloc entry buffer) ∧
    (∀ i d fuel, (i - 109) / (cf.sectorSize / 4 - 1) ≤ fuel →
      cf.getFATSectorNumberLoop (cf.sectorSize / 4 - 1) fuel (i - 109) d
          = cf.getFATSectorNumberLoop (cf.sectorSize / 4 - 1)
              ((i - 109) / (cf.sectorSize / 4 - 1)) (i - 109) d ∧
        cf.getFATSectorNumberLoop (cf.sectorSize / 4 - 1) fuel (i - 109) d
          ≠ .error .outOfFuel) ∧
    (∀ L d fuel, L / cf.sectorSize ≤ fuel →
      cf.getAddressWithMiniSectorNumberLoop fuel d L
          = cf.getAddressWithMiniSectorNumberLoop (L / cf.sectorSize) d L ∧
        cf.getAddressWithMiniSectorNumberLoop fuel d L ≠ .error .outOfFuel) ∧
    (∀ m s fuel, m / (cf.sectorSize / 4) ≤ fuel →
      cf.getNextMiniFATSectorNumberLoop (cf.sectorSize / 4) fuel m s
          = cf.getNextMiniFATSectorNumberLoop (cf.sectorSize / 4) (m / (cf.sectorSize / 4)) m s ∧
        cf.getNextMiniFATSectorNumberLoop (cf.sectorSize / 4) fuel m s
          ≠ .error .outOfFuel) := by
  have r := hl.ready
  have hS := streamSectorSize_pos r entry
  have hk := (sectorSize_facts r).2.2.2.1
  have heps : 0 < cf.sectorSize / 4 := by
    have := (sectorSize_facts r).2.2.2.2.2
    omega
  have hloop := readStreamLoop_fuel cf _ hS _ _ (streamAddress_not_outOfFuel r entry)
    (streamNext_not_outOfFuel r entry)
  have hinto : ∀ buf : List Byte,
      (cf.readStreamOfEntryInto alloc entry buf).1 ≠ .error .outOfFuel := by
    intro buf
    rcases hr : resize alloc buf entry.streamSize with e | b0
    · rw [readStreamOfEntryInto_error cf alloc entry buf e hr]
      intro hc
      simp only [Except.error.injEq] at hc
      subst hc
      rcases resize_error hr with h | h <;> cases h
    · rw [readStreamOfEntryInto_eq r alloc entry buf b0 hr]
      exact (hloop entry.streamSize entry.streamSize entry.startSectorLocation
        entry.streamSize b0 0 (ceilDiv_le_self hS) (ceilDiv_le_self hS)).2
  refine ⟨⟨hinto buffer, ?_⟩, ?_, ?_, ?_, ?_⟩
  · intro hc
    exact hinto [] ((readStreamOfEntry_error_iff cf alloc entry _).1 hc)
  · intro b0 hr fuel hfuel
    rw [readStreamOfEntryInto_eq r alloc entry buffer b0 hr]
    exact (hloop fuel entry.streamSize _ _ _ _ hfuel (ceilDiv_le_self hS)).1
  · intro i d fuel hfuel
    exact getFATSectorNumberLoop_fuel r _ hk fuel _ (i - 109) d hfuel (Nat.le_refl _)
  · intro L d fuel hfuel
    exact getAddressWithMiniSectorNumberLoop_fuel r fuel _ d L hfuel (Nat.le_refl _)
  · intro m s fuel hfuel
    rw [getNextMiniFATSectorNumberLoop_eq, getNextMiniFATSectorNumberLoop_eq]
    exact getDirectoryEntryLoop_fuel r _ heps fuel _ m s hfuel (Nat.le_refl _)

/-- C14, at a concrete input: the stream of 1500 bytes from sector 4 of
`imageSmall`, whose chain ends early. -/
theorem readStream_terminates_witness :
    (readerSmall.readStreamOfEntryInto allocAlways entryTruncated []).1 ≠ .error .outOfFuel ∧
      readerSmall.readStreamOfEntry allocAlways entryTruncated ≠ .error .outOfFuel :=
  (readStream_terminates readerSmall imageSmall readerSmall_loaded allocAlways entryTruncated
    []).1

/-! ## Inputs on which the source goes wrong -/

/-- C13, at the failing input: `imageCut` has 513 bytes; its header is valid and
the address resolver accepts the root entry at offset 512, since the first byte
of the entry lies in the image; `read` then loads the 8 bytes of `creationTime`
at offsets 612 to 619, behind the end of the image, and no exception is
thrown. -/
theorem read_loads_past_end :
    imageCut.length = 513 ∧
      (sized imageCut).getRootDirectoryEntry = .ok (some 512) ∧
      513 < 512 + 100 + 8 ∧
      (CompoundFile.new.read (some imageCut)).1 = .error .undefinedRead ∧
      Err.undefinedRead.isException = false := by
  decide!

theorem chain_error_succ (next : Nat → Except Err Nat) (s j : Nat) (e : Err)
    (h : chain next s j = .error e) : chain next s (j + 1) = .error e := by
  rw [chain, h]

theorem chain_error_le (next : Nat → Except Err Nat) (s j : Nat) (e : Err)
    (h : chain next s j = .error e) : ∀ q, j ≤ q → chain next s q = .error e := by
  intro q hq
  induction q with
  | zero =>
    have : j = 0 := by omega
    subst this
    exact h
  | succ q ih =>
    rcases Nat.lt_or_ge j (q + 1) with hlt | hge
    · exact chain_error_succ next s q e (ih (by omega))
    · have : j = q + 1 := by omega
      subst this
      exact h

/-- C18, at the failing input: in `imageSmall` the mini stream is the single
sector 2.  For mini sector `2 ^ 26` and offset 0 the linear offset is `2 ^ 32`,
which is `2 ^ 23` sectors into the mini-stream chain, and that chain has no
sector from the second one on; the source keeps the low 32 bits of the linear
offset, 0, and returns the address of mini sector 0. -/
theorem getAddressWithMiniSectorNumber_wraps :
    2 ^ 26 < CFB_SECTOR_MAX_REGULAR_SECTOR ∧
      (2 ^ 26 * 64 + 0) / readerSmall.sectorSize = 2 ^ 23 ∧
      (∀ q, 2 ≤ q → chain readerSmall.getNextFATSectorNumber readerSmall.miniStreamStartSector q
        = .error .sectorGeMaxRegular) ∧
      readerSmall.getAddressWithMiniSectorNumber (2 ^ 26) 0 = .ok 1536 ∧
      readerSmall.getAddressWithMiniSectorNumber 0 0 = .ok 1536 :=
  ⟨by decide, by decide,
    chain_error_le _ _ 2 _ (by decide!), by decide!, by decide!⟩

theorem iterateNodes_left_error (cf : CompoundFile) (fuel entry depth : Nat)
    (calls calls' : List (Nat × Nat)) (el : Option Nat) (e : Err)
    (hc : cf.getLinkedEntry entry 76 = .ok none)
    (hl : cf.getLinkedEntry entry 68 = .ok el)
    (hls : cf.iterateNodes fuel el depth (calls ++ [(entry, depth)]) = (.error e, calls')) :
    cf.iterateNodes (fuel + 1) (some entry) depth calls = (.error e, calls') := by
  simp only [CompoundFile.iterateNodes, hc, ne_eq, not_true_eq_false, if_false, hl, hls]

theorem iterateNodes_cycle :
    ∀ fuel calls, readerCycle.iterateNodes fuel (some 640) 0 calls
      = (.error .outOfFuel, calls ++ List.replicate fuel (640, 0)) := by
  have hc : readerCycle.getLinkedEntry 640 76 = .ok none := by decide!
  have hl : readerCycle.getLinkedEntry 640 68 = .ok (some 640) := by decide!
  intro fuel
  induction fuel with
  | zero =>
    intro calls
    simp only [CompoundFile.iterateNodes, List.replicate, List.append_nil]
  | succ fuel ih =>
    intro calls
    rw [iterateNodes_left_error readerCycle fuel 640 0 calls _ (some 640) .outOfFuel hc hl
      (ih _)]
    simp only [List.append_assoc, List.singleton_append, List.replicate_succ]

/-- C12, at the failing input: in `imageCycle` entry 1 is its own left sibling.
Whatever the fuel, `iterate_all` and `iterate_from` of the root have not ended
when the fuel is used up, and have by then delivered entry 1 once for each unit
of fuel: the recursion goes on without end, and no revisit is rejected. -/
theorem iterateAll_cycle (fuel : Nat) :
    Loaded readerCycle imageCycle ∧
      readerCycle.getDirectoryEntry 1 = .ok (some 640) ∧
      readerCycle.getLinkedEntry 640 68 = .ok (some 640) ∧
      readerCycle.iterateAll fuel = (.error .outOfFuel, List.replicate fuel (640, 0)) ∧
      readerCycle.iterateFromDirectoryEntry fuel
          { objectType := 5, leftSiblingID := CFB_DIRECTORY_ENTRY_NO_STREAM,
            rightSiblingID := CFB_DIRECTORY_ENTRY_NO_STREAM, childID := 1, creationTime := 0,
            startSectorLocation := CFB_SECTOR_END_OF_CHAIN, streamSize := 0 }
        = (.error .outOfFuel, List.replicate fuel (640, 0)) := by
  have hroot : readerCycle.getRootDirectoryEntry = .ok (some 512) := by decide!
  have hchild : readerCycle.getLinkedEntry 512 76 = .ok (some 640) := by decide!
  have hone : readerCycle.getDirectoryEntry 1 = .ok (some 640) := by decide!
  refine ⟨⟨CompoundFile.new, by decide!⟩, hone, by decide!, ?_, ?_⟩
  · simp only [CompoundFile.iterateAll, hroot, hchild]
    rw [iterateNodes_cycle, List.nil_append]
  · simp only [CompoundFile.iterateFromDirectoryEntry, hone]
    rw [iterateNodes_cycle, List.nil_append]

theorem getFATSectorNumberLoop_selfLoop {cf : CompoundFile} {image : List Byte}
    (r : Ready cf image) (k d : Nat) (hk : 0 < k) (hd : cf.nextDIFATSector d = .ok d) :
    ∀ fuel j, j / k ≤ fuel → cf.getFATSectorNumberLoop k fuel j d = .ok (j % k, d) := by
  intro fuel
  induction fuel with
  | zero =>
    intro j h
    have hlt : j < k := by
      by_contra hge
      have := div_pos_of_ge hk (Nat.le_of_not_lt hge)
      omega
    rw [getFATSectorNumberLoop_below cf k _ j d hlt, Nat.mod_eq_of_lt hlt]
  | succ fuel ih =>
    intro j h
    by_cases hlt : j < k
    · rw [getFATSectorNumberLoop_below cf k _ j d hlt, Nat.mod_eq_of_lt hlt]
    · have hge : k ≤ j := Nat.le_of_not_lt hlt
      have h1 := div_pos_of_ge hk hge
      have h2 := div_pred_of_ge hk hge
      rw [getFATSectorNumberLoop_hop r k fuel j d hge, hd, Nat.mod_eq_sub_mod hge,
        ← ih (j - k) (by omega)]
      rfl

theorem getFATSectorNumber_of_loop {cf : CompoundFile} {image : List Byte} (r : Ready cf image)
    (i j' d' : Nat) (h : 109 ≤ i)
    (hloop : cf.getFATSectorNumberLoop (cf.sectorSize / 4 - 1) (i - 109) (i - 109)
      (headerView image).firstDIFATSectorLocation = .ok (j', d')) :
    cf.getFATSectorNumber i = cf.valueInSector d' ((j' * 4) % 2 ^ 32) := by
  rw [getFATSectorNumber_ge r i h, hloop]
  rfl

theorem getNextFATSectorNumber_of_fat {cf : CompoundFile} {image : List Byte}
    (r : Ready cf image) (n f : Nat) (hn : n < 2 ^ 32)
    (hf : cf.getFATSectorNumber (n / (cf.sectorSize / 4)) = .ok f) :
    cf.getNextFATSectorNumber n = cf.valueInSector f (n % (cf.sectorSize / 4) * 4) := by
  rw [getNextFATSectorNumber_eq r n hn, hf]
  rfl

theorem getDirectoryEntryLoop_hop_ok (cf : CompoundFile) (eps fuel id s n : Nat) (h : eps ≤ id)
    (hs : s ≠ CFB_SECTOR_END_OF_CHAIN) (hn : cf.getNextFATSectorNumber s = .ok n) :
    cf.getDirectoryEntryLoop eps (fuel + 1) id s
      = cf.getDirectoryEntryLoop eps fuel (id - eps) n := by
  rw [getDirectoryEntryLoop_hop cf eps fuel id s h hs, hn]
  rfl

theorem getDirectoryEntry_of_loop {cf : CompoundFile} {image : List Byte} (r : Ready cf image)
    (id id' s : Nat) (hid : id ≠ CFB_DIRECTORY_ENTRY_NO_STREAM)
    (hloop : cf.getDirectoryEntryLoop (cf.sectorSize / 128) id id
      (headerView image).firstDirectorySectorLocation = .ok (id', s)) :
    cf.getDirectoryEntry id = (cf.getAddressWithSectorNumber s ((id' * 128) % 2 ^ 32)).map some := by
  rw [getDirectoryEntry_eq r id hid, hloop]

theorem readerSentinel_loaded : Loaded readerSentinel imageSentinel :=
  ⟨CompoundFile.new, by decide!⟩

theorem readerSentinel_next_free :
    readerSentinel.getNextFATSectorNumber CFB_SECTOR_FREE_SECT = .ok 3 := by
  have r := readerSentinel_loaded.ready
  have hblock : CFB_SECTOR_FREE_SECT / (readerSentinel.sectorSize / 4) = 33554431 := by decide!
  have hself : readerSentinel.nextDIFATSector 2 = .ok 2 := by decide!
  have hfirst : (headerView imageSentinel).firstDIFATSectorLocation = 2 := by decide!
  have hloop := getFATSectorNumberLoop_selfLoop r (readerSentinel.sectorSize / 4 - 1) 2
    (by decide!) hself (33554431 - 109) (33554431 - 109) (Nat.div_le_self _ _)
  rw [← hfirst] at hloop
  have hfat : readerSentinel.getFATSectorNumber 33554431 = .ok 0 := by
    rw [getFATSectorNumber_of_loop r 33554431 _ _ (by decide!) hloop]
    decide!
  rw [← hblock] at hfat
  rw [getNextFATSectorNumber_of_fat r _ 0 (by decide!) hfat]
  decide!

/-- C20, at the failing input: in `imageSentinel` the directory chain is sector
1 and then `FREE`.  For index 8 the walk of `entry_at` has reached `FREE` with
four entries still to skip; it does not stop: `next_sector_in_chain(FREE)` is
evaluated and gives 3, the walk goes on to sector 3, and `entry_at(8)` returns
an entry. -/
theorem getDirectoryEntry_walks_on_sentinel :
    chain readerSentinel.getNextFATSectorNumber
        (headerView imageSentinel).firstDirectorySectorLocation 1 = .ok CFB_SECTOR_FREE_SECT ∧
      CFB_SECTOR_FREE_SECT ≥ CFB_SECTOR_MAX_REGULAR_SECTOR ∧
      1 < 8 / (readerSentinel.sectorSize / 128) ∧
      readerSentinel.getNextFATSectorNumber CFB_SECTOR_FREE_SECT = .ok 3 ∧
      readerSentinel.getDirectoryEntry 8 = .ok (some 2048) := by
  have r := readerSentinel_loaded.ready
  have hfd : (headerView imageSentinel).firstDirectorySectorLocation = 1 := by decide!
  have heps : readerSentinel.sectorSize / 128 = 4 := by decide!
  have hone : readerSentinel.getNextFATSectorNumber 1 = .ok CFB_SECTOR_FREE_SECT := by decide!
  have hloop : readerSentinel.getDirectoryEntryLoop (readerSentinel.sectorSize / 128) 8 8
      (headerView imageSentinel).firstDirectorySectorLocation = .ok (8 - 4 - 4, 3) := by
    rw [heps, hfd, getDirectoryEntryLoop_hop_ok _ 4 7 8 1 _ (by decide) (by decide!) hone,
      getDirectoryEntryLoop_hop_ok _ 4 6 (8 - 4) _ 3 (by decide) (by decide!)
        readerSentinel_next_free,
      getDirectoryEntryLoop_lt _ 4 6 (8 - 4 - 4) 3 (by decide)]
  refine ⟨by decide!, by decide!, by decide!, readerSentinel_next_free, ?_⟩
  rw [getDirectoryEntry_of_loop r 8 _ _ (by decide!) hloop]
  decide!

/-! ## The entries that the traversal delivers -/

theorem entryOn_noStream (cf : CompoundFile) (path : List Link) :
    entryOn cf CFB_DIRECTORY_ENTRY_NO_STREAM path = none := by
  cases path <;> exact if_pos rfl

theorem entryOn_nil (cf : CompoundFile) (i entry : Nat) (hne : i ≠ CFB_DIRECTORY_ENTRY_NO_STREAM)
    (he : cf.getDirectoryEntry i = .ok (some entry)) : entryOn cf i [] = some entry := by
  simp only [entryOn, hne, if_false, he]

theorem entryOn_cons (cf : CompoundFile) (i entry next : Nat) (link : Link) (rest : List Link)
    (hne : i ≠ CFB_DIRECTORY_ENTRY_NO_STREAM) (he : cf.getDirectoryEntry i = .ok (some entry))
    (hnext : cf.getUint32Field (entry + link.member) = .ok next) :
    entryOn cf i (link :: rest) = entryOn cf next rest := by
  simp only [entryOn, hne, if_false, he, hnext]

theorem consLink_disjoint (a b : Link) (hab : a ≠ b) (p q : List (List Link)) :
    List.Disjoint (p.map (List.cons a)) (q.map (List.cons b)) := by
  intro x hx hy
  obtain ⟨u, _, rfl⟩ := List.mem_map.1 hx
  obtain ⟨v, _, hv⟩ := List.mem_map.1 hy
  exact hab (List.cons.inj hv).1.symm

theorem nil_not_mem_consLink (a : Link) (p : List (List Link)) :
    [] ∉ p.map (List.cons a) := by
  intro h
  obtain ⟨u, _, hu⟩ := List.mem_map.1 h
  cases hu

theorem mem_consLink (a b : Link) (rest : List Link) (p : List (List Link)) :
    b :: rest ∈ p.map (List.cons a) ↔ b = a ∧ rest ∈ p := by
  constructor
  · intro h
    obtain ⟨u, hu, he⟩ := List.mem_map.1 h
    obtain ⟨h1, h2⟩ := List.cons.inj he
    exact ⟨h1.symm, h2 ▸ hu⟩
  · rintro ⟨rfl, h⟩
    exact List.mem_map.2 ⟨rest, h, rfl⟩

theorem visit_paths {cf : CompoundFile} {i d : Nat} {out : List (Nat × Nat)}
    (h : Visit cf i d out) :
    ∃ paths : List (List Link), paths.Nodup ∧
      (∀ path, path ∈ paths ↔ (entryOn cf i path).isSome = true) ∧
      out.map Prod.fst = paths.filterMap (entryOn cf i) := by
  induction h with
  | nil d =>
    refine ⟨[], List.nodup_nil, ?_, rfl⟩
    intro path
    rw [entryOn_noStream]
    simp
  | node i d entry child left right cs ls rs hne he hchild hleft hright _ _ _ ihc ihl ihr =>
    obtain ⟨pc, hpc1, hpc2, hpc3⟩ := ihc
    obtain ⟨pl, hpl1, hpl2, hpl3⟩ := ihl
    obtain ⟨pr, hpr1, hpr2, hpr3⟩ := ihr
    have e0 := entryOn_nil cf i entry hne he
    have ec : ∀ rest, entryOn cf i (Link.child :: rest) = entryOn cf child rest :=
      fun rest => entryOn_cons cf i entry child .child rest hne he hchild
    have el : ∀ rest, entryOn cf i (Link.left :: rest) = entryOn cf left rest :=
      fun rest => entryOn_cons cf i entry left .left rest hne he hleft
    have er : ∀ rest, entryOn cf i (Link.right :: rest) = entryOn cf right rest :=
      fun rest => entryOn_cons cf i entry right .right rest hne he hright
    refine ⟨[] :: (pc.map (List.cons Link.child) ++ pl.map (List.cons Link.left)
      ++ pr.map (List.cons Link.right)), ?_, ?_, ?_⟩
    · rw [List.nodup_cons]
      constructor
      · intro hmem
        rcases List.mem_append.1 hmem with hmem | hmem
        · rcases List.mem_append.1 hmem with hmem | hmem
          · exact nil_not_mem_consLink _ _ hmem
          · exact nil_not_mem_consLink _ _ hmem
        · exact nil_not_mem_consLink _ _ hmem
      · rw [List.nodup_append]
        refine ⟨?_, hpr1.map (List.cons_injective), ?_⟩
        · rw [List.nodup_append]
          exact ⟨hpc1.map (List.cons_injective), hpl1.map (List.cons_injective),
            consLink_disjoint _ _ (by decide) _ _⟩
        · intro x hx hy
          rcases List.mem_append.1 hx with hx | hx
          · exact consLink_disjoint _ _ (by decide) _ _ hx hy
          · exact consLink_disjoint _ _ (by decide) _ _ hx hy
    · intro path
      cases path with
      | nil =>
        rw [e0]
        simp
      | cons link rest =>
        rw [List.mem_cons, List.mem_append, List.mem_append, mem_consLink, mem_consLink,
          mem_consLink]
        cases link with
        | child =>
          rw [ec, ← hpc2]
          simp
        | left =>
          rw [el, ← hpl2]
          simp
        | right =>
          rw [er, ← hpr2]
          simp
    · have hfc : (entryOn cf i ∘ List.cons Link.child) = entryOn cf child := funext ec
      have hfl : (entryOn cf i ∘ List.cons Link.left) = entryOn cf left := funext el
      have hfr : (entryOn cf i ∘ List.cons Link.right) = entryOn cf right := funext er
      rw [List.filterMap_cons_some e0, List.filterMap_append, List.filterMap_append,
        List.filterMap_map, List.filterMap_map, List.filterMap_map, hfc, hfl, hfr,
        ← hpc3, ← hpl3, ← hpr3]
      simp only [List.map_append, List.map_cons, List.map_nil, List.singleton_append,
        List.cons_append, List.append_assoc, List.nil_append]

theorem filterMap_length_of_isSome {α β : Type} (f : α → Option β) :
    ∀ l : List α, (∀ x, x ∈ l → (f x).isSome = true) → (l.filterMap f).length = l.length := by
  intro l
  induction l with
  | nil => intro _; rfl
  | cons a l ih =>
    intro h
    obtain ⟨b, hb⟩ := Option.isSome_iff_exists.1 (h a (List.mem_cons_self a l))
    rw [List.filterMap_cons_some hb, List.length_cons, List.length_cons,
      ih (fun x hx => h x (List.mem_cons_of_mem a hx))]

theorem filterMap_nodup_of_injOn {α β : Type} (f : α → Option β) :
    ∀ l : List α, l.Nodup → (∀ x, x ∈ l → (f x).isSome = true) →
      (∀ x, x ∈ l → ∀ y, y ∈ l → f x = f y → x = y) → (l.filterMap f).Nodup := by
  intro l
  induction l with
  | nil => intro _ _ _; exact List.nodup_nil
  | cons a l ih =>
    intro hnd hsome hinj
    obtain ⟨b, hb⟩ := Option.isSome_iff_exists.1 (hsome a (List.mem_cons_self a l))
    rw [List.filterMap_cons_some hb, List.nodup_cons]
    obtain ⟨hnot, hnd'⟩ := List.nodup_cons.1 hnd
    constructor
    · intro hmem
      obtain ⟨x, hx, hfx⟩ := List.mem_filterMap.1 hmem
      have : a = x := hinj a (List.mem_cons_self a l) x (List.mem_cons_of_mem a hx)
        (by rw [hb, hfx])
      exact hnot (this ▸ hx)
    · exact ih hnd' (fun x hx => hsome x (List.mem_cons_of_mem a hx))
        (fun x hx y hy => hinj x (List.mem_cons_of_mem a hx) y (List.mem_cons_of_mem a hy))

/-- C11, as stated, fails: in `imageUnallocated` the root's child is entry 1,
whose object type is 0 (unknown or unallocated); `iterate_all` delivers it, one
entry where no allocated entry is reachable. -/
theorem iterateAll_delivers_unallocated :
    Loaded readerUnallocated imageUnallocated ∧
      readerUnallocated.iterateAll 2 = (.ok (), [(640, 0)]) ∧
      fieldAt imageUnallocated (640 + 66) 1 = ENTRY_UNKNOWN_OR_UNALLOCATED :=
  ⟨⟨CompoundFile.new, by decide!⟩, by decide!, by decide!⟩

/-- C11, amended. In a loaded reader whose links below the root's child form a
finite tree, `iterate_all` delivers one entry for every chain of child, left and
right links from the root's child that leads to an entry, in the order of
`visit`, and nothing else; the object type of an entry plays no part.  So the
number of entries delivered is the number of such chains, and when no two chains
lead to the same entry, no entry is delivered twice. -/
theorem iterateAll_paths (cf : CompoundFile) (image : List Byte) (hl : Loaded cf image) :
    ∃ root child, cf.getRootDirectoryEntry = .ok (some root) ∧
      cf.getUint32Field (root + 76) = .ok child ∧
      ∀ out, Visit cf child 0 out →
        (∃ fuel, ∀ n, fuel ≤ n → cf.iterateAll n = (.ok (), out)) ∧
        ∃ paths : List (List Link), paths.Nodup ∧
          (∀ path, path ∈ paths ↔ (entryOn cf child path).isSome = true) ∧
          out.map Prod.fst = paths.filterMap (entryOn cf child) ∧
          out.length = paths.length ∧
          ((∀ p, p ∈ paths → ∀ q, q ∈ paths → entryOn cf child p = entryOn cf child q → p = q) →
            (out.map Prod.fst).Nodup) := by
  have r := hl.ready
  obtain ⟨root, hroot, hlen⟩ := hl.root
  have hchild : cf.getUint32Field (root + 76) = .ok (fieldAt image (root + 76) 4) := by
    rw [getUint32Field_eq r.buffer, if_pos (by omega)]
  refine ⟨root, _, hroot, hchild, ?_⟩
  intro out hv
  constructor
  · obtain ⟨fuel, hf⟩ := iterateNodes_visit hv
    obtain ⟨e, he⟩ := hv.entry
    refine ⟨fuel, ?_⟩
    intro n hn
    have := hf n hn [] e he
    simp only [CompoundFile.iterateAll, hroot, getLinkedEntry_eq _ _ _ _ hchild, he]
    rw [this, List.nil_append]
  · obtain ⟨paths, h1, h2, h3⟩ := visit_paths hv
    refine ⟨paths, h1, h2, h3, ?_, ?_⟩
    · have := filterMap_length_of_isSome (entryOn cf (fieldAt image (root + 76) 4)) paths
        (fun x hx => (h2 x).1 hx)
      rw [← h3, List.length_map] at this
      exact this
    · intro hinj
      rw [h3]
      exact filterMap_nodup_of_injOn _ paths h1 (fun x hx => (h2 x).1 hx) hinj

/-- C11, amended, at a concrete input: the four entries below the root of
`imageSmall`. -/
theorem iterateAll_paths_witness :
    ∃ paths : List (List Link), paths.Nodup ∧
      (∀ path, path ∈ paths ↔ (entryOn readerSmall 1 path).isSome = true) ∧
      [1152, 1280, 1408, 3584] = paths.filterMap (entryOn readerSmall 1) ∧
      4 = paths.length := by
  obtain ⟨root, child, hroot, hchild, h⟩ :=
    iterateAll_paths readerSmall imageSmall readerSmall_loaded
  have hr : readerSmall.getRootDirectoryEntry = .ok (some 1024) := by decide!
  rw [hr] at hroot
  cases hroot
  have hc : readerSmall.getUint32Field (1024 + 76) = .ok 1 := by decide!
  rw [hc] at hchild
  cases hchild
  obtain ⟨_, paths, h1, h2, h3, h4, _⟩ := h _ visit_readerSmall
  exact ⟨paths, h1, h2, h3, h4⟩

/-- C17, at concrete inputs: in `imageSentinel` entry 5 of the header DIFAT, and
FAT block 109, the first entry of the DIFAT sector 2. -/
theorem getFATSectorNumber_spec_witness :
    (readerSentinel.getFATSectorNumber 5 = .ok (fieldAt imageSentinel (76 + 4 * 5) 4) ∧
      (headerView imageSentinel).headerDIFAT[5]? = some (fieldAt imageSentinel (76 + 4 * 5) 4)) ∧
    ∃ d, chain readerSentinel.nextDIFATSector (headerView imageSentinel).firstDIFATSectorLocation
        ((109 - 109) / (readerSentinel.sectorSize / 4 - 1)) = .ok d ∧
      readerSentinel.sectorSize * (d + 1) + (109 - 109) % (readerSentinel.sectorSize / 4 - 1) * 4
        + 4 ≤ imageSentinel.length ∧
      0 = fieldAt imageSentinel (readerSentinel.sectorSize * (d + 1)
        + (109 - 109) % (readerSentinel.sectorSize / 4 - 1) * 4) 4 :=
  ⟨(getFATSectorNumber_spec readerSentinel imageSentinel readerSentinel_loaded 5).1 (by decide),
    ((getFATSectorNumber_spec readerSentinel imageSentinel readerSentinel_loaded 109).2.1
      (by decide) 0 (by decide!)).1⟩

/-! ## The stream of no bytes -/

theorem readStreamCalls_done (cf : CompoundFile) (S : Nat) (addr : Nat → Nat → Except Err Nat)
    (next : Nat → Except Err Nat) (fuel s : Nat) :
    cf.readStreamCalls S addr next fuel s 0 = [] := by
  cases fuel <;> simp [CompoundFile.readStreamCalls]

theorem readStreamOfEntryCalls_done {cf : CompoundFile} (alloc : Nat → Bool)
    (entry : DirectoryEntry) (buffer : List Byte) (h0 : entry.streamSize = 0) :
    cf.readStreamOfEntryCalls alloc entry buffer = [] := by
  unfold CompoundFile.readStreamOfEntryCalls
  rw [h0, resize_zero]
  rcases cf.header with e | h
  · rfl
  · dsimp only
    split_ifs <;> exact readStreamCalls_done cf _ _ _ _ _

/-- C21. In a loaded reader, for an entry `e` with `streamSize == 0` and any
`startSectorLocation`, `read_stream(e)` returns the empty buffer, and the
two-argument form leaves the caller's buffer empty, whether or not the vector
can get storage; it makes no call of the sector addressing or of the FAT and
MiniFAT lookups; and `readStream` on that size returns without touching the
buffer whatever its two function arguments are, those that throw at every call
included. -/
theorem readStreamOfEntry_empty (cf : CompoundFile) (image : List Byte) (hl : Loaded cf image)
    (alloc : Nat → Bool) (entry : DirectoryEntry) (h0 : entry.streamSize = 0) :
    cf.readStreamOfEntry alloc entry = .ok [] ∧
    (∀ buffer, cf.readStreamOfEntryInto alloc entry buffer = (.ok (), [])) ∧
    (∀ buffer, cf.readStreamOfEntryCalls alloc entry buffer = []) ∧
    ∀ (sectorSize : Nat) (addressFn : Nat → Nat → Except Err Nat)
      (nextSectorFn : Nat → Except Err Nat) (buffer : List Byte),
      cf.readStream entry.startSectorLocation entry.streamSize buffer sectorSize addressFn
        nextSectorFn = (.ok (), buffer) := by
  have r := hl.ready
  have hinto : ∀ buffer, cf.readStreamOfEntryInto alloc entry buffer = (.ok (), []) := by
    intro buffer
    have hr : resize alloc buffer entry.streamSize = .ok [] := by
      rw [h0]
      exact resize_zero alloc buffer
    rw [readStreamOfEntryInto_eq r alloc entry buffer [] hr, h0, readStreamLoop_done]
  refine ⟨?_, hinto, fun buffer => readStreamOfEntryCalls_done alloc entry buffer h0, ?_⟩
  · rw [readStreamOfEntry_ok_iff]
    exact hinto []
  · intro S addr next buffer
    unfold CompoundFile.readStream
    rw [h0]
    exact readStreamLoop_done cf S addr next 0 _ buffer 0

/-- C21, at concrete inputs: in `imageSmall`, of 4096 bytes, the entries of no
bytes that start at `END_OF_CHAIN`, at `FREE` and at sector 1000, read by a
vector that gets no storage. -/
theorem readStreamOfEntry_empty_witness :
    (readerSmall.readStreamOfEntry allocNever (entryEmpty CFB_SECTOR_END_OF_CHAIN) = .ok [] ∧
      ∀ buffer, readerSmall.readStreamOfEntryCalls allocNever
        (entryEmpty CFB_SECTOR_END_OF_CHAIN) buffer = []) ∧
    (readerSmall.readStreamOfEntry allocNever (entryEmpty CFB_SECTOR_FREE_SECT) = .ok [] ∧
      ∀ buffer, readerSmall.readStreamOfEntryCalls allocNever
        (entryEmpty CFB_SECTOR_FREE_SECT) buffer = []) ∧
    (readerSmall.readStreamOfEntry allocNever (entryEmpty 1000) = .ok [] ∧
      ∀ buffer, readerSmall.readStreamOfEntryCalls allocNever (entryEmpty 1000) buffer = []) :=
  ⟨⟨(readStreamOfEntry_empty readerSmall imageSmall readerSmall_loaded allocNever
        (entryEmpty CFB_SECTOR_END_OF_CHAIN) rfl).1,
      (readStreamOfEntry_empty readerSmall imageSmall readerSmall_loaded allocNever
        (entryEmpty CFB_SECTOR_END_OF_CHAIN) rfl).2.2.1⟩,
    ⟨(readStreamOfEntry_empty readerSmall imageSmall readerSmall_loaded allocNever
        (entryEmpty CFB_SECTOR_FREE_SECT) rfl).1,
      (readStreamOfEntry_empty readerSmall imageSmall readerSmall_loaded allocNever
        (entryEmpty CFB_SECTOR_FREE_SECT) rfl).2.2.1⟩,
    ⟨(readStreamOfEntry_empty readerSmall imageSmall readerSmall_loaded allocNever
        (entryEmpty 1000) rfl).1,
      (readStreamOfEntry_empty readerSmall imageSmall readerSmall_loaded allocNever
        (entryEmpty 1000) rfl).2.2.1⟩⟩

/-! ## The chain that `readStream` walks -/

end CFB
